import Mathlib

/-! wechat-qrcode-ncnn: a shallow embedding of the detect-and-decode pipeline

The definitions below follow the C++ sources function by function:

* `core/src/wechat_qrcode/src/wechat_qrcode.cpp` (orchestrator, scale list),
* `core/src/wechat_qrcode/src/detector/align.cpp` (crop and warpBack),
* `core/src/wechat_qrcode/src/detector/ssd_detector.cpp` (region detector),
* `core/src/wechat_qrcode/src/scale/super_scale.cpp` (rescaling),
* `core/src/wechat_qrcode/src/zxing/common/binarizer/adaptive_threshold_mean_binarizer.cpp`
  (adaptive binarizer),
* `core/src/handle.h` (handle registry),
* `core/src/qrcode.cpp`, `core/src/qrcode_result.cpp` (C API and result accessors),
* `android-jni/qrcode_jni.c` (the conversion `utf8_to_utf16`).

Conventions of the embedding:

* `int` values are integers of `ℤ`; signed overflow (undefined behaviour in C++) is not
  modelled, while the explicit narrowing `static_cast<int>(size_t)` is modelled by
  `static_cast_int` (wrap-around to 32 bits);
* `float` values are rationals (`float`); the rounding of the format is modelled in
  `SuperScale::processImageScale`, whose output size depends on it, by `float_round`
  (IEEE 754 binary32, round to nearest, ties to even), and is left out of the other
  operations, which are computed exactly;
* a pointer argument that may be null is an `Option`: `none` is the null pointer, `some v`
  a pointer to a cell (or buffer) currently holding `v`; functions return the new content;
* library code that is not part of the repository (image resampling, network inference,
  the barcode decoder) is passed in as functions.
-/

/-! ## Scalars and matrices -/

/-- The C++ type `float`, modelled by exact rational numbers. -/
abbrev float := ℚ

/-- The implicit conversion from `float` to `int`: truncation toward zero. -/
def float_to_int (f : float) : Int := if 0 ≤ f then ⌊f⌋ else ⌈f⌉

/-- Rounding of a rational to the nearest integer, a tie going to the even neighbour. -/
def round_half_even (y : ℚ) : Int :=
  if y - ⌊y⌋ < 1 / 2 then ⌊y⌋
  else if 1 / 2 < y - ⌊y⌋ then ⌊y⌋ + 1
  else if ⌊y⌋ % 2 = 0 then ⌊y⌋ else ⌊y⌋ + 1

/-- The binary exponent of the `float` interval holding `x`: the integer `e` with
`2^e ≤ |x| < 2^(e+1)`, and `-126`, the exponent of the subnormal values, below `2^(-126)`. -/
def float_exponent (x : ℚ) : Int := max (Int.log 2 |x|) (-126)

/-- The `float` value of a real result `x` (IEEE 754 binary32, round to nearest, ties to
even): the significand has 24 bits, so the values of exponent `e` are the multiples of
`2^(e-23)`. Overflow to infinity is not modelled, the results at hand being products of an
image dimension and a scale. -/
def float_round (x : ℚ) : float :=
  (round_half_even (x / 2 ^ (float_exponent x - 23)) : ℚ) * 2 ^ (float_exponent x - 23)

/-- The implicit conversion from `int` to `float`. -/
def int_to_float (n : Int) : float := float_round (n : ℚ)

/-- The product of two `float` values, computed in `float`. -/
def float_mul (a b : float) : float := float_round (a * b)

/-- The conversion `static_cast<int>(n)` of an unsigned size: reduction modulo `2^32`
into the range of a 32 bit two's complement integer. -/
def static_cast_int (n : Int) : Int := (n + 2 ^ 31) % 2 ^ 32 - 2 ^ 31

/-- The bytes of a `std::string` (type `char`). -/
abbrev Byte := Fin 256

/-- The matrix type `cv::Mat`: `rows`, `cols`, channel count `c` and the element read by
`ptr<T>(i)[j]`, here `data i j`. Images are `Mat Nat` (8 bit intensities), point lists are
`Mat float` with two columns. -/
structure Mat (α : Type) where
  rows : Int
  cols : Int
  c : Int
  data : Nat → Nat → α

/-- The point type `cv::Point2f`. -/
structure Point2f where
  x : float
  y : float
deriving DecidableEq

/-- The rectangle type `cv::Rect`. -/
structure Rect where
  x : Int
  y : Int
  width : Int
  height : Int
deriving DecidableEq

/-- The expression `inputImg(roi).clone()`: the sub-matrix of `roi.height` rows and
`roi.width` columns whose origin is `(roi.x, roi.y)`. -/
def Mat.roi_clone (inputImg : Mat Nat) (roi : Rect) : Mat Nat :=
  ⟨roi.height, roi.width, inputImg.c,
    fun i j => inputImg.data (i + roi.y.toNat) (j + roi.x.toNat * inputImg.c.toNat)⟩

/-! ## ScaleSelector: `WeChatQRCode::Impl::getScaleList` -/

/-- Source: `WeChatQRCode::Impl::getScaleList` (wechat_qrcode.cpp, lines 226-230). -/
def WeChatQRCode.Impl.getScaleList (width height : Int) : List float :=
  if width < 320 ∨ height < 320 then [1.0, 2.0, 0.5]
  else if width < 640 ∧ height < 640 then [1.0, 0.5]
  else [0.5, 1.0]

/-! ## Aligner: `Align` (align.cpp) -/

/-- The class `Align`: the crop origin and the transpose flag. -/
structure Align where
  crop_x_ : Int
  crop_y_ : Int
  rotate90_ : Bool
deriving DecidableEq

/-- Source: the constructor `Align::Align()` sets `rotate90_ = false`; the crop origin is
not initialised there and is written by `crop` (modelled as `0` until then). -/
def Align.new : Align := ⟨0, 0, false⟩

/-- Source: `Align::setRotate90`. -/
def Align.setRotate90 (self : Align) (v : Bool) : Align := ⟨self.crop_x_, self.crop_y_, v⟩

/-- Source: `transposeMat` (align.cpp, lines 15-29): element `(i, j)` of the source goes
to `(j, i)` of a destination of `src.cols` rows and `src.rows` columns. -/
def transposeMat (src : Mat Nat) : Mat Nat :=
  ⟨src.cols, src.rows, src.c,
    fun j k => src.data (k / src.c.toNat) (j * src.c.toNat + k % src.c.toNat)⟩

/-- Source: `Align::warpBack` (align.cpp, lines 33-41). -/
def Align.warpBack (self : Align) (dst_pts : List Point2f) : List Point2f :=
  dst_pts.map fun p =>
    let src_x := (if self.rotate90_ then p.y else p.x) + (self.crop_x_ : float)
    let src_y := (if self.rotate90_ then p.x else p.y) + (self.crop_y_ : float)
    ⟨src_x, src_y⟩

/-- The rectangle `crop_roi` built by `Align::crop` (align.cpp, lines 45-61), together
with the aligner after the assignment of `crop_x_` and `crop_y_`. The expression `n & -2`
is `Int.land n (-2)`. -/
def Align.crop_roi (self : Align) (inputImg : Mat Nat) (srcPts : Mat float)
    (paddingW paddingH : float) (minPadding : Int) : Align × Rect :=
  let x0 := float_to_int (srcPts.data 0 0)
  let y0 := float_to_int (srcPts.data 0 1)
  let x2 := float_to_int (srcPts.data 2 0)
  let y2 := float_to_int (srcPts.data 2 1)
  let width := x2 - x0 + 1
  let height := y2 - y0 + 1
  let padx := float_to_int (max (paddingW * (width : float)) (minPadding : float))
  let pady := float_to_int (max (paddingH * (height : float)) (minPadding : float))
  let crop_x := max (x0 - padx) 0
  let crop_y := max (y0 - pady) 0
  let end_x := min (x2 + padx) (inputImg.cols - 1)
  let end_y := min (y2 + pady) (inputImg.rows - 1)
  (⟨crop_x, crop_y, self.rotate90_⟩,
   ⟨crop_x, crop_y, Int.land (end_x - crop_x + 1) (-2), Int.land (end_y - crop_y + 1) (-2)⟩)

/-- Source: `Align::crop` (align.cpp, lines 43-66): the cropped (and, when `rotate90_`
is set, transposed) image and the aligner holding the crop origin. -/
def Align.crop (self : Align) (inputImg : Mat Nat) (srcPts : Mat float)
    (paddingW paddingH : float) (minPadding : Int) : Align × Mat Nat :=
  let r := self.crop_roi inputImg srcPts paddingW paddingH minPadding
  let dst := inputImg.roi_clone r.2
  (r.1, if self.rotate90_ then transposeMat dst else dst)

/-- The matrix of `num_points` rows and 2 columns holding the points `pts`, as built for
`point_to_save` in `Impl::decode` (wechat_qrcode.cpp, lines 142-147). -/
def Mat.of_points (pts : List Point2f) : Mat float :=
  ⟨static_cast_int pts.length, 2, 1,
    fun j k => if k = 0 then (pts.getD j ⟨0, 0⟩).x else (pts.getD j ⟨0, 0⟩).y⟩

/-- A single-channel image of the given size with all intensities `0`. -/
def Mat.blank (rows cols : Int) : Mat Nat := ⟨rows, cols, 1, fun _ _ => 0⟩

/-! ## Library collaborators -/

/-- The conversion types of `ncnn::Mat::PixelType` named in the repository. -/
inductive PixelType where
  | PIXEL_GRAY
  | PIXEL_RGB2GRAY
  | PIXEL_BGR2GRAY
  | PIXEL_RGBA2GRAY
  | PIXEL_BGRA2GRAY
deriving DecidableEq

/-- The library operations used by the pipeline whose code is not part of the repository:
`cv::Mat::empty`, the ncnn pixel conversion to gray (`from_pixels` followed by `to_pixels`,
with the conversion type and the image), `sqrt`, the two resamplers (source image, target
width, target height, giving the pixels of the target), the default value of the argument
`sr_max_size` of `processImageScale`, and `DecoderMgr::decodeImage`, which on success
(`ret == 0`, here `some`) yields for each decoded symbol its text, appended to the running
text list, and its corner points in the frame of the image it was given, and on failure
(here `none`) appends nothing. -/
structure Library where
  empty : Mat Nat → Bool
  to_gray : PixelType → Mat Nat → Nat → Nat → Nat
  sqrt : float → float
  resize_bicubic : Mat Nat → Int → Int → Nat → Nat → Nat
  resize_bilinear_c1 : Mat Nat → Int → Int → Nat → Nat → Nat
  sr_max_size : Int
  decodeImage : Mat Nat → Bool → Option (List (List Byte × List Point2f))

/-- The function `std::clamp(v, lo, hi)`. -/
def clamp (v lo hi : float) : float := if v < lo then lo else if hi < v then hi else v

/-! ## RegionDetector: `SSDDetector` (ssd_detector.cpp) -/

/-- The class `SSDDetector`: the loaded network `net_`, as the function from the image and
the target size (the image is resized to the target size and normalised before inference)
to the rows of the blob `detection_output`, six values per row. -/
structure SSDDetector where
  net_ : Mat Nat → Int → Int → List (List float)

/-- Source: `SSDDetector::forward` (ssd_detector.cpp, lines 25-62). -/
def SSDDetector.forward (self : SSDDetector) (img : Mat Nat)
    (target_width target_height : Int) : List (Mat float) :=
  let img_w := img.cols
  let img_h := img.rows
  let prob := self.net_ img target_width target_height
  prob.filterMap fun prob_score =>
    if prob_score.getD 0 0 = 1 ∧ prob_score.getD 1 0 > 1e-5 then
      let x0 := clamp (prob_score.getD 2 0 * (img_w : float)) 0 ((img_w : float) - 1)
      let y0 := clamp (prob_score.getD 3 0 * (img_h : float)) 0 ((img_h : float) - 1)
      let x1 := clamp (prob_score.getD 4 0 * (img_w : float)) 0 ((img_w : float) - 1)
      let y1 := clamp (prob_score.getD 5 0 * (img_h : float)) 0 ((img_h : float) - 1)
      some ⟨4, 2, 1, fun i j =>
        if i = 0 then (if j = 0 then x0 else y0)
        else if i = 1 then (if j = 0 then x1 else y0)
        else if i = 2 then (if j = 0 then x1 else y1)
        else (if j = 0 then x0 else y1)⟩
    else none

/-! ## SuperScale (super_scale.cpp) -/

/-- The class `SuperScale`: the flag `net_loaded_` and the loaded network `srnet_`, as the
function from the image to the output blob (`rows = prob.h`, `cols = prob.w`). -/
structure SuperScale where
  net_loaded_ : Bool
  srnet_ : Mat Nat → Mat float

/-- Source: `SuperScale::superResoutionScale` (super_scale.cpp, lines 60-82); the
function always returns `0`, the result is the image written to `dst`. -/
def SuperScale.superResoutionScale (self : SuperScale) (src : Mat Nat) : Mat Nat :=
  let prob := self.srnet_ src
  ⟨prob.rows, prob.cols, 1, fun row col =>
    (float_to_int (clamp (prob.data row col * 255) 0 255)).toNat⟩

/-- Source: `SuperScale::processImageScale` (super_scale.cpp, lines 27-58). In
`int target_width = width * scale` the dimension is converted to `float`, the product is
computed in `float` and the result is converted to `int`. -/
def SuperScale.processImageScale (self : SuperScale) (lib : Library) (src : Mat Nat)
    (scale : float) (use_sr : Bool) (sr_max_size : Int) : Mat Nat :=
  if scale = 1.0 then src
  else
    let width := src.cols
    let height := src.rows
    let target_width := float_to_int (float_mul (int_to_float width) scale)
    let target_height := float_to_int (float_mul (int_to_float height) scale)
    if scale = 2.0 then
      let SR_TH := sr_max_size
      if use_sr ∧ float_to_int (lib.sqrt (((width * height : Int) : float) * 1.0)) < SR_TH
          ∧ self.net_loaded_ then
        self.superResoutionScale src
      else
        ⟨target_height, target_width, 1, lib.resize_bicubic src target_width target_height⟩
    else if scale < 1.0 then
      ⟨target_height, target_width, 1, lib.resize_bilinear_c1 src target_width target_height⟩
    else src

/-! ## Orchestrator: `WeChatQRCode` (wechat_qrcode.cpp) -/

/-- The class `WeChatQRCode::Impl`. -/
structure WeChatQRCode.Impl where
  detector_ : SSDDetector
  super_resolution_model_ : SuperScale
  use_nn_detector_ : Bool
  use_nn_sr_ : Bool
  scaleFactor : float

/-- The class `WeChatQRCode`, holding its implementation `p`. -/
structure WeChatQRCode where
  p : WeChatQRCode.Impl

/-- Source: the constructor `WeChatQRCode::WeChatQRCode` (wechat_qrcode.cpp, lines 48-67),
given the two networks it loads; `SuperScale::init` sets `net_loaded_`. -/
def WeChatQRCode.new (detect_net : Mat Nat → Int → Int → List (List float))
    (sr_net : Mat Nat → Mat float) : WeChatQRCode :=
  ⟨⟨⟨detect_net⟩, ⟨true, sr_net⟩, true, true, -1⟩⟩

/-- Source: `WeChatQRCode::setScaleFactor` (wechat_qrcode.cpp, lines 96-101). -/
def WeChatQRCode.setScaleFactor (self : WeChatQRCode) (_scaleFactor : float) : WeChatQRCode :=
  if _scaleFactor > 0 ∧ _scaleFactor ≤ 1 then
    ⟨⟨self.p.detector_, self.p.super_resolution_model_, self.p.use_nn_detector_,
      self.p.use_nn_sr_, _scaleFactor⟩⟩
  else
    ⟨⟨self.p.detector_, self.p.super_resolution_model_, self.p.use_nn_detector_,
      self.p.use_nn_sr_, -1⟩⟩

/-- Source: `WeChatQRCode::getScaleFactor` (wechat_qrcode.cpp, lines 103-105). -/
def WeChatQRCode.getScaleFactor (self : WeChatQRCode) : float := self.p.scaleFactor

/-- Source: `WeChatQRCode::Impl::applyDetector` (wechat_qrcode.cpp, lines 202-215). -/
def WeChatQRCode.Impl.applyDetector (self : WeChatQRCode.Impl) (lib : Library)
    (img : Mat Nat) : List (Mat float) :=
  let img_w := img.cols
  let img_h := img.rows
  let targetArea : float := 400 * 400
  let tmpScaleFactor : float :=
    if self.scaleFactor = -1 then min 1 (lib.sqrt (targetArea / ((img_w * img_h : Int) : float)))
    else self.scaleFactor
  let detect_width := float_to_int ((img_w : float) * tmpScaleFactor)
  let detect_height := float_to_int ((img_h : float) * tmpScaleFactor)
  self.detector_.forward img detect_width detect_height

/-- Source: `WeChatQRCode::Impl::detect` (wechat_qrcode.cpp, lines 179-200). -/
def WeChatQRCode.Impl.detect (self : WeChatQRCode.Impl) (lib : Library)
    (img : Mat Nat) : List (Mat float) :=
  if self.use_nn_detector_ then self.applyDetector lib img
  else
    let width := img.cols
    let height := img.rows
    [⟨4, 2, 1, fun i j =>
      if i = 0 then 0
      else if i = 1 then (if j = 0 then ((width - 1 : Int) : float) else 0)
      else if i = 2 then (if j = 0 then ((width - 1 : Int) : float)
        else ((height - 1 : Int) : float))
      else (if j = 0 then 0 else ((height - 1 : Int) : float))⟩]

/-- Source: `WeChatQRCode::Impl::cropObj` (wechat_qrcode.cpp, lines 217-223). -/
def WeChatQRCode.Impl.cropObj (img : Mat Nat) (point : Mat float) (aligner : Align) :
    Align × Mat Nat :=
  let padding_w : float := 0.1
  let padding_h : float := 0.1
  let min_padding : Int := 15
  aligner.crop img point padding_w padding_h min_padding

/-- The corner loop of the duplicate test (wechat_qrcode.cpp, lines 152-161), from index
`j` on: `rest` holds the corners `tmp_points[j], tmp_points[j+1], ...` still to compare
and `isDuplicate` the current value of the flag. -/
def WeChatQRCode.Impl.corner_loop (points_qr : List Point2f) :
    List Point2f → Nat → Bool → Bool
  | [], _, isDuplicate => isDuplicate
  | t :: rest, j, _ =>
    let eps : float := 10
    if |t.x - (points_qr.getD j ⟨0, 0⟩).x| < eps ∧ |t.y - (points_qr.getD j ⟨0, 0⟩).y| < eps then
      WeChatQRCode.Impl.corner_loop points_qr rest (j + 1) true
    else false

/-- The duplicate test of `Impl::decode` (wechat_qrcode.cpp, lines 149-162): the flag
starts `false` and the corner loop is run against every quad of `check_points` in turn. -/
def WeChatQRCode.Impl.isDuplicate (check_points : List (List Point2f))
    (points_qr : List Point2f) : Bool :=
  check_points.foldl
    (fun isDuplicate tmp_points =>
      WeChatQRCode.Impl.corner_loop points_qr tmp_points 0 isDuplicate)
    false

/-- The variables updated by the loops of `Impl::decode`: the running text list
`decode_results`, the output list `points` and the list `check_points`. -/
structure DecodeState where
  decode_results : List (List Byte)
  points : List (Mat float)
  check_points : List (List Point2f)

/-- The body of the loop over the decoded symbols (wechat_qrcode.cpp, lines 132-170) for
the symbol of index `i` with corner points `zxing_points_i`. The call of `erase` at an
index that is not below the size of `decode_results` has no defined result in C++: the
list is then left as it is here, a value about which nothing is claimed, and
`WeChatQRCode.Impl.erase_in_range` tells whether the loop stays clear of that case. -/
def WeChatQRCode.Impl.symbol_step (self : WeChatQRCode.Impl) (aligner : Align)
    (cur_scale : float) (st : DecodeState) (i : Nat) (zxing_points_i : List Point2f) :
    DecodeState :=
  let points_qr : List Point2f := zxing_points_i.map fun pt => ⟨pt.x / cur_scale, pt.y / cur_scale⟩
  let points_qr := if self.use_nn_detector_ then aligner.warpBack points_qr else points_qr
  let point_to_save := Mat.of_points points_qr
  if WeChatQRCode.Impl.isDuplicate st.check_points points_qr = false then
    ⟨st.decode_results, st.points ++ [point_to_save], st.check_points ++ [points_qr]⟩
  else
    ⟨st.decode_results.eraseIdx i, st.points, st.check_points⟩

/-- The loop over the decoded symbols, from index `i` on. -/
def WeChatQRCode.Impl.symbol_loop (self : WeChatQRCode.Impl) (aligner : Align)
    (cur_scale : float) : DecodeState → Nat → List (List Point2f) → DecodeState
  | st, _, [] => st
  | st, i, q :: rest =>
    WeChatQRCode.Impl.symbol_loop self aligner cur_scale
      (self.symbol_step aligner cur_scale st i q) (i + 1) rest

/-- The loop over `scale_list` of `Impl::decode` (wechat_qrcode.cpp, lines 124-173) for
one candidate: the first scale at which `decodeImage` succeeds has its texts appended to
`decode_results` and its symbols run through the symbol loop with an empty `check_points`,
and ends the loop. The result is the pair of `decode_results` and `points`. -/
def WeChatQRCode.Impl.scale_loop (self : WeChatQRCode.Impl) (lib : Library)
    (cropped_img : Mat Nat) (aligner : Align) :
    List float → List (List Byte) × List (Mat float) → List (List Byte) × List (Mat float)
  | [], acc => acc
  | cur_scale :: rest, acc =>
    let scaled_img := self.super_resolution_model_.processImageScale lib cropped_img cur_scale
      self.use_nn_sr_ lib.sr_max_size
    match lib.decodeImage scaled_img self.use_nn_detector_ with
    | some symbols =>
      let st := WeChatQRCode.Impl.symbol_loop self aligner cur_scale
        ⟨acc.1 ++ symbols.map Prod.fst, acc.2, []⟩ 0 (symbols.map Prod.snd)
      (st.decode_results, st.points)
    | none => WeChatQRCode.Impl.scale_loop self lib cropped_img aligner rest acc

/-- The body of the loop over the candidates of `Impl::decode` (wechat_qrcode.cpp, lines
114-174). -/
def WeChatQRCode.Impl.candidate_step (self : WeChatQRCode.Impl) (lib : Library)
    (img : Mat Nat) (acc : List (List Byte) × List (Mat float)) (point : Mat float) :
    List (List Byte) × List (Mat float) :=
  let aligner := Align.new
  let cropped : Align × Mat Nat :=
    if self.use_nn_detector_ then WeChatQRCode.Impl.cropObj img point aligner
    else (aligner, img)
  let scale_list := WeChatQRCode.Impl.getScaleList cropped.2.cols cropped.2.rows
  self.scale_loop lib cropped.2 cropped.1 scale_list acc

/-- Source: `WeChatQRCode::Impl::decode` (wechat_qrcode.cpp, lines 107-177): the returned
text list and the new content of the output argument `points`. -/
def WeChatQRCode.Impl.decode (self : WeChatQRCode.Impl) (lib : Library) (img : Mat Nat)
    (candidate_points : List (Mat float)) (points : List (Mat float)) :
    List (List Byte) × List (Mat float) :=
  if candidate_points.length = 0 then ([], points)
  else candidate_points.foldl (self.candidate_step lib img) ([], points)

/-- Source: `WeChatQRCode::detectAndDecode` (wechat_qrcode.cpp, lines 69-94): the returned
text list and the new content of the output argument `points`. -/
def WeChatQRCode.detectAndDecode (self : WeChatQRCode) (lib : Library) (img : Mat Nat)
    (points : List (Mat float)) : List (List Byte) × List (Mat float) :=
  if img.cols ≤ 20 ∨ img.rows ≤ 20 then ([], points)
  else
    let incn := img.c
    let input_img : Mat Nat :=
      if incn = 3 ∨ incn = 4 then
        let type := if incn = 3 then PixelType.PIXEL_BGR2GRAY else PixelType.PIXEL_BGRA2GRAY
        ⟨img.rows, img.cols, 1, lib.to_gray type img⟩
      else img
    let candidate_points := self.p.detect lib input_img
    let r := self.p.decode lib input_img candidate_points []
    (r.1, r.2)

/-! ## Handle registry: `Handle<T, HandleT>` (handle.h)

Keys are 64 bit words (`key_t = std::uintptr_t` with `sizeof(key_t) == 8`); a handle is the
pointer whose bits are the key, the null pointer being the key `0`. -/

/-- The static state of one instantiation of the class template `Handle`: the counter
`next_handle` of `generate_handle` and the map `handle_map`, as an association list from
keys to resources. -/
structure Handle (T : Type) where
  next_handle : Nat
  handle_map : List (Nat × T)

/-- The constant `xor_key` of `generate_handle` for 64 bit keys. -/
def Handle.xor_key : Nat := 0x9e3779b97f4a7c15

/-- Source: `Handle::generate_handle` (handle.h, lines 67-88), on the value of the counter:
the generated key and the new value of the counter. The increment and the left shift are
taken modulo `2^64`; the rotation is the shift-or expression of lines 83-85. -/
def Handle.generate_handle (next_handle : Nat) : Nat × Nat :=
  let shift := 23
  let raw := (next_handle + 1) % 2 ^ 64
  let bits := 8 * 8
  let s := shift % bits
  let shifted := if s = 0 then raw else ((raw <<< s) % 2 ^ 64) ||| (raw >>> (bits - s))
  (shifted ^^^ Handle.xor_key, raw)

/-- Source: `Handle::create_handle` (handle.h, lines 35-49). The loop `while (true)` runs
at most `fuel` times; `none` means that it has not returned within `fuel` iterations. The
result is the new handle and the new state. -/
def Handle.create_handle {T : Type} (ptr : T) : Nat → Handle T → Option (Nat × Handle T)
  | 0, _ => none
  | fuel + 1, st =>
    let g := Handle.generate_handle st.next_handle
    let index := g.1
    if index ≠ 0 then
      match st.handle_map.lookup index with
      | none => some (index, ⟨g.2, (index, ptr) :: st.handle_map⟩)
      | some _ => Handle.create_handle ptr fuel ⟨g.2, st.handle_map⟩
    else Handle.create_handle ptr fuel ⟨g.2, st.handle_map⟩

/-- Source: `Handle::release_handle` (handle.h, lines 51-54): whether an entry was erased,
and the new state. -/
def Handle.release_handle {T : Type} (st : Handle T) (handle : Nat) : Bool × Handle T :=
  ((st.handle_map.lookup handle).isSome,
   ⟨st.next_handle, st.handle_map.filter fun e => e.1 != handle⟩)

/-- Source: `Handle::get` (handle.h, lines 56-64); `none` is the null pointer. -/
def Handle.get {T : Type} (st : Handle T) (handle : Nat) : Option T :=
  st.handle_map.lookup handle

/-- The invariant of the registry: the key `0` (the null handle) is never in the map. It
holds for the empty map and is kept by `create_handle` and `release_handle`. -/
def Handle.Valid {T : Type} (st : Handle T) : Prop :=
  (st.handle_map.lookup 0).isNone = true

/-! ## The C API (qrcode.h, qrcode.cpp) -/

/-- The error codes `zzt_qrcode_error_t` (qrcode.h, lines 57-65). -/
inductive zzt_qrcode_error_t where
  | ZZT_QRCODE_OK
  | ZZT_QRCODE_ERROR_INVALID_HANDLE
  | ZZT_QRCODE_ERROR_INVALID_INDEX
  | ZZT_QRCODE_ERROR_BUFFER_TOO_SMALL
  | ZZT_QRCODE_ERROR_DECODE_FAILED
  | ZZT_QRCODE_ERROR_INVALID_ARGUMENT
  | ZZT_QRCODE_ERROR_OUT_OF_MEMORY
deriving DecidableEq

/-- The integer value of an error code (qrcode.h, lines 57-65). -/
def zzt_qrcode_error_t.toInt : zzt_qrcode_error_t → Int
  | .ZZT_QRCODE_OK => 0
  | .ZZT_QRCODE_ERROR_INVALID_HANDLE => -1
  | .ZZT_QRCODE_ERROR_INVALID_INDEX => -2
  | .ZZT_QRCODE_ERROR_BUFFER_TOO_SMALL => -3
  | .ZZT_QRCODE_ERROR_DECODE_FAILED => -4
  | .ZZT_QRCODE_ERROR_INVALID_ARGUMENT => -5
  | .ZZT_QRCODE_ERROR_OUT_OF_MEMORY => -6

/-- The class `QrcodeResult` (qrcode_result.h): the decoded text and the corner points. -/
structure QrcodeResult where
  text : List Byte
  result_points : Mat float

/-- Source: `QrcodeResult::get_text` (qrcode_result.cpp, line 12). -/
def QrcodeResult.get_text (self : QrcodeResult) : List Byte := self.text

/-- Source: `QrcodeResult::get_result_points` (qrcode_result.cpp, line 14). -/
def QrcodeResult.get_result_points (self : QrcodeResult) : Mat float := self.result_points

/-- The type `QrcodeResultList` (qrcode.cpp, lines 21-22). -/
abbrev QrcodeResultList := List QrcodeResult

/-- The two registries of the process: `WeChatQRCode::handle_map` for detectors and
`QrcodeResultList::handle_map` for result lists, each with its own counter. -/
structure Registries where
  detectors : Handle WeChatQRCode
  results : Handle QrcodeResultList

/-- Source: `zzt_qrcode_release_detector` (qrcode.cpp, lines 26-31). -/
def zzt_qrcode_release_detector (st : Registries) (detector : Nat) :
    zzt_qrcode_error_t × Registries :=
  if detector = 0 then (.ZZT_QRCODE_ERROR_INVALID_HANDLE, st)
  else
    let r := st.detectors.release_handle detector
    (if r.1 then .ZZT_QRCODE_OK else .ZZT_QRCODE_ERROR_INVALID_HANDLE, ⟨r.2, st.results⟩)

/-- Source: `qrcode_detect_and_decode_internal` (qrcode.cpp, lines 33-69), without the
timing log. `out_result` is `none` for a null pointer; the result is the error code, the
new content of `*out_result` and the new registries, or `none` when `create_handle` has not
returned within `fuel` iterations. Reading `points[i]` outside `points` (undefined in C++)
gives an empty matrix. -/
def qrcode_detect_and_decode_internal (lib : Library) (fuel : Nat) (st : Registries)
    (detector : Nat) (img : Mat Nat) (out_result : Option Nat) :
    Option (zzt_qrcode_error_t × Option Nat × Registries) :=
  match out_result with
  | none => some (.ZZT_QRCODE_ERROR_INVALID_ARGUMENT, none, st)
  | some _ =>
    match st.detectors.get detector with
    | none => some (.ZZT_QRCODE_ERROR_INVALID_HANDLE, some 0, st)
    | some detector_ptr =>
      if lib.empty img then some (.ZZT_QRCODE_ERROR_DECODE_FAILED, some 0, st)
      else
        let r := detector_ptr.detectAndDecode lib img []
        let results := r.1
        let points := r.2
        let result_len := results.length
        let result_vector : QrcodeResultList :=
          if result_len > 0 then
            (List.range result_len).map fun i =>
              ⟨results.getD i [], points.getD i ⟨0, 0, 0, fun _ _ => 0⟩⟩
          else []
        match st.results.create_handle result_vector fuel with
        | none => none
        | some (h, results_reg) => some (.ZZT_QRCODE_OK, some h, ⟨st.detectors, results_reg⟩)

/-- Source: `zzt_qrcode_release_result` (qrcode.cpp, lines 192-197). -/
def zzt_qrcode_release_result (st : Registries) (result : Nat) :
    zzt_qrcode_error_t × Registries :=
  if result = 0 then (.ZZT_QRCODE_ERROR_INVALID_HANDLE, st)
  else
    let r := st.results.release_handle result
    (if r.1 then .ZZT_QRCODE_OK else .ZZT_QRCODE_ERROR_INVALID_HANDLE, ⟨st.detectors, r.2⟩)

/-- Source: `zzt_qrcode_get_result_size` (qrcode.cpp, lines 199-212): the error code and
the new content of `*size` (`none` when `size` is null). -/
def zzt_qrcode_get_result_size (st : Registries) (result : Nat) (size : Option Int) :
    zzt_qrcode_error_t × Option Int :=
  match st.results.get result with
  | none => (.ZZT_QRCODE_ERROR_INVALID_HANDLE, size.map fun _ => 0)
  | some result_ptr => (.ZZT_QRCODE_OK, size.map fun _ => static_cast_int result_ptr.length)

/-- The call `text.copy(output_text, text_size)`: the first `text_size` cells of the
buffer receive the bytes of `text`. -/
def string_copy (text : List Byte) (output_text : Nat → Byte) : Nat → Byte :=
  fun i => if h : i < text.length then text.get ⟨i, h⟩ else output_text i

/-- Source: `zzt_qrcode_get_result_text` (qrcode.cpp, lines 214-246): the error code, the
new content of the buffer `output_text` and the new content of `*buffer_size` (each `none`
when the pointer is null). A buffer is the function from offsets to bytes. -/
def zzt_qrcode_get_result_text (st : Registries) (result : Nat) (index : Int)
    (output_text : Option (Nat → Byte)) (buffer_size : Option Int) :
    zzt_qrcode_error_t × Option (Nat → Byte) × Option Int :=
  match st.results.get result with
  | none => (.ZZT_QRCODE_ERROR_INVALID_HANDLE, output_text, buffer_size.map fun _ => 0)
  | some result_ptr =>
    if index < 0 ∨ index ≥ static_cast_int result_ptr.length then
      (.ZZT_QRCODE_ERROR_INVALID_INDEX, output_text, buffer_size.map fun _ => 0)
    else
      let text := (result_ptr.getD index.toNat ⟨[], ⟨0, 0, 0, fun _ _ => 0⟩⟩).get_text
      let text_size := text.length
      match output_text with
      | some buf =>
        let provided_size : Int := buffer_size.getD 0
        if provided_size ≤ static_cast_int text_size then
          (.ZZT_QRCODE_ERROR_BUFFER_TOO_SMALL, some buf,
            buffer_size.map fun _ => static_cast_int text_size + 1)
        else
          (.ZZT_QRCODE_OK, some (Function.update (string_copy text buf) text_size 0),
            buffer_size.map fun _ => static_cast_int text_size + 1)
      | none =>
        (.ZZT_QRCODE_OK, none, buffer_size.map fun _ => static_cast_int text_size + 1)

/-- The loop of `zzt_qrcode_get_result_points` (qrcode.cpp, lines 267-270) over the rows
`i` of the list: row `i` is written to the cells `i * 2` and `i * 2 + 1`. -/
def copy_points (result_points : Mat float) : List Nat → (Nat → float) → (Nat → float)
  | [], output_point => output_point
  | i :: rest, output_point =>
    copy_points result_points rest
      (Function.update (Function.update output_point (i * 2) (result_points.data i 0))
        (i * 2 + 1) (result_points.data i 1))

/-- Source: `zzt_qrcode_get_result_points` (qrcode.cpp, lines 248-276): the error code, the
new content of the buffer `output_point` and the new content of `*buffer_size`. -/
def zzt_qrcode_get_result_points (st : Registries) (result : Nat) (index : Int)
    (output_point : Option (Nat → float)) (buffer_size : Option Int) :
    zzt_qrcode_error_t × Option (Nat → float) × Option Int :=
  match st.results.get result with
  | none => (.ZZT_QRCODE_ERROR_INVALID_HANDLE, output_point, buffer_size)
  | some result_ptr =>
    if index < 0 ∨ index ≥ static_cast_int result_ptr.length then
      (.ZZT_QRCODE_ERROR_INVALID_INDEX, output_point, buffer_size)
    else
      let result_points :=
        (result_ptr.getD index.toNat ⟨[], ⟨0, 0, 0, fun _ _ => 0⟩⟩).get_result_points
      let len := result_points.rows
      match output_point with
      | some buf =>
        let provided_size : Int := buffer_size.getD 0
        if provided_size < len * 2 then
          (.ZZT_QRCODE_ERROR_BUFFER_TOO_SMALL, some buf, buffer_size.map fun _ => len * 2)
        else
          (.ZZT_QRCODE_OK, some (copy_points result_points (List.range len.toNat) buf),
            buffer_size.map fun _ => len * 2)
      | none => (.ZZT_QRCODE_OK, none, buffer_size.map fun _ => len * 2)

/-- Source: `zzt_qrcode_create_detector` (qrcode.cpp, line 24), given the detector object
built by the constructor: the new handle and the new registries. -/
def zzt_qrcode_create_detector (fuel : Nat) (st : Registries) (obj : WeChatQRCode) :
    Option (Nat × Registries) :=
  match st.detectors.create_handle obj fuel with
  | none => none
  | some (h, detectors_reg) => some (h, ⟨detectors_reg, st.results⟩)

/-- The key that `generate_handle` computes from the incremented counter `raw`, in
arithmetic form: rotation by 23 bits, then exclusive or with `xor_key` (see
`generate_handle_eq`). -/
def Handle.mix (raw : Nat) : Nat :=
  ((raw % 2 ^ 41) * 2 ^ 23 + raw / 2 ^ 41) ^^^ Handle.xor_key

/-! ## Concrete inputs used by the witnesses -/

/-- A decoded record: the text `HELLO` and a quad of 4 corner points. -/
def example_result : QrcodeResult :=
  ⟨[72, 69, 76, 76, 79], Mat.of_points [⟨10, 10⟩, ⟨50, 10⟩, ⟨50, 50⟩, ⟨10, 50⟩]⟩

/-- A library whose resamplers return black images, whose decoder always fails and whose
`empty` is `total() == 0`. -/
def example_library : Library :=
  ⟨fun m => m.rows * m.cols * m.c == 0, fun _ _ _ _ => 0, fun _ => 1, fun _ _ _ _ _ => 0,
    fun _ _ _ _ _ => 0, 160, fun _ _ => none⟩

/-- A detector object whose two networks return nothing. -/
def example_detector : WeChatQRCode :=
  WeChatQRCode.new (fun _ _ _ => []) (fun _ => ⟨0, 0, 1, fun _ _ => 0⟩)

/-- The registries in which one detector (created from the counter `0`) and one result
list holding `example_result` (created from the counter `0`) are registered; the key of
both handles is `rotl(1, 23) ^ xor_key = 0x9e3779b97fca7c15`. -/
def example_registries : Registries :=
  ⟨⟨1, [(0x9e3779b97fca7c15, example_detector)]⟩, ⟨1, [(0x9e3779b97fca7c15, [example_result])]⟩⟩

/-! ## Notions used to state the claims on `Impl::decode` -/

/-- The comparison of a corner `t` of an admitted quad with the corner `p` of the new quad
in the duplicate test (wechat_qrcode.cpp, lines 153-154, with `eps = 10`). -/
def WeChatQRCode.Impl.corner_near (t p : Point2f) : Prop :=
  |t.x - p.x| < 10 ∧ |t.y - p.y| < 10

/-- The quad `points_qr` of a decoded symbol in original-image coordinates
(wechat_qrcode.cpp, lines 133-140): every local corner is divided by the scale, then mapped
by `warpBack` when the detector is in use. -/
def WeChatQRCode.Impl.map_quad (self : WeChatQRCode.Impl) (aligner : Align)
    (cur_scale : float) (zxing_points_i : List Point2f) : List Point2f :=
  if self.use_nn_detector_ then
    aligner.warpBack (zxing_points_i.map fun pt => ⟨pt.x / cur_scale, pt.y / cur_scale⟩)
  else zxing_points_i.map fun pt => ⟨pt.x / cur_scale, pt.y / cur_scale⟩

/-- Whether every call `decode_results.erase(decode_results.begin() + i, ...)` made by the
loop over the decoded symbols from index `i` on (wechat_qrcode.cpp, lines 163-169) has its
index `i` below the size of `decode_results`, as `std::vector::erase` requires: the loop is
followed up to the first call whose index is not. -/
def WeChatQRCode.Impl.erase_in_range (self : WeChatQRCode.Impl) (aligner : Align)
    (cur_scale : float) : DecodeState → Nat → List (List Point2f) → Bool
  | _, _, [] => true
  | st, i, q :: rest =>
    if WeChatQRCode.Impl.isDuplicate st.check_points (self.map_quad aligner cur_scale q)
        = false then
      WeChatQRCode.Impl.erase_in_range self aligner cur_scale
        (self.symbol_step aligner cur_scale st i q) (i + 1) rest
    else if i < st.decode_results.length then
      WeChatQRCode.Impl.erase_in_range self aligner cur_scale
        (self.symbol_step aligner cur_scale st i q) (i + 1) rest
    else false

/-- A detector network returning three rows: an accepted one, one of class 0 and one of
score 0. -/
def example_ssd : SSDDetector :=
  ⟨fun _ _ _ => [[1, 0.9, 0.1, 0.2, 0.5, 0.6], [0, 0.9, 0, 0, 1, 1], [1, 0, 0, 0, 1, 1]]⟩

/-- A candidate quad with first corner `(100, 100)` and third corner `(200, 200)`. -/
def example_candidate : Mat float :=
  Mat.of_points [⟨100, 100⟩, ⟨200, 100⟩, ⟨200, 200⟩, ⟨100, 200⟩]

/-- A library as `example_library` whose decoder returns the given symbols for an image of
130 columns (the crop of `example_candidate` in a 400 x 400 image) and fails otherwise. -/
def example_decoder_library (symbols : List (List Byte × List Point2f)) : Library :=
  ⟨fun m => m.rows * m.cols * m.c == 0, fun _ _ _ _ => 0, fun _ => 1, fun _ _ _ _ _ => 0,
    fun _ _ _ _ _ => 0, 160, fun m _ => if m.cols = 130 then some symbols else none⟩

/-- The scales at which `decodeImage` is invoked by the loop over `scale_list` of
`Impl::decode` (wechat_qrcode.cpp, lines 124-173), in the order of the calls: the loop of
`scale_loop`, recording the scale of each call (`break` after the first success). -/
def WeChatQRCode.Impl.scale_loop_tried (self : WeChatQRCode.Impl) (lib : Library)
    (cropped_img : Mat Nat) : List float → List float
  | [] => []
  | cur_scale :: rest =>
    let scaled_img := self.super_resolution_model_.processImageScale lib cropped_img cur_scale
      self.use_nn_sr_ lib.sr_max_size
    match lib.decodeImage scaled_img self.use_nn_detector_ with
    | some _ => [cur_scale]
    | none => cur_scale :: WeChatQRCode.Impl.scale_loop_tried self lib cropped_img rest

/-- A second candidate quad, with first corner `(220, 220)` and third corner `(360, 360)`. -/
def example_candidate2 : Mat float :=
  Mat.of_points [⟨220, 220⟩, ⟨360, 220⟩, ⟨360, 360⟩, ⟨220, 360⟩]

/-- A library as `example_library` whose decoder returns the symbols `s1` for an image of
130 columns (the crop of `example_candidate` in a 400 x 400 image), the symbols `s2` for an
image of 170 columns (the crop of `example_candidate2`) and fails otherwise. -/
def example_decoder_library2 (s1 s2 : List (List Byte × List Point2f)) : Library :=
  ⟨fun m => m.rows * m.cols * m.c == 0, fun _ _ _ _ => 0, fun _ => 1, fun _ _ _ _ _ => 0,
    fun _ _ _ _ _ => 0, 160,
    fun m _ => if m.cols = 130 then some s1 else if m.cols = 170 then some s2 else none⟩

/-! ## The C API: raw pixels (qrcode.h, qrcode.cpp) -/

/-- The value `ZZT_QRCODE_PIXEL_GRAY` of the enum `zzt_qrcode_pixel_format_t` (qrcode.h,
lines 44-52); a format argument is an integer. -/
def ZZT_QRCODE_PIXEL_GRAY : Int := 0

/-- The value `ZZT_QRCODE_PIXEL_RGB`. -/
def ZZT_QRCODE_PIXEL_RGB : Int := 1

/-- The value `ZZT_QRCODE_PIXEL_BGR`. -/
def ZZT_QRCODE_PIXEL_BGR : Int := 2

/-- The value `ZZT_QRCODE_PIXEL_RGBA`. -/
def ZZT_QRCODE_PIXEL_RGBA : Int := 3

/-- The value `ZZT_QRCODE_PIXEL_BGRA`. -/
def ZZT_QRCODE_PIXEL_BGRA : Int := 4

/-- The value `ZZT_QRCODE_PIXEL_ARGB`. -/
def ZZT_QRCODE_PIXEL_ARGB : Int := 5

/-- The value `ZZT_QRCODE_PIXEL_ABGR`. -/
def ZZT_QRCODE_PIXEL_ABGR : Int := 6

/-- The `switch (format)` of `zzt_qrcode_detect_and_decode_pixels` (qrcode.cpp, lines
150-176): the conversion type and the offset added to `pixels` (`actual_pixels`), or
`none` for the `default` case. -/
def pixel_format_switch (format : Int) : Option (PixelType × Nat) :=
  if format = ZZT_QRCODE_PIXEL_GRAY then some (.PIXEL_GRAY, 0)
  else if format = ZZT_QRCODE_PIXEL_RGB then some (.PIXEL_RGB2GRAY, 0)
  else if format = ZZT_QRCODE_PIXEL_BGR then some (.PIXEL_BGR2GRAY, 0)
  else if format = ZZT_QRCODE_PIXEL_RGBA then some (.PIXEL_RGBA2GRAY, 0)
  else if format = ZZT_QRCODE_PIXEL_BGRA then some (.PIXEL_BGRA2GRAY, 0)
  else if format = ZZT_QRCODE_PIXEL_ARGB then some (.PIXEL_RGBA2GRAY, 1)
  else if format = ZZT_QRCODE_PIXEL_ABGR then some (.PIXEL_BGRA2GRAY, 1)
  else none

/-- Source: `zzt_qrcode_detect_and_decode_pixels` (qrcode.cpp, lines 135-190). `pixels`
is `none` for a null pointer and otherwise the buffer, as the function from offsets to
bytes; `from_pixels` is the ncnn conversion `ncnn::Mat::from_pixels` (with the stride when
it is given) followed by `to_pixels(.., PIXEL_GRAY)`, yielding the pixels of the gray
image. The result is as for `qrcode_detect_and_decode_internal`. -/
def zzt_qrcode_detect_and_decode_pixels (lib : Library)
    (from_pixels : (Nat → Nat) → PixelType → Int → Int → Option Int → Nat → Nat → Nat)
    (fuel : Nat) (st : Registries) (detector : Nat) (pixels : Option (Nat → Nat))
    (format : Int) (width height stride : Int) (out_result : Option Nat) :
    Option (zzt_qrcode_error_t × Option Nat × Registries) :=
  match out_result with
  | none => some (.ZZT_QRCODE_ERROR_INVALID_ARGUMENT, none, st)
  | some _ =>
    match pixels with
    | none => some (.ZZT_QRCODE_ERROR_INVALID_ARGUMENT, some 0, st)
    | some px =>
      if width ≤ 0 ∨ height ≤ 0 then some (.ZZT_QRCODE_ERROR_INVALID_ARGUMENT, some 0, st)
      else
        match pixel_format_switch format with
        | none => some (.ZZT_QRCODE_ERROR_INVALID_ARGUMENT, some 0, st)
        | some (pixel_type, offset) =>
          let actual_pixels : Nat → Nat := fun k => px (k + offset)
          let ncnn_img :=
            if stride > 0 then from_pixels actual_pixels pixel_type width height (some stride)
            else from_pixels actual_pixels pixel_type width height none
          let img : Mat Nat := ⟨height, width, 1, ncnn_img⟩
          qrcode_detect_and_decode_internal lib fuel st detector img (some 0)

/-! ## Binarizer: `AdaptiveThresholdMeanBinarizer`
(zxing/common/binarizer/adaptive_threshold_mean_binarizer.cpp)

Buffers (`unsigned char*`, `double*`) are functions from offsets to values. -/

/-- The C++ type `double`, modelled by exact rational numbers. -/
abbrev double := ℚ

/-- The constant `BLOCK_SIZE` (line 12). -/
def BLOCK_SIZE : Int := 25

/-- The constant `Bias` (line 13). -/
def Bias : Int := 10

/-- The bit matrix `zxing::BitMatrix`: its dimensions and the buffer behind `getPtr()`. -/
structure BitMatrix where
  width : Int
  height : Int
  bits : Nat → Nat

/-- The operations used by the binarizer whose code is not part of the repository:
`std::exp`; the error code held by `err_handler` after `new BitMatrix(width, height,
err_handler)`, given the dimensions and the code held before; the method
`GlobalHistogramBinarizer::getBlackMatrix` and the base class methods
`Binarizer::getBlackMatrix` and `Binarizer::getBlackRow`, each given the luminance buffer,
the dimensions, the field `matrix0_` and the code held by `err_handler`, and yielding
their result and the new code. -/
structure BinarizerLibrary where
  exp : double → double
  BitMatrix_new : Int → Int → Int → Int
  GlobalHistogramBinarizer_getBlackMatrix :
    (Nat → Nat) → Int → Int → Option BitMatrix → Int → Option BitMatrix × Int
  Binarizer_getBlackMatrix :
    (Nat → Nat) → Int → Int → Option BitMatrix → Int → Option BitMatrix × Int
  Binarizer_getBlackRow :
    (Nat → Nat) → Int → Int → Option BitMatrix → Int → Int → Option (Nat → Nat) × Int

/-- Source: `generateGaussianKernel` (lines 17-36). Integer division is `Int.tdiv`. -/
def generateGaussianKernel (exp : double → double) (kernelSize : Int) : Nat → double :=
  let sigma0 : double := 0.3 * ((((kernelSize - 1 : Int) : double) / 2.0) - 1) + 0.8
  let sigma : double := if sigma0 < 0.1 then 0.1 else sigma0
  let center : Int := Int.tdiv kernelSize 2
  let val : Nat → double := fun x =>
    exp (-0.5 * ((((x : Int) - center : Int) : double) / sigma) ^ 2)
  let sum : double := (List.range kernelSize.toNat).foldl (fun acc x => acc + val x) 0.0
  fun x => val x / sum

/-- Source: `convolve1D` (lines 39-62): the signal is padded on both sides with copies of
its first and last value, `output[i]` is the sum over `j` of
`paddedSignal[i + j] * kernel[j]`. -/
def convolve1D (signal : Nat → double) (signalSize : Int) (kernel : Nat → double)
    (kernelSize : Int) : Nat → double :=
  let padding : Int := Int.tdiv kernelSize 2
  let paddedSignal : Nat → double := fun k =>
    if (k : Int) < padding then signal 0
    else if (k : Int) < padding + signalSize then signal (k - padding.toNat)
    else signal (signalSize - 1).toNat
  fun i => (List.range kernelSize.toNat).foldl
    (fun acc j => acc + paddedSignal (i + j) * kernel j) 0.0

/-- Source: `gaussianBlur` (lines 65-93): horizontal pass on every row, then vertical pass
on every column; images are row-major buffers of `rows * cols` values. -/
def gaussianBlur (exp : double → double) (image : Nat → double) (rows cols kernelSize : Int) :
    Nat → double :=
  let kernel := generateGaussianKernel exp kernelSize
  let blurredHorizontally : Nat → double := fun k =>
    convolve1D (fun j => image (k / cols.toNat * cols.toNat + j)) cols kernel kernelSize
      (k % cols.toNat)
  fun k =>
    convolve1D (fun i => blurredHorizontally (i * cols.toNat + k % cols.toNat)) rows kernel
      kernelSize (k / cols.toNat)

/-- Source: `adaptiveThresholdGaussian` (lines 96-116): the output buffer. -/
def adaptiveThresholdGaussian (exp : double → double) (grayImage : Nat → Nat)
    (rows cols kernelSize C : Int) : Nat → Nat :=
  let doubleImage : Nat → double := fun k => (grayImage k : double)
  let blurredImage := gaussianBlur exp doubleImage rows cols kernelSize
  fun k =>
    let thresholdValue : double := blurredImage k - (C : double)
    if (grayImage k : double) > thresholdValue then 255 else 0

/-- Source: `AdaptiveThresholdMeanBinarizer::TransBufferToMat` (lines 174-182): row `j`
of the matrix is row `nHeight - 1 - j` of the buffer. -/
def TransBufferToMat (pBuffer : Nat → Nat) (nWidth nHeight : Int) : Mat Nat :=
  ⟨nHeight, nWidth, 1, fun j z => pBuffer ((nHeight - 1 - (j : Int)).toNat * nWidth.toNat + z)⟩

/-- Source: `AdaptiveThresholdMeanBinarizer::TransMatToBuffer` (lines 184-201): the
buffer written, row `j` of which comes from row `nHeight - j - 1` of the matrix, a value
above 120 giving `0` and any other value `1`. -/
def TransMatToBuffer (mSrc : Mat Nat) : Nat → Nat :=
  let nWidth := mSrc.cols
  let nHeight := mSrc.rows
  fun k =>
    let j := k / nWidth.toNat
    let z := k % nWidth.toNat
    let nj := nHeight - (j : Int) - 1
    let value := mSrc.data nj.toNat z
    if value > 120 then 0 else 1

/-- The class `AdaptiveThresholdMeanBinarizer`: the dimensions `width` and `height` of the
luminance source, the buffer of its matrix and the field `matrix0_`. -/
structure AdaptiveThresholdMeanBinarizer where
  width : Int
  height : Int
  source : Nat → Nat
  matrix0_ : Option BitMatrix

/-- The block size computed in `binarizeImage` (lines 160-161): `bs = width / 10`, then
`bs = bs + bs % 2 - 1`, with the division and remainder of C++ (`Int.tdiv`, `Int.tmod`). -/
def AdaptiveThresholdMeanBinarizer.block_size (width : Int) : Int :=
  let bs := Int.tdiv width 10
  bs + Int.tmod bs 2 - 1

/-- Source: `AdaptiveThresholdMeanBinarizer::binarizeImage` (lines 148-172), given the
code held by `err_handler`: the returned value, the binarizer afterwards and the code held
by `err_handler` afterwards. -/
def AdaptiveThresholdMeanBinarizer.binarizeImage (lib : BinarizerLibrary)
    (self : AdaptiveThresholdMeanBinarizer) (err : Int) :
    Int × AdaptiveThresholdMeanBinarizer × Int :=
  if self.width ≥ BLOCK_SIZE ∧ self.height ≥ BLOCK_SIZE then
    let err1 := lib.BitMatrix_new self.width self.height err
    if err1 ≠ 0 then (-1, self, err1)
    else
      let src := self.source
      let mDst := TransBufferToMat src self.width self.height
      let bs := AdaptiveThresholdMeanBinarizer.block_size self.width
      if ¬ (Int.tmod bs 2 = 1 ∧ bs > 1) then (-1, self, err1)
      else
        let result : Mat Nat := ⟨self.height, self.width, 1, fun i j =>
          adaptiveThresholdGaussian lib.exp
            (fun k => mDst.data (k / self.width.toNat) (k % self.width.toNat))
            self.height self.width bs Bias (i * self.width.toNat + j)⟩
        let dst := TransMatToBuffer result
        if err1 ≠ 0 then (-1, ⟨result.cols, result.rows, self.source, self.matrix0_⟩, err1)
        else
          (0, ⟨result.cols, result.rows, self.source,
            some ⟨self.width, self.height, dst⟩⟩, err1)
  else
    let g := lib.GlobalHistogramBinarizer_getBlackMatrix self.source self.width self.height
      self.matrix0_ err
    if g.2 ≠ 0 then (1, ⟨self.width, self.height, self.source, g.1⟩, g.2)
    else (0, ⟨self.width, self.height, self.source, g.1⟩, g.2)

/-- Source: `AdaptiveThresholdMeanBinarizer::getBlackMatrix` (lines 139-146): the returned
matrix (`none` for a null reference), the binarizer afterwards and the code held by
`err_handler` afterwards. -/
def AdaptiveThresholdMeanBinarizer.getBlackMatrix (lib : BinarizerLibrary)
    (self : AdaptiveThresholdMeanBinarizer) (err : Int) :
    Option BitMatrix × AdaptiveThresholdMeanBinarizer × Int :=
  match self.matrix0_ with
  | none =>
    let r := self.binarizeImage lib err
    if r.2.2 ≠ 0 then (none, r.2.1, r.2.2)
    else
      let m := lib.Binarizer_getBlackMatrix r.2.1.source r.2.1.width r.2.1.height
        r.2.1.matrix0_ r.2.2
      (m.1, r.2.1, m.2)
  | some _ =>
    let m := lib.Binarizer_getBlackMatrix self.source self.width self.height self.matrix0_ err
    (m.1, self, m.2)

/-- Source: `AdaptiveThresholdMeanBinarizer::getBlackRow` (lines 127-137). -/
def AdaptiveThresholdMeanBinarizer.getBlackRow (lib : BinarizerLibrary)
    (self : AdaptiveThresholdMeanBinarizer) (y : Int) (err : Int) :
    Option (Nat → Nat) × AdaptiveThresholdMeanBinarizer × Int :=
  match self.matrix0_ with
  | none =>
    let r := self.binarizeImage lib err
    if r.2.2 ≠ 0 then (none, r.2.1, r.2.2)
    else
      let m := lib.Binarizer_getBlackRow r.2.1.source r.2.1.width r.2.1.height
        r.2.1.matrix0_ y r.2.2
      (m.1, r.2.1, m.2)
  | some _ =>
    let m := lib.Binarizer_getBlackRow self.source self.width self.height self.matrix0_ y err
    (m.1, self, m.2)

/-- A binarizer library whose `exp` is constant, whose constructor sets no error and whose
global method yields an all-zero matrix of the given dimensions. -/
def example_binarizer_library : BinarizerLibrary :=
  ⟨fun _ => 1, fun _ _ e => e,
    fun _ w h _ e => (some ⟨w, h, fun _ => 0⟩, e),
    fun _ _ _ m e => (m, e), fun _ _ _ m _ e => (m.map fun b => b.bits, e)⟩

/-- A binarizer library as `example_binarizer_library` whose `exp` is the rational function
`1 / (1 - x + x ^ 2 / 2)`, which has positive values and approximates the exponential for
`x <= 0` (its value at `-0.78125` is `0.479`, that of the exponential is `0.458`). -/
def example_gaussian_library : BinarizerLibrary :=
  ⟨fun x => 1 / (1 - x + x ^ 2 / 2), fun _ _ e => e,
    fun _ w h _ e => (some ⟨w, h, fun _ => 0⟩, e),
    fun _ _ _ m e => (m, e), fun _ _ _ m _ e => (m.map fun b => b.bits, e)⟩

/-- A binarizer on a luminance buffer of 30 columns and 25 rows whose first row is black
(intensity 0) and whose other rows are white (intensity 255). -/
def example_dark_row_binarizer : AdaptiveThresholdMeanBinarizer :=
  ⟨30, 25, fun k => if k < 30 then 0 else 255, none⟩

/-! ## JNI bridge: `utf8_to_utf16` (qrcode_jni.c)

Bytes of `src` are `char8_t` values (`Byte`), code units written to `dst` are `char16_t`
values; the indices `i` and `out` start at 0 and only grow, they are natural numbers. -/

/-- The variables of the loop of `utf8_to_utf16`: the index `i` into `src`, the number
`out` of code units written and the output buffer `dst`. -/
structure Utf16State where
  i : Nat
  out : Nat
  dst : Nat → Nat

/-- The classification of the start byte `b` (qrcode_jni.c, lines 31-47, after the test
`b == 0`): the initial value of `cp` and the length `len` of the sequence, or `none` for an
invalid start byte. -/
def utf8_lead (b : Nat) : Option (Nat × Nat) :=
  if b < 0x80 then some (b, 1)
  else if b &&& 0xE0 = 0xC0 then some (b &&& 0x1F, 2)
  else if b &&& 0xF0 = 0xE0 then some (b &&& 0x0F, 3)
  else if b &&& 0xF8 = 0xF0 then some (b &&& 0x07, 4)
  else none

/-- The loop over the continuation bytes (qrcode_jni.c, lines 57-64), `j` running from 1
to `len - 1`: `none` when a byte is not a continuation byte (`valid = 0`), otherwise the
value of `cp` after the loop. The shift of the `char32_t` value is taken modulo `2^32`. -/
def utf8_continuation (src : Nat → Byte) (i len cp : Nat) : Option Nat :=
  (List.range (len - 1)).foldl
    (fun acc j0 => acc.bind fun cp =>
      if (src (i + (j0 + 1))).val &&& 0xC0 ≠ 0x80 then none
      else some (((cp <<< 6) % 2 ^ 32) ||| ((src (i + (j0 + 1))).val &&& 0x3F)))
    (some cp)

/-- The body of the loop of `utf8_to_utf16` (qrcode_jni.c, lines 25-97) for one iteration:
the state after the iteration and whether the loop goes on (`false` after a `break`). The
casts to `uint16_t` are taken modulo `2^16`. -/
def utf8_to_utf16_body (src : Nat → Byte) (src_len dst_max : Int) (st : Utf16State) :
    Utf16State × Bool :=
  let b : Nat := (src st.i).val
  if b = 0 then (st, false)
  else
    match utf8_lead b with
    | none => (⟨st.i + 1, st.out + 1, Function.update st.dst st.out 0xFFFD⟩, true)
    | some (cp0, len) =>
      if ((st.i + len : Nat) : Int) > src_len then
        (⟨st.i, st.out + 1, Function.update st.dst st.out 0xFFFD⟩, false)
      else
        match utf8_continuation src st.i len cp0 with
        | none => (⟨st.i + 1, st.out + 1, Function.update st.dst st.out 0xFFFD⟩, true)
        | some cp =>
          if (len = 2 ∧ cp < 0x80) ∨ (len = 3 ∧ cp < 0x800) ∨ (len = 4 ∧ cp < 0x10000) ∨
              (cp ≥ 0xD800 ∧ cp ≤ 0xDFFF) ∨ cp > 0x10FFFF then
            (⟨st.i + len, st.out + 1, Function.update st.dst st.out 0xFFFD⟩, true)
          else if cp ≤ 0xFFFF then
            (⟨st.i + len, st.out + 1, Function.update st.dst st.out (cp % 2 ^ 16)⟩, true)
          else if ((st.out + 1 : Nat) : Int) < dst_max then
            (⟨st.i + len, st.out + 2,
              Function.update
                (Function.update st.dst st.out ((0xD800 ||| ((cp - 0x10000) >>> 10)) % 2 ^ 16))
                (st.out + 1) ((0xDC00 ||| ((cp - 0x10000) &&& 0x3FF)) % 2 ^ 16)⟩, true)
          else (st, false)

/-- The loop `while (i < src_len && out < dst_max)` of `utf8_to_utf16` (qrcode_jni.c,
lines 24-98), run for at most `fuel` iterations: the state when the loop ends, `none` when
it has not ended within `fuel` iterations. -/
def utf8_to_utf16_loop (src : Nat → Byte) (src_len dst_max : Int) :
    Nat → Utf16State → Option Utf16State
  | 0, _ => none
  | fuel + 1, st =>
    if (st.i : Int) < src_len ∧ (st.out : Int) < dst_max then
      let r := utf8_to_utf16_body src src_len dst_max st
      if r.2 then utf8_to_utf16_loop src src_len dst_max fuel r.1 else some r.1
    else some st

/-- Source: `utf8_to_utf16` (qrcode_jni.c, lines 19-100), with at most `fuel` iterations of
its loop: the returned count and the output buffer afterwards (`none` for a null `dst`);
the result is `none` when the loop has not ended within `fuel` iterations. -/
def utf8_to_utf16 (fuel : Nat) (src : Option (Nat → Byte)) (src_len : Int)
    (dst : Option (Nat → Nat)) (dst_max : Int) : Option (Int × Option (Nat → Nat)) :=
  match src, dst with
  | some s, some d =>
    if src_len ≤ 0 ∨ dst_max ≤ 0 then some (0, some d)
    else
      (utf8_to_utf16_loop s src_len dst_max fuel ⟨0, 0, d⟩).map fun st =>
        ((st.out : Int), some st.dst)
  | _, _ => some (0, dst)

/-- The Unicode scalar values: the code points up to U+10FFFF outside the surrogate range
U+D800..U+DFFF. -/
def is_scalar_value (cp : Nat) : Prop := cp ≤ 0x10FFFF ∧ ¬ (0xD800 ≤ cp ∧ cp ≤ 0xDFFF)

/-- The UTF-8 encoding of a Unicode scalar value, as the Unicode standard defines it: one
byte below U+0080, two bytes below U+0800, three bytes below U+10000 and four bytes
otherwise, the bits of the scalar value filling the free bits of the start byte and of
the continuation bytes `10xxxxxx`. -/
def utf8_encode_scalar (cp : Nat) : List Nat :=
  if cp < 0x80 then [cp]
  else if cp < 0x800 then [0xC0 + cp / 64, 0x80 + cp % 64]
  else if cp < 0x10000 then [0xE0 + cp / 4096, 0x80 + cp / 64 % 64, 0x80 + cp % 64]
  else [0xF0 + cp / 262144, 0x80 + cp / 4096 % 64, 0x80 + cp / 64 % 64, 0x80 + cp % 64]

/-- The UTF-16 encoding of a Unicode scalar value, as the Unicode standard defines it: one
code unit for a code point of the BMP, otherwise the high surrogate and the low surrogate
of the code point less `0x10000`. -/
def utf16_encode_scalar (cp : Nat) : List Nat :=
  if cp < 0x10000 then [cp]
  else [0xD800 + (cp - 0x10000) / 1024, 0xDC00 + (cp - 0x10000) % 1024]

/-- The UTF-8 encoding of a sequence of scalar values. -/
def utf8_encode : List Nat → List Nat
  | [] => []
  | cp :: rest => utf8_encode_scalar cp ++ utf8_encode rest

/-- The UTF-16 encoding of a sequence of scalar values. -/
def utf16_encode : List Nat → List Nat
  | [] => []
  | cp :: rest => utf16_encode_scalar cp ++ utf16_encode rest

/-- The bytes of `A`, of the euro sign U+20AC and of U+1F600, in UTF-8, followed by
zeros. -/
def example_utf8 : Nat → Byte := fun k =>
  ([0x41, 0xE2, 0x82, 0xAC, 0xF0, 0x9F, 0x98, 0x80] : List Byte).getD k 0

/-- A well-formed UTF-8 sequence starts at index `i` of `src` and ends within `src_len`
bytes: the bytes from `i` on are the encoding of some scalar value. -/
def utf8_well_formed_at (src : Nat → Byte) (i : Nat) (src_len : Int) : Prop :=
  ∃ cp, is_scalar_value cp ∧ ((i + (utf8_encode_scalar cp).length : Nat) : Int) ≤ src_len ∧
    ∀ k, k < (utf8_encode_scalar cp).length →
      (src (i + k)).val = (utf8_encode_scalar cp).getD k 0

/-! ## Lemmas on integer bit operations -/

theorem nat_ldiff_one (m : Nat) : Nat.ldiff m 1 = 2 * (m / 2) := by
  apply Nat.eq_of_testBit_eq
  intro i
  rw [Nat.testBit_ldiff]
  cases i with
  | zero => simp [Nat.testBit_zero]
  | succ i =>
    have h : 2 * (m / 2) / 2 = m / 2 := by omega
    simp only [Nat.testBit_succ, h]
    simp

theorem nat_lor_one (m : Nat) : m ||| 1 = 2 * (m / 2) + 1 := by
  have h1 : (2 ^ 1 * (m / 2) + 1) = 2 ^ 1 * (m / 2) ||| 1 :=
    Nat.mul_add_lt_is_or (by norm_num) _
  have h2 : (2 ^ 1 * (m / 2) + m % 2) = 2 ^ 1 * (m / 2) ||| (m % 2) :=
    Nat.mul_add_lt_is_or (by have := Nat.mod_lt m (show 0 < 2 by norm_num); simpa using this) _
  have h3 : m = 2 ^ 1 * (m / 2) ||| (m % 2) := by
    rw [← h2]; omega
  have h4 : (m % 2) ||| 1 = 1 := by
    rcases Nat.mod_two_eq_zero_or_one m with h | h <;> rw [h] <;> rfl
  calc m ||| 1 = (2 ^ 1 * (m / 2) ||| (m % 2)) ||| 1 := by rw [← h3]
    _ = 2 ^ 1 * (m / 2) ||| 1 := by rw [Nat.lor_assoc, h4]
    _ = 2 * (m / 2) + 1 := by rw [← h1]; norm_num

/-- Clearing the lowest bit: `n & -2` is `n` rounded down to an even number. -/
theorem land_neg_two (z : Int) : Int.land z (-2) = z - z % 2 := by
  have h : (-2 : Int) = Int.negSucc 1 := rfl
  rw [h]
  cases z with
  | ofNat m =>
    show ((Nat.ldiff m 1 : Nat) : Int) = _
    rw [nat_ldiff_one]
    simp only [Int.ofNat_eq_coe]
    omega
  | negSucc m =>
    show Int.negSucc (m ||| 1) = _
    rw [nat_lor_one]
    simp only [Int.negSucc_eq]
    push_cast
    omega

/-! ## Claims on the scale list and the aligner -/

/-- C2: `getScaleList` is the three-row table of the scale selector: `[1.0, 2.0, 0.5]`
when a side is below 320, otherwise `[1.0, 0.5]` when both sides are below 640, otherwise
`[0.5, 1.0]`; in particular at `(300, 200)`, `(500, 500)` and `(800, 900)`. -/
theorem getScaleList_table (width height : Int) :
    (width < 320 ∨ height < 320 →
        WeChatQRCode.Impl.getScaleList width height = [1.0, 2.0, 0.5]) ∧
      (¬ (width < 320 ∨ height < 320) → width < 640 ∧ height < 640 →
        WeChatQRCode.Impl.getScaleList width height = [1.0, 0.5]) ∧
      (¬ (width < 320 ∨ height < 320) → ¬ (width < 640 ∧ height < 640) →
        WeChatQRCode.Impl.getScaleList width height = [0.5, 1.0]) ∧
      WeChatQRCode.Impl.getScaleList 300 200 = [1.0, 2.0, 0.5] ∧
      WeChatQRCode.Impl.getScaleList 500 500 = [1.0, 0.5] ∧
      WeChatQRCode.Impl.getScaleList 800 900 = [0.5, 1.0] := by
  refine ⟨fun h => ?_, fun h1 h2 => ?_, fun h1 h2 => ?_, rfl, rfl, rfl⟩
  · simp only [WeChatQRCode.Impl.getScaleList, if_pos h]
  · simp only [WeChatQRCode.Impl.getScaleList, if_neg h1, if_pos h2]
  · simp only [WeChatQRCode.Impl.getScaleList, if_neg h1, if_neg h2]

/-- Witness of C2: one size in each row of the table, `(319, 1000)`, `(320, 639)` and
`(640, 320)`, at the boundaries of the rows. -/
theorem getScaleList_table_witness :
    WeChatQRCode.Impl.getScaleList 319 1000 = [1.0, 2.0, 0.5] ∧
      WeChatQRCode.Impl.getScaleList 320 639 = [1.0, 0.5] ∧
      WeChatQRCode.Impl.getScaleList 640 320 = [0.5, 1.0] :=
  ⟨(getScaleList_table 319 1000).1 (by decide),
   (getScaleList_table 320 639).2.1 (by decide) (by decide),
   (getScaleList_table 640 320).2.2.1 (by decide) (by decide)⟩

theorem float_to_int_nonneg {f : float} (h : 0 ≤ f) : 0 ≤ float_to_int f := by
  unfold float_to_int
  rw [if_pos h]
  exact Int.floor_nonneg.mpr h

theorem land_neg_two_even (z : Int) : Int.land z (-2) % 2 = 0 := by
  rw [land_neg_two]; omega

theorem land_neg_two_le (z : Int) : Int.land z (-2) ≤ z := by
  rw [land_neg_two]; omega

theorem land_neg_two_nonneg {z : Int} (h : 0 ≤ z) : 0 ≤ Int.land z (-2) := by
  rw [land_neg_two]; omega

/-- The padding computed by `Align::crop` is non-negative when the extent is positive and
the padding fraction or the minimum padding is non-negative. -/
theorem crop_padding_nonneg (padding : float) (extent minPadding : Int) (he : 0 < extent)
    (hp : 0 ≤ padding ∨ 0 ≤ minPadding) :
    0 ≤ float_to_int (max (padding * (extent : float)) (minPadding : float)) := by
  apply float_to_int_nonneg
  rcases hp with hp | hp
  · apply le_max_of_le_left
    have : (0 : float) ≤ (extent : float) := by exact_mod_cast he.le
    positivity
  · apply le_max_of_le_right
    exact_mod_cast hp

/-- One axis of the crop rectangle: origin `max (x0 - pad) 0`, end
`min (x2 + pad) (cols - 1)`, extent `(end - origin + 1) & -2`. -/
theorem crop_axis (x0 x2 pad cols : Int) :
    Int.land (min (x2 + pad) (cols - 1) - max (x0 - pad) 0 + 1) (-2) % 2 = 0 ∧
      0 ≤ max (x0 - pad) 0 ∧
      max (x0 - pad) 0 + Int.land (min (x2 + pad) (cols - 1) - max (x0 - pad) 0 + 1) (-2)
        ≤ cols ∧
      (0 ≤ x0 → x0 ≤ x2 → x2 ≤ cols - 1 → 0 ≤ pad →
        0 ≤ Int.land (min (x2 + pad) (cols - 1) - max (x0 - pad) 0 + 1) (-2)) := by
  refine ⟨land_neg_two_even _, le_max_right _ _, ?_, ?_⟩
  · have h := land_neg_two_le (min (x2 + pad) (cols - 1) - max (x0 - pad) 0 + 1)
    have h2 := min_le_right (x2 + pad) (cols - 1)
    omega
  · intro h0 h1 h2 hp
    apply land_neg_two_nonneg
    omega

/-- C3 (amended): for any candidate quad and any image size the crop rectangle of
`Align::crop` has its origin at `(crop_x_, crop_y_)`, even width and height, a non-negative
origin, and right and bottom edges within the image (`crop_x_ + width <= cols`,
`crop_y_ + height <= rows`); its width (height) is non-negative when the first and third
corners satisfy `0 <= x0 <= x2 <= cols - 1` (`0 <= y0 <= y2 <= rows - 1`) and the padding
fraction or the minimum padding is non-negative. -/
theorem crop_roi_even_and_bounded (self : Align) (inputImg : Mat Nat) (srcPts : Mat float)
    (paddingW paddingH : float) (minPadding : Int) :
    let a := (self.crop_roi inputImg srcPts paddingW paddingH minPadding).1
    let r := (self.crop_roi inputImg srcPts paddingW paddingH minPadding).2
    let x0 := float_to_int (srcPts.data 0 0)
    let y0 := float_to_int (srcPts.data 0 1)
    let x2 := float_to_int (srcPts.data 2 0)
    let y2 := float_to_int (srcPts.data 2 1)
    (self.crop inputImg srcPts paddingW paddingH minPadding).1 = a ∧
      r.x = a.crop_x_ ∧ r.y = a.crop_y_ ∧
      r.width % 2 = 0 ∧ r.height % 2 = 0 ∧
      0 ≤ a.crop_x_ ∧ 0 ≤ a.crop_y_ ∧
      a.crop_x_ + r.width ≤ inputImg.cols ∧ a.crop_y_ + r.height ≤ inputImg.rows ∧
      (0 ≤ x0 → x0 ≤ x2 → x2 ≤ inputImg.cols - 1 → (0 ≤ paddingW ∨ 0 ≤ minPadding) →
        0 ≤ r.width) ∧
      (0 ≤ y0 → y0 ≤ y2 → y2 ≤ inputImg.rows - 1 → (0 ≤ paddingH ∨ 0 ≤ minPadding) →
        0 ≤ r.height) := by
  intro a r x0 y0 x2 y2
  have hx := crop_axis x0 x2
    (float_to_int (max (paddingW * ((x2 - x0 + 1 : Int) : float)) (minPadding : float)))
    inputImg.cols
  have hy := crop_axis y0 y2
    (float_to_int (max (paddingH * ((y2 - y0 + 1 : Int) : float)) (minPadding : float)))
    inputImg.rows
  refine ⟨rfl, rfl, rfl, hx.1, hy.1, hx.2.1, hy.2.1, hx.2.2.1, hy.2.2.1, ?_, ?_⟩
  · intro h0 h1 h2 hp
    exact hx.2.2.2 h0 h1 h2 (crop_padding_nonneg paddingW (x2 - x0 + 1) minPadding (by omega) hp)
  · intro h0 h1 h2 hp
    exact hy.2.2.2 h0 h1 h2 (crop_padding_nonneg paddingH (y2 - y0 + 1) minPadding (by omega) hp)

theorem float_to_int_intCast (z : Int) : float_to_int (z : float) = z := by
  unfold float_to_int
  split_ifs <;> simp

/-- Counterexample to C3 as stated: in a 50 x 50 image, the quad with first corner
`(40, 5)` and third corner `(0, 45)` under the fixed policy (fractions 0.1, minimum
padding 15) gets the crop rectangle `(25, 0, -10, 50)`, whose width is negative. -/
theorem crop_roi_negative_width :
    (Align.new.crop_roi (Mat.blank 50 50)
        (Mat.of_points [⟨40, 5⟩, ⟨0, 5⟩, ⟨0, 45⟩, ⟨40, 45⟩]) 0.1 0.1 15).2 = ⟨25, 0, -10, 50⟩ ∧
      ¬ (0 ≤ (Align.new.crop_roi (Mat.blank 50 50)
        (Mat.of_points [⟨40, 5⟩, ⟨0, 5⟩, ⟨0, 45⟩, ⟨40, 45⟩]) 0.1 0.1 15).2.width) := by
  have h : (Align.new.crop_roi (Mat.blank 50 50)
        (Mat.of_points [⟨40, 5⟩, ⟨0, 5⟩, ⟨0, 45⟩, ⟨40, 45⟩]) 0.1 0.1 15).2 = ⟨25, 0, -10, 50⟩ := by
    have e1 : float_to_int (40 : float) = 40 := float_to_int_intCast 40
    have e2 : float_to_int (5 : float) = 5 := float_to_int_intCast 5
    have e3 : float_to_int (0 : float) = 0 := float_to_int_intCast 0
    have e4 : float_to_int (45 : float) = 45 := float_to_int_intCast 45
    have e5 : float_to_int (15 : float) = 15 := float_to_int_intCast 15
    simp only [Align.crop_roi, Mat.of_points, Mat.blank, List.getD_cons_zero, List.getD_cons_succ]
    norm_num [e1, e2, e3, e4, e5, land_neg_two]
  rw [h]
  exact ⟨rfl, by decide⟩

/-- Witness of C3 (amended): in a 100 x 100 image the quad with corners `(10, 10)` and
`(50, 50)` satisfies the corner conditions, so its crop rectangle has non-negative width
and height. -/
theorem crop_roi_even_and_bounded_witness :
    0 ≤ (Align.new.crop_roi (Mat.blank 100 100)
        (Mat.of_points [⟨10, 10⟩, ⟨50, 10⟩, ⟨50, 50⟩, ⟨10, 50⟩]) 0.1 0.1 15).2.width ∧
      0 ≤ (Align.new.crop_roi (Mat.blank 100 100)
        (Mat.of_points [⟨10, 10⟩, ⟨50, 10⟩, ⟨50, 50⟩, ⟨10, 50⟩]) 0.1 0.1 15).2.height := by
  have h := crop_roi_even_and_bounded Align.new (Mat.blank 100 100)
    (Mat.of_points [⟨10, 10⟩, ⟨50, 10⟩, ⟨50, 50⟩, ⟨10, 50⟩]) 0.1 0.1 15
  have e1 : float_to_int (10 : float) = 10 := float_to_int_intCast 10
  have e2 : float_to_int (50 : float) = 50 := float_to_int_intCast 50
  refine ⟨h.2.2.2.2.2.2.2.2.2.1 ?_ ?_ ?_ ?_, h.2.2.2.2.2.2.2.2.2.2 ?_ ?_ ?_ ?_⟩ <;>
    norm_num [Mat.of_points, Mat.blank, e1, e2]

/-- C4: after `Align::crop` has stored the crop origin, with `rotate90_` false, `warpBack`
maps the points `p - (crop_x_, crop_y_)` back to the points `p` (coordinates in exact
arithmetic); for any input, `warpBack` returns as many points as it is given, the point
at index `i` being the image of the input point at index `i`. -/
theorem warpBack_inverts_crop (self : Align) (inputImg : Mat Nat) (srcPts : Mat float)
    (paddingW paddingH : float) (minPadding : Int) (h : self.rotate90_ = false)
    (pts : List Point2f) :
    let a := (self.crop inputImg srcPts paddingW paddingH minPadding).1
    a.warpBack (pts.map fun p => ⟨p.x - (a.crop_x_ : float), p.y - (a.crop_y_ : float)⟩) = pts ∧
      (a.warpBack pts).length = pts.length ∧
      ∀ i (hi : i < pts.length), (a.warpBack pts)[i]? =
        some ⟨pts[i].x + (a.crop_x_ : float), pts[i].y + (a.crop_y_ : float)⟩ := by
  intro a
  have ha : a.rotate90_ = false := h
  refine ⟨?_, by simp [Align.warpBack], ?_⟩
  · simp only [Align.warpBack, ha, List.map_map]
    conv_rhs => rw [← List.map_id pts]
    apply List.map_congr_left
    intro p _
    simp
  · intro i hi
    simp [Align.warpBack, ha, hi]

/-- Witness of C4: the default aligner (no transpose) on a 100 x 100 image and the quad
with corners `(30, 40)` and `(60, 70)`: the crop origin is `(15, 25)` and the cropped-frame
point `(15, 15)` is mapped back to `(30, 40)`. -/
theorem warpBack_inverts_crop_witness :
    Align.new.rotate90_ = false ∧
      ((Align.new.crop (Mat.blank 100 100)
          (Mat.of_points [⟨30, 40⟩, ⟨60, 40⟩, ⟨60, 70⟩, ⟨30, 70⟩]) 0.1 0.1 15).1.warpBack
        ([(⟨30, 40⟩ : Point2f)].map fun p =>
          ⟨p.x - (((Align.new.crop (Mat.blank 100 100)
            (Mat.of_points [⟨30, 40⟩, ⟨60, 40⟩, ⟨60, 70⟩, ⟨30, 70⟩]) 0.1 0.1 15).1.crop_x_ : Int) : float),
           p.y - (((Align.new.crop (Mat.blank 100 100)
            (Mat.of_points [⟨30, 40⟩, ⟨60, 40⟩, ⟨60, 70⟩, ⟨30, 70⟩]) 0.1 0.1 15).1.crop_y_ : Int) : float)⟩))
        = [⟨30, 40⟩] :=
  ⟨rfl, (warpBack_inverts_crop Align.new (Mat.blank 100 100)
    (Mat.of_points [⟨30, 40⟩, ⟨60, 40⟩, ⟨60, 70⟩, ⟨30, 70⟩]) 0.1 0.1 15 rfl [⟨30, 40⟩]).1⟩

/-! ## Lemmas on the handle registry -/

/-- The rotation by 23 bits of a 64 bit word, in arithmetic form. -/
theorem rotl_23_eq (raw : Nat) (hlt : raw < 2 ^ 64) :
    ((raw <<< 23) % 2 ^ 64) ||| (raw >>> 41) = (raw % 2 ^ 41) * 2 ^ 23 + raw / 2 ^ 41 := by
  have hb : raw / 2 ^ 41 < 2 ^ 23 := by omega
  have h1 : (raw <<< 23) % 2 ^ 64 = 2 ^ 23 * (raw % 2 ^ 41) := by
    rw [Nat.shiftLeft_eq]; omega
  have h2 : raw >>> 41 = raw / 2 ^ 41 := Nat.shiftRight_eq_div_pow _ _
  have h3 := Nat.mul_add_lt_is_or hb (raw % 2 ^ 41)
  rw [h1, h2, ← h3]
  omega

/-- The key computed by `generate_handle` from the incremented counter, and the new
counter. -/
theorem generate_handle_eq (c : Nat) :
    Handle.generate_handle c = (Handle.mix ((c + 1) % 2 ^ 64), (c + 1) % 2 ^ 64) := by
  have hlt : (c + 1) % 2 ^ 64 < 2 ^ 64 := Nat.mod_lt _ (by norm_num)
  unfold Handle.generate_handle Handle.mix
  simp only [Nat.reduceMul, Nat.reduceMod, Nat.reduceSub, OfNat.ofNat_ne_zero, ↓reduceIte]
  rw [rotl_23_eq _ hlt]

/-- Distinct counter values below `2^64` give distinct keys. -/
theorem mix_injective {a b : Nat} (ha : a < 2 ^ 64) (hb : b < 2 ^ 64)
    (h : Handle.mix a = Handle.mix b) : a = b := by
  unfold Handle.mix at h
  have h2 := congrArg (fun v => v ^^^ Handle.xor_key) h
  simp only [Nat.xor_cancel_right] at h2
  omega

/-- One iteration of the loop of `create_handle`. -/
theorem create_handle_succ {T : Type} (ptr : T) (fuel : Nat) (st : Handle T) :
    Handle.create_handle ptr (fuel + 1) st =
      if Handle.mix ((st.next_handle + 1) % 2 ^ 64) ≠ 0 then
        match st.handle_map.lookup (Handle.mix ((st.next_handle + 1) % 2 ^ 64)) with
        | none => some (Handle.mix ((st.next_handle + 1) % 2 ^ 64),
            ⟨(st.next_handle + 1) % 2 ^ 64,
              (Handle.mix ((st.next_handle + 1) % 2 ^ 64), ptr) :: st.handle_map⟩)
        | some _ => Handle.create_handle ptr fuel ⟨(st.next_handle + 1) % 2 ^ 64, st.handle_map⟩
      else Handle.create_handle ptr fuel ⟨(st.next_handle + 1) % 2 ^ 64, st.handle_map⟩ := by
  rw [Handle.create_handle]
  simp only [generate_handle_eq]
  try rfl

/-- What `create_handle` returns: a key that is not `0` and was not in the map, with the
map extended by the new entry only. -/
theorem create_handle_spec {T : Type} (ptr : T) :
    ∀ (fuel : Nat) (st : Handle T) (h : Nat) (st2 : Handle T),
      Handle.create_handle ptr fuel st = some (h, st2) →
        h ≠ 0 ∧ st.handle_map.lookup h = none ∧ st2.handle_map = (h, ptr) :: st.handle_map := by
  intro fuel
  induction fuel with
  | zero => intro st h st2 hc; simp [Handle.create_handle] at hc
  | succ n ih =>
    intro st h st2 hc
    rw [create_handle_succ] at hc
    split_ifs at hc with h0
    · split at hc
      · rename_i hl
        simp only [Option.some.injEq, Prod.mk.injEq] at hc
        obtain ⟨rfl, rfl⟩ := hc
        exact ⟨h0, hl, rfl⟩
      · exact ih ⟨(st.next_handle + 1) % 2 ^ 64, st.handle_map⟩ h st2 hc
    · exact ih ⟨(st.next_handle + 1) % 2 ^ 64, st.handle_map⟩ h st2 hc

/-- The loop of `create_handle` returns as soon as a generated key is not `0` and not in
the map. -/
theorem create_handle_of_good {T : Type} (ptr : T) (m : List (Nat × T)) :
    ∀ (fuel c : Nat),
      (∃ j, j < fuel ∧ Handle.mix ((c + j + 1) % 2 ^ 64) ≠ 0 ∧
        m.lookup (Handle.mix ((c + j + 1) % 2 ^ 64)) = none) →
      ∃ h st2, Handle.create_handle ptr fuel ⟨c, m⟩ = some (h, st2) := by
  intro fuel
  induction fuel with
  | zero => rintro c ⟨j, hj, _⟩; omega
  | succ n ih =>
    rintro c ⟨j, hj, hne, hl⟩
    rw [create_handle_succ]
    have step : ∃ h st2, Handle.create_handle ptr n ⟨(c + 1) % 2 ^ 64, m⟩ = some (h, st2) ∨
        j = 0 := by
      rcases Nat.eq_zero_or_pos j with hj0 | hj0
      · exact ⟨0, ⟨0, []⟩, Or.inr hj0⟩
      · have e : ((c + 1) % 2 ^ 64 + (j - 1) + 1) % 2 ^ 64 = (c + j + 1) % 2 ^ 64 := by omega
        obtain ⟨h, st2, hh⟩ := ih ((c + 1) % 2 ^ 64) ⟨j - 1, by omega, by rw [e]; exact hne,
          by rw [e]; exact hl⟩
        exact ⟨h, st2, Or.inl hh⟩
    obtain ⟨h, st2, hstep⟩ := step
    simp only []
    split_ifs with h0
    · split
      · exact ⟨_, _, rfl⟩
      · rename_i v hv
        rcases hstep with hstep | hstep
        · exact ⟨h, st2, hstep⟩
        · subst hstep
          rw [Nat.add_zero] at hl
          rw [hl] at hv
          cases hv
    · rcases hstep with hstep | hstep
      · exact ⟨h, st2, hstep⟩
      · subst hstep
        exact absurd hne h0

/-- Some 64 bit counter value gives a key that is not `0` and not in the map, when the map
has fewer than `2^64 - 1` entries. -/
theorem exists_good_key {T : Type} (m : List (Nat × T)) (hsize : m.length + 1 < 2 ^ 64) :
    ∃ r, r < 2 ^ 64 ∧ Handle.mix r ≠ 0 ∧ m.lookup (Handle.mix r) = none := by
  by_contra hcon
  push_neg at hcon
  have hsub : (Finset.range (2 ^ 64)).image Handle.mix ⊆
      insert 0 (m.map Prod.fst).toFinset := by
    intro k hk
    rw [Finset.mem_image] at hk
    obtain ⟨r, hr, rfl⟩ := hk
    rw [Finset.mem_range] at hr
    rw [Finset.mem_insert, List.mem_toFinset]
    by_cases h0 : Handle.mix r = 0
    · exact Or.inl h0
    · right
      have hl := hcon r hr h0
      cases hlk : m.lookup (Handle.mix r) with
      | none => exact absurd hlk hl
      | some v =>
        have := List.lookup_eq_some_iff.mp hlk
        obtain ⟨l1, l2, rfl, _⟩ := this
        simp
  have hcard : ((Finset.range (2 ^ 64)).image Handle.mix).card = 2 ^ 64 := by
    rw [Finset.card_image_of_injOn, Finset.card_range]
    intro a ha b hb hab
    exact mix_injective (Finset.mem_range.mp ha) (Finset.mem_range.mp hb) hab
  have h1 := Finset.card_le_card hsub
  have h2 : (insert 0 (m.map Prod.fst).toFinset).card ≤ m.length + 1 := by
    refine (Finset.card_insert_le _ _).trans ?_
    have := List.toFinset_card_le (m.map Prod.fst)
    simp only [List.length_map] at this
    omega
  omega

/-- The loop of `create_handle` returns within `2^64` iterations when the map has fewer
than `2^64 - 1` entries. -/
theorem create_handle_returns {T : Type} (ptr : T) (st : Handle T) (fuel : Nat)
    (hfuel : 2 ^ 64 ≤ fuel) (hsize : st.handle_map.length + 1 < 2 ^ 64) :
    ∃ h st2, Handle.create_handle ptr fuel st = some (h, st2) := by
  obtain ⟨r, hr, hne, hl⟩ := exists_good_key st.handle_map hsize
  have key : ∃ j, j < fuel ∧ (st.next_handle + j + 1) % 2 ^ 64 = r := by
    refine ⟨(r + 2 ^ 64 - (st.next_handle + 1) % 2 ^ 64) % 2 ^ 64, ?_, ?_⟩
    · have := Nat.mod_lt (r + 2 ^ 64 - (st.next_handle + 1) % 2 ^ 64) (show 0 < 2 ^ 64 by norm_num)
      omega
    · omega
  obtain ⟨j, hj, he⟩ := key
  exact create_handle_of_good ptr st.handle_map fuel st.next_handle
    ⟨j, hj, by rw [he]; exact hne, by rw [he]; exact hl⟩

/-! ## Claims on the result accessors -/

theorem static_cast_int_of_lt (n : Nat) (h : (n : Int) < 2 ^ 31) :
    static_cast_int (n : Int) = (n : Int) := by
  unfold static_cast_int
  omega

/-- The text accessor on a registered handle and an index inside the list. -/
theorem get_result_text_in_range (st : Registries) (result : Nat) (lst : QrcodeResultList)
    (hget : st.results.get result = some lst) (hn : (lst.length : Int) < 2 ^ 31)
    (i : Nat) (hi : i < lst.length) (hlen : ((lst.get ⟨i, hi⟩).text.length : Int) < 2 ^ 31)
    (output_text : Option (Nat → Byte)) (buffer_size : Option Int) :
    zzt_qrcode_get_result_text st result (i : Int) output_text buffer_size =
      match output_text with
      | some buf =>
        if buffer_size.getD 0 ≤ ((lst.get ⟨i, hi⟩).text.length : Int) then
          (.ZZT_QRCODE_ERROR_BUFFER_TOO_SMALL, some buf,
            buffer_size.map fun _ => ((lst.get ⟨i, hi⟩).text.length : Int) + 1)
        else
          (.ZZT_QRCODE_OK,
            some (Function.update (string_copy (lst.get ⟨i, hi⟩).text buf)
              (lst.get ⟨i, hi⟩).text.length 0),
            buffer_size.map fun _ => ((lst.get ⟨i, hi⟩).text.length : Int) + 1)
      | none =>
        (.ZZT_QRCODE_OK, none,
          buffer_size.map fun _ => ((lst.get ⟨i, hi⟩).text.length : Int) + 1) := by
  have hidx : ¬ ((i : Int) < 0 ∨ (i : Int) ≥ static_cast_int (lst.length : Int)) := by
    rw [static_cast_int_of_lt _ hn]; omega
  have hd : lst.getD (i : Int).toNat ⟨[], ⟨0, 0, 0, fun _ _ => 0⟩⟩ = lst.get ⟨i, hi⟩ := by
    simp [List.getD_eq_getElem?_getD, List.getElem?_eq_getElem hi]
  unfold zzt_qrcode_get_result_text
  simp only [hget, if_neg hidx, hd, QrcodeResult.get_text, static_cast_int_of_lt _ hlen]

/-- C5: on a registered result handle and an index inside the list, the text accessor
called with a null output buffer returns `ZZT_QRCODE_OK` and stores the payload length
plus 1 in `*buffer_size`, whatever `*buffer_size` held before (sizes within the range of
`int`). -/
theorem get_result_text_null_buffer (st : Registries) (result : Nat) (lst : QrcodeResultList)
    (hget : st.results.get result = some lst) (hn : (lst.length : Int) < 2 ^ 31)
    (i : Nat) (hi : i < lst.length)
    (hlen : ((lst.get ⟨i, hi⟩).text.length : Int) + 1 < 2 ^ 31) (v : Int) :
    zzt_qrcode_get_result_text st result (i : Int) none (some v) =
      (.ZZT_QRCODE_OK, none, some (((lst.get ⟨i, hi⟩).text.length : Int) + 1)) := by
  rw [get_result_text_in_range st result lst hget hn i hi (by omega)]
  rfl

/-- Witness of C5: the registered list of `example_registries`, index 0, payload `HELLO`:
the null-buffer query reports 6 whatever the cell held (here 123). -/
theorem get_result_text_null_buffer_witness :
    zzt_qrcode_get_result_text example_registries 0x9e3779b97fca7c15 0 none (some 123) =
      (.ZZT_QRCODE_OK, none, some 6) :=
  get_result_text_null_buffer example_registries 0x9e3779b97fca7c15 [example_result] rfl
    (by decide) 0 (by decide) (by decide) 123

/-- C6: two-phase text round trip. On a registered handle and an index inside the list,
with payload `s`, the size reported by the null-buffer query is `length s + 1`, and the
call with a buffer and that size returns `ZZT_QRCODE_OK`, leaves the bytes of `s` in the
first `length s` cells, a `0` in cell `length s`, the cells after it as they were, and
`length s + 1` in `*buffer_size` (sizes within the range of `int`). -/
theorem get_result_text_round_trip (st : Registries) (result : Nat) (lst : QrcodeResultList)
    (hget : st.results.get result = some lst) (hn : (lst.length : Int) < 2 ^ 31)
    (i : Nat) (hi : i < lst.length)
    (hlen : ((lst.get ⟨i, hi⟩).text.length : Int) + 1 < 2 ^ 31) (v : Int) (buf : Nat → Byte) :
    let s := (lst.get ⟨i, hi⟩).text
    let reported := (zzt_qrcode_get_result_text st result (i : Int) none (some v)).2.2
    reported = some ((s.length : Int) + 1) ∧
      ∃ out, zzt_qrcode_get_result_text st result (i : Int) (some buf) reported =
          (.ZZT_QRCODE_OK, some out, some ((s.length : Int) + 1)) ∧
        (∀ j (hj : j < s.length), out j = s.get ⟨j, hj⟩) ∧
        out s.length = 0 ∧
        (∀ j, s.length < j → out j = buf j) := by
  intro s reported
  have hrep : reported = some ((s.length : Int) + 1) := by
    show (zzt_qrcode_get_result_text st result (i : Int) none (some v)).2.2 = _
    rw [get_result_text_in_range st result lst hget hn i hi (by omega)]
    rfl
  refine ⟨hrep, Function.update (string_copy s buf) s.length 0, ?_, ?_, ?_, ?_⟩
  · rw [hrep, get_result_text_in_range st result lst hget hn i hi (by omega)]
    have hnot : ¬ ((s.length : Int) + 1 ≤ (s.length : Int)) := by omega
    simp only [Option.getD_some, if_neg hnot]
    rfl
  · intro j hj
    rw [Function.update_noteq (Nat.ne_of_lt hj)]
    simp [string_copy, hj]
  · simp
  · intro j hj
    rw [Function.update_noteq (Nat.ne_of_gt hj)]
    have : ¬ j < s.length := by omega
    simp [string_copy, this]

/-- Witness of C6: payload `HELLO` in `example_registries`, a buffer filled with `255`. -/
theorem get_result_text_round_trip_witness :
    (zzt_qrcode_get_result_text example_registries 0x9e3779b97fca7c15 0 none (some 0)).2.2
        = some 6 ∧
      ∃ out, zzt_qrcode_get_result_text example_registries 0x9e3779b97fca7c15 0
          (some fun _ => 255)
          (zzt_qrcode_get_result_text example_registries 0x9e3779b97fca7c15 0 none (some 0)).2.2
          = (.ZZT_QRCODE_OK, some out, some 6) ∧
        (∀ j (hj : j < 5), out j = ([72, 69, 76, 76, 79] : List Byte).get ⟨j, hj⟩) ∧
        out 5 = 0 ∧ (∀ j, 5 < j → out j = 255) :=
  get_result_text_round_trip example_registries 0x9e3779b97fca7c15 [example_result] rfl
    (by decide) 0 (by decide) (by decide) 0 (fun _ => 255)

/-- C7: on a registered handle and an index inside the list, with a payload of length `n`,
a non-null output buffer and a declared size `<= n` (or a null `buffer_size`), the text
accessor returns `ZZT_QRCODE_ERROR_BUFFER_TOO_SMALL`, leaves the buffer as it was and stores
`n + 1` in `*buffer_size` when it is not null (sizes within the range of `int`). -/
theorem get_result_text_buffer_too_small (st : Registries) (result : Nat)
    (lst : QrcodeResultList) (hget : st.results.get result = some lst)
    (hn : (lst.length : Int) < 2 ^ 31) (i : Nat) (hi : i < lst.length)
    (hlen : ((lst.get ⟨i, hi⟩).text.length : Int) + 1 < 2 ^ 31) (buf : Nat → Byte)
    (buffer_size : Option Int)
    (hsmall : ∀ d, buffer_size = some d → d ≤ ((lst.get ⟨i, hi⟩).text.length : Int)) :
    zzt_qrcode_get_result_text st result (i : Int) (some buf) buffer_size =
      (.ZZT_QRCODE_ERROR_BUFFER_TOO_SMALL, some buf,
        buffer_size.map fun _ => ((lst.get ⟨i, hi⟩).text.length : Int) + 1) := by
  rw [get_result_text_in_range st result lst hget hn i hi (by omega)]
  have hle : buffer_size.getD 0 ≤ ((lst.get ⟨i, hi⟩).text.length : Int) := by
    cases buffer_size with
    | none => exact Int.natCast_nonneg _
    | some d => exact hsmall d rfl
  simp only [if_pos hle]

/-- Witness of C7: payload `HELLO` (length 5) with a declared size of 5, one byte less
than required: the buffer filled with `255` is returned as it was and 6 is reported. -/
theorem get_result_text_buffer_too_small_witness :
    zzt_qrcode_get_result_text example_registries 0x9e3779b97fca7c15 0
        (some fun _ => 255) (some 5) =
      (.ZZT_QRCODE_ERROR_BUFFER_TOO_SMALL, some fun _ => 255, some 6) :=
  get_result_text_buffer_too_small example_registries 0x9e3779b97fca7c15 [example_result] rfl
    (by decide) 0 (by decide) (by decide) (fun _ => 255) (some 5)
    (by intro d hd; cases hd; decide)

/-- The cells written by the copy loop of the point accessor: cell `p` receives the
coordinate `p % 2` of row `p / 2` when that row is in the list, and is left as it was
otherwise. -/
theorem copy_points_apply (M : Mat float) :
    ∀ (l : List Nat) (buf : Nat → float) (p : Nat),
      copy_points M l buf p =
        if p / 2 ∈ l then (if p % 2 = 0 then M.data (p / 2) 0 else M.data (p / 2) 1)
        else buf p := by
  intro l
  induction l with
  | nil => intro buf p; simp [copy_points]
  | cons i rest ih =>
    intro buf p
    rw [copy_points, ih]
    by_cases hr : p / 2 ∈ rest
    · simp [hr]
    · rw [if_neg hr, Function.update_apply, Function.update_apply]
      by_cases hp : p / 2 = i
      · have hm : p / 2 ∈ i :: rest := by rw [hp]; exact List.mem_cons_self _ _
        rw [if_pos hm, hp]
        rcases Nat.mod_two_eq_zero_or_one p with h0 | h1
        · have e1 : p ≠ i * 2 + 1 := by omega
          have e2 : p = i * 2 := by omega
          rw [if_neg e1, if_pos e2, if_pos h0]
        · have e1 : p = i * 2 + 1 := by omega
          have e3 : ¬ p % 2 = 0 := by omega
          rw [if_pos e1, if_neg e3]
      · have e1 : p ≠ i * 2 + 1 := by omega
        have e2 : p ≠ i * 2 := by omega
        have hm : ¬ p / 2 ∈ i :: rest := by
          rw [List.mem_cons]; exact fun h => h.elim hp hr
        rw [if_neg e1, if_neg e2, if_neg hm]

/-- The point accessor on a registered handle and an index inside the list. -/
theorem get_result_points_in_range (st : Registries) (result : Nat) (lst : QrcodeResultList)
    (hget : st.results.get result = some lst) (hn : (lst.length : Int) < 2 ^ 31)
    (i : Nat) (hi : i < lst.length)
    (output_point : Option (Nat → float)) (buffer_size : Option Int) :
    zzt_qrcode_get_result_points st result (i : Int) output_point buffer_size =
      match output_point with
      | some buf =>
        if buffer_size.getD 0 < (lst.get ⟨i, hi⟩).result_points.rows * 2 then
          (.ZZT_QRCODE_ERROR_BUFFER_TOO_SMALL, some buf,
            buffer_size.map fun _ => (lst.get ⟨i, hi⟩).result_points.rows * 2)
        else
          (.ZZT_QRCODE_OK,
            some (copy_points (lst.get ⟨i, hi⟩).result_points
              (List.range (lst.get ⟨i, hi⟩).result_points.rows.toNat) buf),
            buffer_size.map fun _ => (lst.get ⟨i, hi⟩).result_points.rows * 2)
      | none =>
        (.ZZT_QRCODE_OK, none,
          buffer_size.map fun _ => (lst.get ⟨i, hi⟩).result_points.rows * 2) := by
  have hidx : ¬ ((i : Int) < 0 ∨ (i : Int) ≥ static_cast_int (lst.length : Int)) := by
    rw [static_cast_int_of_lt _ hn]; omega
  have hd : lst.getD (i : Int).toNat ⟨[], ⟨0, 0, 0, fun _ _ => 0⟩⟩ = lst.get ⟨i, hi⟩ := by
    simp [List.getD_eq_getElem?_getD, List.getElem?_eq_getElem hi]
  unfold zzt_qrcode_get_result_points
  simp only [hget, if_neg hidx, hd, QrcodeResult.get_result_points]

/-- C8: the corner-point accessor follows the two-phase convention. On a registered handle
and an index inside the list, for a result holding `k` corner points: with a null buffer it
returns `ZZT_QRCODE_OK` and reports `2 * k`; with a buffer of declared capacity `>= 2 * k`
it returns `ZZT_QRCODE_OK`, reports `2 * k` and writes `x_j` to cell `2 * j` and `y_j` to
cell `2 * j + 1` for every `j < k`, leaving the cells from `2 * k` on as they were; with a
buffer of capacity `< 2 * k` it returns `ZZT_QRCODE_ERROR_BUFFER_TOO_SMALL`, reports
`2 * k` and leaves the buffer as it was. For `k = 4` the reported size is 8. -/
theorem get_result_points_two_phase (st : Registries) (result : Nat) (lst : QrcodeResultList)
    (hget : st.results.get result = some lst) (hn : (lst.length : Int) < 2 ^ 31)
    (i : Nat) (hi : i < lst.length) (k : Nat)
    (hk : (lst.get ⟨i, hi⟩).result_points.rows = (k : Int)) :
    (∀ buffer_size : Option Int,
        zzt_qrcode_get_result_points st result (i : Int) none buffer_size =
          (.ZZT_QRCODE_OK, none, buffer_size.map fun _ => 2 * (k : Int))) ∧
      (∀ (buf : Nat → float) (d : Int), 2 * (k : Int) ≤ d →
        ∃ out, zzt_qrcode_get_result_points st result (i : Int) (some buf) (some d) =
            (.ZZT_QRCODE_OK, some out, some (2 * (k : Int))) ∧
          (∀ j, j < k → out (2 * j) = (lst.get ⟨i, hi⟩).result_points.data j 0 ∧
            out (2 * j + 1) = (lst.get ⟨i, hi⟩).result_points.data j 1) ∧
          (∀ p, 2 * k ≤ p → out p = buf p)) ∧
      (∀ (buf : Nat → float) (buffer_size : Option Int), buffer_size.getD 0 < 2 * (k : Int) →
        zzt_qrcode_get_result_points st result (i : Int) (some buf) buffer_size =
          (.ZZT_QRCODE_ERROR_BUFFER_TOO_SMALL, some buf,
            buffer_size.map fun _ => 2 * (k : Int))) ∧
      (k = 4 → ∀ v : Int,
        zzt_qrcode_get_result_points st result (i : Int) none (some v) =
          (.ZZT_QRCODE_OK, none, some 8)) := by
  have hmul : (lst.get ⟨i, hi⟩).result_points.rows * 2 = 2 * (k : Int) := by rw [hk]; ring
  have hrows : (lst.get ⟨i, hi⟩).result_points.rows.toNat = k := by rw [hk]; rfl
  have hnull : ∀ buffer_size : Option Int,
      zzt_qrcode_get_result_points st result (i : Int) none buffer_size =
        (.ZZT_QRCODE_OK, none, buffer_size.map fun _ => 2 * (k : Int)) := by
    intro buffer_size
    rw [get_result_points_in_range st result lst hget hn i hi]
    simp only [hmul]
  refine ⟨hnull, ?_, ?_, ?_⟩
  · intro buf d hd
    refine ⟨copy_points (lst.get ⟨i, hi⟩).result_points (List.range k) buf, ?_, ?_, ?_⟩
    · rw [get_result_points_in_range st result lst hget hn i hi]
      have hnot : ¬ (d < 2 * (k : Int)) := by omega
      simp only [hmul, hrows, Option.getD_some, if_neg hnot, Option.map_some']
    · intro j hj
      have e1 : (2 * j) / 2 = j := by omega
      have e2 : (2 * j + 1) / 2 = j := by omega
      have e3 : (2 * j) % 2 = 0 := by omega
      have e4 : ¬ (2 * j + 1) % 2 = 0 := by omega
      have hm : j ∈ List.range k := List.mem_range.mpr hj
      rw [copy_points_apply, copy_points_apply, e1, e2, if_pos hm, if_pos hm, if_pos e3,
        if_neg e4]
      exact ⟨rfl, rfl⟩
    · intro p hp
      have hm : ¬ p / 2 ∈ List.range k := by
        rw [List.mem_range]; omega
      rw [copy_points_apply, if_neg hm]
  · intro buf buffer_size hlt
    rw [get_result_points_in_range st result lst hget hn i hi]
    simp only [hmul, if_pos hlt]
  · intro h4 v
    rw [hnull, h4]
    rfl

/-- Witness of C8: the quad of `example_result` has 4 corners; the null-buffer query
reports 8 and a buffer of capacity 8 receives `10, 10, 50, 10, 50, 50, 10, 50`. -/
theorem get_result_points_two_phase_witness :
    zzt_qrcode_get_result_points example_registries 0x9e3779b97fca7c15 0 none (some 0) =
        (.ZZT_QRCODE_OK, none, some 8) ∧
      ∃ out, zzt_qrcode_get_result_points example_registries 0x9e3779b97fca7c15 0
            (some fun _ => 0) (some 8) = (.ZZT_QRCODE_OK, some out, some (2 * ((4 : Nat) : Int))) ∧
          (∀ j, j < 4 → out (2 * j) = example_result.result_points.data j 0 ∧
            out (2 * j + 1) = example_result.result_points.data j 1) ∧
          (∀ p, 2 * 4 ≤ p → out p = 0) :=
  ⟨(get_result_points_two_phase example_registries 0x9e3779b97fca7c15 [example_result] rfl
      (by decide) 0 (by decide) 4 (by decide)).2.2.2 rfl 0,
   (get_result_points_two_phase example_registries 0x9e3779b97fca7c15 [example_result] rfl
      (by decide) 0 (by decide) 4 (by decide)).2.1 (fun _ => 0) 8 (by decide)⟩

/-- C9: accessor error classification. On a handle registered with a list of `n` results
(`n` within the range of `int`), the text accessor and the point accessor return
`ZZT_QRCODE_ERROR_INVALID_INDEX` exactly for the indices `i < 0` or `i >= n`; on a handle
that is not registered they return `ZZT_QRCODE_ERROR_INVALID_HANDLE` whatever the index;
in both error cases the output buffer is left as it was and the text accessor stores `0`
in `*buffer_size` when it is not null. -/
theorem accessor_error_classification (st : Registries) (result : Nat) (index : Int)
    (output_text : Option (Nat → Byte)) (output_point : Option (Nat → float))
    (buffer_size : Option Int) :
    (∀ lst : QrcodeResultList, st.results.get result = some lst →
        (lst.length : Int) < 2 ^ 31 →
        (((zzt_qrcode_get_result_text st result index output_text buffer_size).1 =
              .ZZT_QRCODE_ERROR_INVALID_INDEX ↔ (index < 0 ∨ index ≥ (lst.length : Int))) ∧
          ((zzt_qrcode_get_result_points st result index output_point buffer_size).1 =
              .ZZT_QRCODE_ERROR_INVALID_INDEX ↔ (index < 0 ∨ index ≥ (lst.length : Int))) ∧
          ((index < 0 ∨ index ≥ (lst.length : Int)) →
            zzt_qrcode_get_result_text st result index output_text buffer_size =
                (.ZZT_QRCODE_ERROR_INVALID_INDEX, output_text, buffer_size.map fun _ => 0) ∧
              (zzt_qrcode_get_result_points st result index output_point buffer_size).2.1 =
                output_point))) ∧
      (st.results.get result = none →
        zzt_qrcode_get_result_text st result index output_text buffer_size =
            (.ZZT_QRCODE_ERROR_INVALID_HANDLE, output_text, buffer_size.map fun _ => 0) ∧
          (zzt_qrcode_get_result_points st result index output_point buffer_size).1 =
            .ZZT_QRCODE_ERROR_INVALID_HANDLE ∧
          (zzt_qrcode_get_result_points st result index output_point buffer_size).2.1 =
            output_point) := by
  constructor
  · intro lst hget hn
    have hc := static_cast_int_of_lt _ hn
    by_cases hidx : index < 0 ∨ index ≥ (lst.length : Int)
    · have htext : zzt_qrcode_get_result_text st result index output_text buffer_size =
          (.ZZT_QRCODE_ERROR_INVALID_INDEX, output_text, buffer_size.map fun _ => 0) := by
        unfold zzt_qrcode_get_result_text
        simp only [hget, hc, if_pos hidx]
      have hpts : zzt_qrcode_get_result_points st result index output_point buffer_size =
          (.ZZT_QRCODE_ERROR_INVALID_INDEX, output_point, buffer_size) := by
        unfold zzt_qrcode_get_result_points
        simp only [hget, hc, if_pos hidx]
      refine ⟨?_, ?_, ?_⟩
      · rw [htext]; exact ⟨fun _ => hidx, fun _ => rfl⟩
      · rw [hpts]; exact ⟨fun _ => hidx, fun _ => rfl⟩
      · intro _; rw [hpts]; exact ⟨htext, rfl⟩
    · have h0 : 0 ≤ index := by omega
      obtain ⟨i, rfl⟩ := Int.eq_ofNat_of_zero_le h0
      have hi : i < lst.length := by omega
      refine ⟨?_, ?_, fun h => absurd h hidx⟩
      · constructor
        · intro h
          exfalso
          unfold zzt_qrcode_get_result_text at h
          simp only [hget, hc, if_neg hidx] at h
          cases output_text with
          | none => simp at h
          | some buf =>
            simp only at h
            split_ifs at h
        · intro h; exact absurd h hidx
      · constructor
        · intro h
          exfalso
          rw [get_result_points_in_range st result lst hget hn i hi] at h
          cases output_point with
          | none => simp at h
          | some buf =>
            simp only at h
            split_ifs at h
        · intro h; exact absurd h hidx
  · intro hget
    unfold zzt_qrcode_get_result_text zzt_qrcode_get_result_points
    simp only [hget, and_self]

/-- Witness of C9: in `example_registries` (one list of one result) index 1 and index -1
are rejected with `ZZT_QRCODE_ERROR_INVALID_INDEX`, and the handle `5`, which is not
registered, with `ZZT_QRCODE_ERROR_INVALID_HANDLE`; the buffer is returned as it was and
the size cell holds `0`. -/
theorem accessor_error_classification_witness :
    zzt_qrcode_get_result_text example_registries 0x9e3779b97fca7c15 1 (some fun _ => 7)
        (some 100) = (.ZZT_QRCODE_ERROR_INVALID_INDEX, some fun _ => 7, some 0) ∧
      zzt_qrcode_get_result_text example_registries 0x9e3779b97fca7c15 (-1) (some fun _ => 7)
        (some 100) = (.ZZT_QRCODE_ERROR_INVALID_INDEX, some fun _ => 7, some 0) ∧
      zzt_qrcode_get_result_text example_registries 5 0 (some fun _ => 7) (some 100) =
        (.ZZT_QRCODE_ERROR_INVALID_HANDLE, some fun _ => 7, some 0) :=
  ⟨(((accessor_error_classification example_registries 0x9e3779b97fca7c15 1 (some fun _ => 7)
      none (some 100)).1 [example_result] rfl (by decide)).2.2 (by decide)).1,
   (((accessor_error_classification example_registries 0x9e3779b97fca7c15 (-1)
      (some fun _ => 7) none (some 100)).1 [example_result] rfl (by decide)).2.2 (by decide)).1,
   ((accessor_error_classification example_registries 5 0 (some fun _ => 7) none
      (some 100)).2 rfl).1⟩

/-! ## Claims on the registry and on detect-and-decode -/

theorem lookup_filter_ne_self {T : Type} (h : Nat) (m : List (Nat × T)) :
    (m.filter fun e => e.1 != h).lookup h = none := by
  induction m with
  | nil => rfl
  | cons e rest ih =>
    by_cases he : e.1 = h
    · simp [List.filter_cons, he, ih]
    · have hb : (e.1 != h) = true := by simpa using he
      have hb2 : (h == e.1) = false := by simpa using fun hh : h = e.1 => he hh.symm
      rw [List.filter_cons, if_pos hb]
      obtain ⟨k, v⟩ := e
      rw [List.lookup_cons]
      simp only at hb2
      rw [hb2]
      exact ih

theorem lookup_filter_ne_other {T : Type} (h k : Nat) (hk : k ≠ h) (m : List (Nat × T)) :
    (m.filter fun e => e.1 != h).lookup k = m.lookup k := by
  induction m with
  | nil => rfl
  | cons e rest ih =>
    obtain ⟨k2, v⟩ := e
    by_cases he : k2 = h
    · have hb2 : (k == k2) = false := by simpa [he] using hk
      simp only [List.filter_cons, he, bne_self_eq_false, Bool.false_eq_true, if_false]
      rw [List.lookup_cons, ← he, hb2]
      rw [← he] at ih
      exact ih
    · have hb : (k2 != h) = true := by simpa using he
      rw [List.filter_cons]
      simp only [hb, if_true]
      rw [List.lookup_cons, List.lookup_cons, ih]

theorem filter_ne_of_lookup_none {T : Type} (h : Nat) (m : List (Nat × T))
    (hl : m.lookup h = none) : (m.filter fun e => e.1 != h) = m := by
  rw [List.filter_eq_self]
  intro e he
  rw [List.lookup_eq_none_iff] at hl
  have hne : h ≠ e.1 := by simpa using hl e he
  simpa using hne.symm

/-- What `create_handle` leaves in the registry: the new handle resolves to the created
resource, every other key resolves as before, and the registry stays valid. -/
theorem create_handle_get {T : Type} (ptr : T) (fuel : Nat) (st : Handle T) (h : Nat)
    (st2 : Handle T) (hc : Handle.create_handle ptr fuel st = some (h, st2)) :
    h ≠ 0 ∧ st.get h = none ∧ st2.get h = some ptr ∧ (∀ k, k ≠ h → st2.get k = st.get k) ∧
      (st.Valid → st2.Valid) := by
  obtain ⟨h0, hl, hm⟩ := create_handle_spec ptr fuel st h st2 hc
  have hother : ∀ k, k ≠ h → st2.get k = st.get k := by
    intro k hk
    have hb : (k == h) = false := by simpa using hk
    simp only [Handle.get, hm, List.lookup_cons, hb]
  refine ⟨h0, hl, ?_, hother, ?_⟩
  · simp [Handle.get, hm]
  · intro hv
    have := hother 0 (Ne.symm h0)
    simp only [Handle.get] at this
    simp only [Handle.Valid, this]
    exact hv

/-- C10: stale handles are rejected. In a valid registry of result lists: a handle
returned by `create_handle` is not null and resolves to the created list; after
`release_handle(h)` has returned true, `get(h)` is null and a second `release_handle(h)`
returns false, so that `zzt_qrcode_release_result` and `zzt_qrcode_get_result_size` on the
released handle return `ZZT_QRCODE_ERROR_INVALID_HANDLE`, the latter storing size 0; the
same holds for every handle that is not registered, the null handle included; and the
release of one handle leaves every other handle resolving as before. -/
theorem stale_handles_rejected (st : Registries) (hv : st.results.Valid) :
    (∀ (lst : QrcodeResultList) (fuel h : Nat) (reg2 : Handle QrcodeResultList),
        st.results.create_handle lst fuel = some (h, reg2) →
          h ≠ 0 ∧ reg2.get h = some lst ∧ reg2.Valid) ∧
      (∀ h : Nat, (st.results.release_handle h).1 = true →
        (st.results.release_handle h).2.get h = none ∧
          ((st.results.release_handle h).2.release_handle h).1 = false ∧
          (st.results.release_handle h).2.Valid) ∧
      (∀ (h : Nat) (size : Option Int),
        (zzt_qrcode_release_result st h).1 = .ZZT_QRCODE_OK →
          zzt_qrcode_release_result (zzt_qrcode_release_result st h).2 h =
              (.ZZT_QRCODE_ERROR_INVALID_HANDLE, (zzt_qrcode_release_result st h).2) ∧
            zzt_qrcode_get_result_size (zzt_qrcode_release_result st h).2 h size =
              (.ZZT_QRCODE_ERROR_INVALID_HANDLE, size.map fun _ => 0)) ∧
      (∀ (h : Nat) (size : Option Int), (st.results.get h = none ∨ h = 0) →
        zzt_qrcode_release_result st h = (.ZZT_QRCODE_ERROR_INVALID_HANDLE, st) ∧
          zzt_qrcode_get_result_size st h size =
            (.ZZT_QRCODE_ERROR_INVALID_HANDLE, size.map fun _ => 0)) ∧
      (∀ h k : Nat, k ≠ h →
        (zzt_qrcode_release_result st h).2.results.get k = st.results.get k) := by
  have hnull : st.results.get 0 = none := by
    have := hv
    simp only [Handle.Valid, Option.isNone_iff_eq_none] at this
    exact this
  have hunreg : ∀ (st : Registries) (h : Nat) (size : Option Int), st.results.get h = none →
      zzt_qrcode_release_result st h = (.ZZT_QRCODE_ERROR_INVALID_HANDLE, st) ∧
        zzt_qrcode_get_result_size st h size =
          (.ZZT_QRCODE_ERROR_INVALID_HANDLE, size.map fun _ => 0) := by
    intro st h size hg
    constructor
    · unfold zzt_qrcode_release_result
      split_ifs with h0
      · rfl
      · have hl : st.results.handle_map.lookup h = none := hg
        simp only [Handle.release_handle, hl, Option.isSome_none, Bool.false_eq_true, if_false,
          filter_ne_of_lookup_none h _ hl]
    · unfold zzt_qrcode_get_result_size
      simp only [hg]
  refine ⟨?_, ?_, ?_, ?_, ?_⟩
  · intro lst fuel h reg2 hc
    obtain ⟨h0, _, hg, _, hval⟩ := create_handle_get lst fuel st.results h reg2 hc
    exact ⟨h0, hg, hval hv⟩
  · intro h _
    refine ⟨lookup_filter_ne_self h _, ?_, ?_⟩
    · simp only [Handle.release_handle, lookup_filter_ne_self, Option.isSome_none]
    · by_cases h0 : h = 0
      · subst h0
        simp only [Handle.Valid, Handle.release_handle, lookup_filter_ne_self, Option.isNone_none]
      · simp only [Handle.Valid, Handle.release_handle,
          lookup_filter_ne_other h 0 (Ne.symm h0)]
        exact hv
  · intro h size hok
    have hne : h ≠ 0 := by
      intro h0
      simp [zzt_qrcode_release_result, h0] at hok
    have hst : (zzt_qrcode_release_result st h).2 =
        ⟨st.detectors, (st.results.release_handle h).2⟩ := by
      simp only [zzt_qrcode_release_result, if_neg hne]
    have hg : (zzt_qrcode_release_result st h).2.results.get h = none := by
      rw [hst]
      exact lookup_filter_ne_self h _
    exact hunreg _ h size hg
  · intro h size hh
    rcases hh with hg | h0
    · exact hunreg st h size hg
    · subst h0
      exact hunreg st 0 size hnull
  · intro h k hk
    unfold zzt_qrcode_release_result
    split_ifs with h0
    · rfl
    · exact lookup_filter_ne_other h k hk _

/-- Witness of C10: from the empty registry with counter `0`, `create_handle` with one
iteration returns the key `0x9e3779b97fca7c15`, which resolves to the created list; in
`example_registries` the release of that handle succeeds, after which a second release
and the size query return `ZZT_QRCODE_ERROR_INVALID_HANDLE`, the size cell holding `0`. -/
theorem stale_handles_rejected_witness :
    (0x9e3779b97fca7c15 ≠ 0 ∧
        example_registries.results.get 0x9e3779b97fca7c15 = some [example_result] ∧
        example_registries.results.Valid) ∧
      zzt_qrcode_release_result (zzt_qrcode_release_result example_registries
          0x9e3779b97fca7c15).2 0x9e3779b97fca7c15 =
        (.ZZT_QRCODE_ERROR_INVALID_HANDLE,
          (zzt_qrcode_release_result example_registries 0x9e3779b97fca7c15).2) ∧
      zzt_qrcode_get_result_size (zzt_qrcode_release_result example_registries
          0x9e3779b97fca7c15).2 0x9e3779b97fca7c15 (some 5) =
        (.ZZT_QRCODE_ERROR_INVALID_HANDLE, some 0) :=
  ⟨(stale_handles_rejected ⟨example_registries.detectors, ⟨0, []⟩⟩ rfl).1 [example_result] 1
      0x9e3779b97fca7c15 example_registries.results rfl,
    (stale_handles_rejected example_registries rfl).2.2.1 0x9e3779b97fca7c15 (some 5) rfl⟩

/-- C1: for an image that is not empty and whose width or height is at most 20, and a
registered detector handle, `detectAndDecode` returns an empty text list and leaves the
point list as it was, whatever the detector networks, the resamplers and the decoder are
(none of them is consulted), and `qrcode_detect_and_decode_internal` returns
`ZZT_QRCODE_OK` with the handle of a newly registered result list of size 0 (the loop of
`create_handle` returning within `2^64` iterations on a registry with fewer than
`2^64 - 1` entries). -/
theorem detect_and_decode_small_image (lib : Library) (fuel : Nat) (st : Registries)
    (detector : Nat) (obj : WeChatQRCode) (img : Mat Nat) (out : Nat)
    (hdet : st.detectors.get detector = some obj) (hne : lib.empty img = false)
    (hsmall : img.cols ≤ 20 ∨ img.rows ≤ 20)
    (hfuel : 2 ^ 64 ≤ fuel) (hsize : st.results.handle_map.length + 1 < 2 ^ 64) :
    (∀ points, obj.detectAndDecode lib img points = ([], points)) ∧
      ∃ h st2, qrcode_detect_and_decode_internal lib fuel st detector img (some out) =
          some (.ZZT_QRCODE_OK, some h, st2) ∧
        h ≠ 0 ∧ st.results.get h = none ∧ st2.results.get h = some [] ∧
        st2.detectors = st.detectors ∧
        ∀ v, zzt_qrcode_get_result_size st2 h (some v) = (.ZZT_QRCODE_OK, some 0) := by
  have hdd : ∀ points, obj.detectAndDecode lib img points = ([], points) := by
    intro points
    unfold WeChatQRCode.detectAndDecode
    rw [if_pos hsmall]
  refine ⟨hdd, ?_⟩
  obtain ⟨h, reg2, hc⟩ := create_handle_returns ([] : QrcodeResultList) st.results fuel hfuel hsize
  obtain ⟨h0, hfresh, hg, _, _⟩ := create_handle_get _ fuel st.results h reg2 hc
  refine ⟨h, ⟨st.detectors, reg2⟩, ?_, h0, hfresh, hg, rfl, ?_⟩
  · unfold qrcode_detect_and_decode_internal
    simp only [hdet, hne, hdd, List.length_nil, gt_iff_lt, lt_self_iff_false, if_false,
      Bool.false_eq_true, hc]
  · intro v
    unfold zzt_qrcode_get_result_size
    simp only [hg, Option.map_some', List.length_nil]
    rfl

/-- Witness of C1: a 100 x 20 image (20 rows) and the detector of `example_registries`. -/
theorem detect_and_decode_small_image_witness :
    (∀ points, example_detector.detectAndDecode example_library (Mat.blank 20 100) points =
        ([], points)) ∧
      ∃ h st2, qrcode_detect_and_decode_internal example_library (2 ^ 64) example_registries
          0x9e3779b97fca7c15 (Mat.blank 20 100) (some 0) = some (.ZZT_QRCODE_OK, some h, st2) ∧
        h ≠ 0 ∧ example_registries.results.get h = none ∧ st2.results.get h = some [] ∧
        st2.detectors = example_registries.detectors ∧
        ∀ v, zzt_qrcode_get_result_size st2 h (some v) = (.ZZT_QRCODE_OK, some 0) :=
  detect_and_decode_small_image example_library (2 ^ 64) example_registries
    0x9e3779b97fca7c15 example_detector (Mat.blank 20 100) 0 rfl rfl (Or.inr (by decide))
    (le_refl _) (by decide)

/-! ## Claims on the scale factor and on the region detector -/

/-- C17: after `setScaleFactor(v)`, `getScaleFactor()` returns `v` when `0 < v <= 1`
and `-1` otherwise; the stored value is `-1` or lies in `(0, 1]`, for a newly constructed
object as well; and `setScaleFactor(getScaleFactor())` leaves the object as it is. -/
theorem setScaleFactor_normalises (self : WeChatQRCode) (v : float) :
    ((0 < v ∧ v ≤ 1) → (self.setScaleFactor v).getScaleFactor = v) ∧
      (¬ (0 < v ∧ v ≤ 1) → (self.setScaleFactor v).getScaleFactor = -1) ∧
      ((self.setScaleFactor v).getScaleFactor = -1 ∨
        (0 < (self.setScaleFactor v).getScaleFactor ∧
          (self.setScaleFactor v).getScaleFactor ≤ 1)) ∧
      (self.setScaleFactor v).setScaleFactor (self.setScaleFactor v).getScaleFactor =
        self.setScaleFactor v ∧
      (∀ detect_net sr_net,
        (WeChatQRCode.new detect_net sr_net).getScaleFactor = -1 ∧
          (WeChatQRCode.new detect_net sr_net).setScaleFactor
              (WeChatQRCode.new detect_net sr_net).getScaleFactor =
            WeChatQRCode.new detect_net sr_net) := by
  have hneg : ¬ ((-1 : float) > 0 ∧ (-1 : float) ≤ 1) := by norm_num
  refine ⟨fun h => ?_, fun h => ?_, ?_, ?_, fun d s => ⟨rfl, ?_⟩⟩
  · simp only [WeChatQRCode.setScaleFactor, WeChatQRCode.getScaleFactor, gt_iff_lt, if_pos h]
  · simp only [WeChatQRCode.setScaleFactor, WeChatQRCode.getScaleFactor, gt_iff_lt, if_neg h]
  · by_cases h : 0 < v ∧ v ≤ 1
    · right
      simp only [WeChatQRCode.setScaleFactor, WeChatQRCode.getScaleFactor, gt_iff_lt, if_pos h]
      exact h
    · left
      simp only [WeChatQRCode.setScaleFactor, WeChatQRCode.getScaleFactor, gt_iff_lt, if_neg h]
  · by_cases h : 0 < v ∧ v ≤ 1
    · simp only [WeChatQRCode.setScaleFactor, WeChatQRCode.getScaleFactor, gt_iff_lt, if_pos h]
    · have hneg2 : ¬ ((0 : float) < -1 ∧ (-1 : float) ≤ 1) := by norm_num
      simp only [WeChatQRCode.setScaleFactor, WeChatQRCode.getScaleFactor, gt_iff_lt, if_neg h,
        if_neg hneg2]
  · have hneg2 : ¬ ((0 : float) < -1 ∧ (-1 : float) ≤ 1) := by norm_num
    simp only [WeChatQRCode.setScaleFactor, WeChatQRCode.getScaleFactor, WeChatQRCode.new,
      gt_iff_lt, if_neg hneg2]

/-- Witness of C17: on `example_detector`, the value `1/2` is stored and the value `2` is
replaced by `-1`. -/
theorem setScaleFactor_normalises_witness :
    (example_detector.setScaleFactor (1 / 2)).getScaleFactor = 1 / 2 ∧
      (example_detector.setScaleFactor 2).getScaleFactor = -1 :=
  ⟨(setScaleFactor_normalises example_detector (1 / 2)).1 (by norm_num),
   (setScaleFactor_normalises example_detector 2).2.1 (by norm_num)⟩

theorem clamp_bounds (v lo hi : float) (h : lo ≤ hi) :
    lo ≤ clamp v lo hi ∧ clamp v lo hi ≤ hi := by
  unfold clamp
  split_ifs with h1 h2
  · exact ⟨le_refl _, h⟩
  · exact ⟨h, le_refl _⟩
  · exact ⟨not_lt.mp h1, not_lt.mp h2⟩

/-- C18: `SSDDetector::forward` returns, in row order, one quad for exactly the rows of
the network output with `class == 1` and `score > 1e-5`; the quad of a row
`(class, score, x0, y0, x1, y1)` has 4 rows and 2 columns holding the corners `(X0, Y0)`,
`(X1, Y0)`, `(X1, Y1)`, `(X0, Y1)` with `X = clamp(x * cols, 0, cols - 1)` and
`Y = clamp(y * rows, 0, rows - 1)`; every candidate is an axis-aligned rectangle, and in an
image with `cols >= 1` and `rows >= 1` every coordinate lies in `[0, cols - 1]`, resp.
`[0, rows - 1]`. -/
theorem forward_candidates (self : SSDDetector) (img : Mat Nat)
    (target_width target_height : Int) :
    List.Forall₂
        (fun (row : List float) (m : Mat float) =>
          m.rows = 4 ∧ m.cols = 2 ∧
          m.data 0 0 = clamp (row.getD 2 0 * (img.cols : float)) 0 ((img.cols : float) - 1) ∧
          m.data 0 1 = clamp (row.getD 3 0 * (img.rows : float)) 0 ((img.rows : float) - 1) ∧
          m.data 1 0 = clamp (row.getD 4 0 * (img.cols : float)) 0 ((img.cols : float) - 1) ∧
          m.data 1 1 = clamp (row.getD 3 0 * (img.rows : float)) 0 ((img.rows : float) - 1) ∧
          m.data 2 0 = clamp (row.getD 4 0 * (img.cols : float)) 0 ((img.cols : float) - 1) ∧
          m.data 2 1 = clamp (row.getD 5 0 * (img.rows : float)) 0 ((img.rows : float) - 1) ∧
          m.data 3 0 = clamp (row.getD 2 0 * (img.cols : float)) 0 ((img.cols : float) - 1) ∧
          m.data 3 1 = clamp (row.getD 5 0 * (img.rows : float)) 0 ((img.rows : float) - 1))
        ((self.net_ img target_width target_height).filter
          fun row => decide (row.getD 0 0 = 1 ∧ row.getD 1 0 > 1e-5))
        (self.forward img target_width target_height) ∧
      (∀ m ∈ self.forward img target_width target_height,
        m.data 0 1 = m.data 1 1 ∧ m.data 1 0 = m.data 2 0 ∧ m.data 2 1 = m.data 3 1 ∧
          m.data 3 0 = m.data 0 0) ∧
      (0 < img.cols → 0 < img.rows →
        ∀ m ∈ self.forward img target_width target_height, ∀ i, i < 4 →
          0 ≤ m.data i 0 ∧ m.data i 0 ≤ (img.cols : float) - 1 ∧
            0 ≤ m.data i 1 ∧ m.data i 1 ≤ (img.rows : float) - 1) := by
  unfold SSDDetector.forward
  simp only
  generalize self.net_ img target_width target_height = prob
  refine ⟨?_, ?_, ?_⟩
  · induction prob with
    | nil => exact List.Forall₂.nil
    | cons row rest ih =>
      by_cases h : row.getD 0 0 = 1 ∧ row.getD 1 0 > 1e-5
      · rw [List.filter_cons_of_pos (by simpa using h), List.filterMap_cons_some (by rw [if_pos h])]
        exact List.Forall₂.cons ⟨rfl, rfl, rfl, rfl, rfl, rfl, rfl, rfl, rfl, rfl⟩ ih
      · rw [List.filter_cons_of_neg (by simpa using h), List.filterMap_cons_none (by rw [if_neg h])]
        exact ih
  · intro m hm
    rw [List.mem_filterMap] at hm
    obtain ⟨row, _, hrow⟩ := hm
    split_ifs at hrow with h
    cases hrow
    exact ⟨rfl, rfl, rfl, rfl⟩
  · intro hc hr m hm i hi
    have hcols : (0 : float) ≤ (img.cols : float) - 1 := by
      have : (1 : float) ≤ (img.cols : float) := by exact_mod_cast hc
      linarith
    have hrows : (0 : float) ≤ (img.rows : float) - 1 := by
      have : (1 : float) ≤ (img.rows : float) := by exact_mod_cast hr
      linarith
    rw [List.mem_filterMap] at hm
    obtain ⟨row, _, hrow⟩ := hm
    split_ifs at hrow with h
    cases hrow
    have bx := fun v => clamp_bounds v 0 ((img.cols : float) - 1) hcols
    have bY := fun v => clamp_bounds v 0 ((img.rows : float) - 1) hrows
    interval_cases i <;> simp only [] <;>
      exact ⟨(bx _).1, (bx _).2, (bY _).1, (bY _).2⟩

/-- Witness of C18: in a 100 x 100 image every coordinate of every quad returned for the
rows of `example_ssd` lies in `[0, 99]`. -/
theorem forward_candidates_witness :
    ∀ m ∈ example_ssd.forward (Mat.blank 100 100) 100 100, ∀ i, i < 4 →
      0 ≤ m.data i 0 ∧ m.data i 0 ≤ (((Mat.blank 100 100).cols : Int) : float) - 1 ∧
        0 ≤ m.data i 1 ∧ m.data i 1 ≤ (((Mat.blank 100 100).rows : Int) : float) - 1 :=
  (forward_candidates example_ssd (Mat.blank 100 100) 100 100).2.2 (by decide) (by decide)

/-! ## The duplicate test of `Impl::decode` -/

/-- The corner loop ends with the flag `true` exactly when the admitted quad is empty and
the flag was `true`, or the admitted quad is not empty and every one of its corners is
within 10 pixels in x and in y of the corner of the same index of the new quad. -/
theorem corner_loop_true_iff (points_qr : List Point2f) :
    ∀ (tmp_points : List Point2f) (j : Nat) (b : Bool),
      WeChatQRCode.Impl.corner_loop points_qr tmp_points j b = true ↔
        (tmp_points = [] ∧ b = true) ∨
          (tmp_points ≠ [] ∧ ∀ k (hk : k < tmp_points.length),
            WeChatQRCode.Impl.corner_near (tmp_points.get ⟨k, hk⟩)
              (points_qr.getD (j + k) ⟨0, 0⟩)) := by
  intro tmp
  induction tmp with
  | nil => intro j b; simp [WeChatQRCode.Impl.corner_loop]
  | cons t rest ih =>
    intro j b
    rw [WeChatQRCode.Impl.corner_loop]
    have hrhs : ((t :: rest = [] ∧ b = true) ∨
        (t :: rest ≠ [] ∧ ∀ k (hk : k < (t :: rest).length),
          WeChatQRCode.Impl.corner_near ((t :: rest).get ⟨k, hk⟩)
            (points_qr.getD (j + k) ⟨0, 0⟩))) ↔
        ∀ k (hk : k < (t :: rest).length),
          WeChatQRCode.Impl.corner_near ((t :: rest).get ⟨k, hk⟩)
            (points_qr.getD (j + k) ⟨0, 0⟩) := by
      constructor
      · rintro (⟨h, _⟩ | ⟨_, h⟩)
        · exact absurd h (List.cons_ne_nil _ _)
        · exact h
      · intro h
        exact Or.inr ⟨List.cons_ne_nil _ _, h⟩
    rw [hrhs]
    by_cases hn : |t.x - (points_qr.getD j ⟨0, 0⟩).x| < 10 ∧
        |t.y - (points_qr.getD j ⟨0, 0⟩).y| < 10
    · simp only [if_pos hn]
      rw [ih]
      constructor
      · intro h k hk
        cases k with
        | zero => exact hn
        | succ k =>
          rcases h with ⟨hr, _⟩ | ⟨_, h⟩
          · subst hr; simp at hk
          · have := h k (by simpa using hk)
            simpa [Nat.add_assoc, Nat.add_comm 1 k] using this
      · intro h
        by_cases hr : rest = []
        · exact Or.inl ⟨hr, rfl⟩
        · refine Or.inr ⟨hr, fun k hk => ?_⟩
          have := h (k + 1) (by simpa using hk)
          simpa [Nat.add_assoc, Nat.add_comm 1 k] using this
    · simp only [if_neg hn]
      constructor
      · intro h; cases h
      · intro h
        exact absurd (h 0 (by simp)) hn

/-- The duplicate flag after the whole list `check_points` is the flag after its last
quad: the quads before the last non-empty one have no influence. -/
theorem isDuplicate_append (pre : List (List Point2f)) (t : Point2f) (rest : List Point2f)
    (post : List (List Point2f)) (points_qr : List Point2f) :
    WeChatQRCode.Impl.isDuplicate (pre ++ (t :: rest) :: post) points_qr =
      WeChatQRCode.Impl.isDuplicate ((t :: rest) :: post) points_qr := by
  unfold WeChatQRCode.Impl.isDuplicate
  rw [List.foldl_append, List.foldl_cons, List.foldl_cons]
  congr 1

/-- The body of the symbol loop in terms of the mapped quad `map_quad`. -/
theorem symbol_step_eq (self : WeChatQRCode.Impl) (aligner : Align) (cur_scale : float)
    (st : DecodeState) (i : Nat) (z : List Point2f) :
    self.symbol_step aligner cur_scale st i z =
      if WeChatQRCode.Impl.isDuplicate st.check_points (self.map_quad aligner cur_scale z)
          = false then
        ⟨st.decode_results, st.points ++ [Mat.of_points (self.map_quad aligner cur_scale z)],
          st.check_points ++ [self.map_quad aligner cur_scale z]⟩
      else ⟨st.decode_results.eraseIdx i, st.points, st.check_points⟩ := by
  unfold WeChatQRCode.Impl.symbol_step WeChatQRCode.Impl.map_quad
  rfl

/-- The scale loop at a scale where the decoder succeeds. -/
theorem scale_loop_cons_some (self : WeChatQRCode.Impl) (lib : Library) (cropped_img : Mat Nat)
    (aligner : Align) (cur_scale : float) (rest : List float)
    (acc : List (List Byte) × List (Mat float)) (symbols : List (List Byte × List Point2f))
    (h : lib.decodeImage (self.super_resolution_model_.processImageScale lib cropped_img
      cur_scale self.use_nn_sr_ lib.sr_max_size) self.use_nn_detector_ = some symbols) :
    self.scale_loop lib cropped_img aligner (cur_scale :: rest) acc =
      ((self.symbol_loop aligner cur_scale ⟨acc.1 ++ symbols.map Prod.fst, acc.2, []⟩ 0
          (symbols.map Prod.snd)).decode_results,
        (self.symbol_loop aligner cur_scale ⟨acc.1 ++ symbols.map Prod.fst, acc.2, []⟩ 0
          (symbols.map Prod.snd)).points) := by
  rw [WeChatQRCode.Impl.scale_loop]
  simp only [h]

/-- The scale loop at a scale where the decoder fails. -/
theorem scale_loop_cons_none (self : WeChatQRCode.Impl) (lib : Library) (cropped_img : Mat Nat)
    (aligner : Align) (cur_scale : float) (rest : List float)
    (acc : List (List Byte) × List (Mat float))
    (h : lib.decodeImage (self.super_resolution_model_.processImageScale lib cropped_img
      cur_scale self.use_nn_sr_ lib.sr_max_size) self.use_nn_detector_ = none) :
    self.scale_loop lib cropped_img aligner (cur_scale :: rest) acc =
      self.scale_loop lib cropped_img aligner rest acc := by
  rw [WeChatQRCode.Impl.scale_loop]
  simp only [h]

/-- The crop of `example_candidate` in a 400 x 400 image: origin `(85, 85)`, 130 columns
and 130 rows. -/
theorem example_candidate_crop :
    (WeChatQRCode.Impl.cropObj (Mat.blank 400 400) example_candidate Align.new).1 =
        ⟨85, 85, false⟩ ∧
      (WeChatQRCode.Impl.cropObj (Mat.blank 400 400) example_candidate Align.new).2.cols = 130 ∧
      (WeChatQRCode.Impl.cropObj (Mat.blank 400 400) example_candidate Align.new).2.rows = 130 := by
  have e1 : float_to_int (100 : float) = 100 := float_to_int_intCast 100
  have e2 : float_to_int (200 : float) = 200 := float_to_int_intCast 200
  have e5 : float_to_int (15 : float) = 15 := float_to_int_intCast 15
  have h : (Align.new.crop_roi (Mat.blank 400 400) example_candidate 0.1 0.1 15) =
      (⟨85, 85, false⟩, ⟨85, 85, 130, 130⟩) := by
    simp only [Align.crop_roi, example_candidate, Mat.of_points, Mat.blank, Align.new,
      List.getD_cons_zero, List.getD_cons_succ]
    norm_num [e1, e2, e5, land_neg_two]
  simp only [WeChatQRCode.Impl.cropObj, Align.crop, h]
  simp [Align.new, Mat.roi_clone]

/-- The candidate step for `example_candidate` in a 400 x 400 image with a decoder that
succeeds on the crop: the symbol loop at scale `1.0` with crop origin `(85, 85)`. -/
theorem example_candidate_step (symbols : List (List Byte × List Point2f))
    (acc : List (List Byte) × List (Mat float)) :
    example_detector.p.candidate_step (example_decoder_library symbols) (Mat.blank 400 400) acc
        example_candidate =
      ((example_detector.p.symbol_loop ⟨85, 85, false⟩ 1.0
          ⟨acc.1 ++ symbols.map Prod.fst, acc.2, []⟩ 0 (symbols.map Prod.snd)).decode_results,
        (example_detector.p.symbol_loop ⟨85, 85, false⟩ 1.0
          ⟨acc.1 ++ symbols.map Prod.fst, acc.2, []⟩ 0 (symbols.map Prod.snd)).points) := by
  obtain ⟨ha, hc, hr⟩ := example_candidate_crop
  have hnn : example_detector.p.use_nn_detector_ = true := rfl
  unfold WeChatQRCode.Impl.candidate_step
  simp only [hnn, if_true, ha, hc, hr]
  have hs : WeChatQRCode.Impl.getScaleList 130 130 = [1.0, 2.0, 0.5] := rfl
  rw [hs]
  apply scale_loop_cons_some
  simp only [SuperScale.processImageScale, if_true, example_decoder_library, hc]

/-- C14 (amended): a pair of 4-corner quads is judged duplicate if and only if each of
the 4 corners of the admitted quad is within less than 10 pixels, in x and in y, of the
corner of the same index of the new quad, whatever the flag held before. -/
theorem pairwise_duplicate_all_corners (t0 t1 t2 t3 p0 p1 p2 p3 : Point2f) (b : Bool) :
    (WeChatQRCode.Impl.corner_loop [p0, p1, p2, p3] [t0, t1, t2, t3] 0 b = true ↔
        (|t0.x - p0.x| < 10 ∧ |t0.y - p0.y| < 10) ∧ (|t1.x - p1.x| < 10 ∧ |t1.y - p1.y| < 10) ∧
          (|t2.x - p2.x| < 10 ∧ |t2.y - p2.y| < 10) ∧
          (|t3.x - p3.x| < 10 ∧ |t3.y - p3.y| < 10)) ∧
      (WeChatQRCode.Impl.isDuplicate [[t0, t1, t2, t3]] [p0, p1, p2, p3] = true ↔
        (|t0.x - p0.x| < 10 ∧ |t0.y - p0.y| < 10) ∧ (|t1.x - p1.x| < 10 ∧ |t1.y - p1.y| < 10) ∧
          (|t2.x - p2.x| < 10 ∧ |t2.y - p2.y| < 10) ∧
          (|t3.x - p3.x| < 10 ∧ |t3.y - p3.y| < 10)) := by
  have key : ∀ b, (WeChatQRCode.Impl.corner_loop [p0, p1, p2, p3] [t0, t1, t2, t3] 0 b = true ↔
        (|t0.x - p0.x| < 10 ∧ |t0.y - p0.y| < 10) ∧ (|t1.x - p1.x| < 10 ∧ |t1.y - p1.y| < 10) ∧
          (|t2.x - p2.x| < 10 ∧ |t2.y - p2.y| < 10) ∧
          (|t3.x - p3.x| < 10 ∧ |t3.y - p3.y| < 10)) := by
    intro b
    rw [corner_loop_true_iff]
    constructor
    · rintro (⟨h, _⟩ | ⟨_, h⟩)
      · cases h
      · exact ⟨h 0 (by simp), h 1 (by simp), h 2 (by simp), h 3 (by simp)⟩
    · rintro ⟨h0, h1, h2, h3⟩
      refine Or.inr ⟨by simp, fun k hk => ?_⟩
      have hk4 : k < 4 := hk
      interval_cases k
      · exact h0
      · exact h1
      · exact h2
      · exact h3
  exact ⟨key b, key false⟩

/-- Counterexample to C14 as stated: the quads `(0,0),(100,0),(100,100),(0,100)` and
`(0,0),(50,0),(50,50),(0,50)` have the same first corner and are judged not duplicate. -/
theorem first_corner_match_not_duplicate :
    (|(0 : float) - 0| < 10 ∧ |(0 : float) - 0| < 10) ∧
      WeChatQRCode.Impl.isDuplicate [[⟨0, 0⟩, ⟨100, 0⟩, ⟨100, 100⟩, ⟨0, 100⟩]]
        [⟨0, 0⟩, ⟨50, 0⟩, ⟨50, 50⟩, ⟨0, 50⟩] = false := by
  refine ⟨by norm_num, ?_⟩
  rw [Bool.eq_false_iff]
  intro h
  have hk := (corner_loop_true_iff [⟨0, 0⟩, ⟨50, 0⟩, ⟨50, 50⟩, ⟨0, 50⟩]
    [⟨0, 0⟩, ⟨100, 0⟩, ⟨100, 100⟩, ⟨0, 100⟩] 0 false).mp h
  rcases hk with ⟨h1, _⟩ | ⟨_, h2⟩
  · cases h1
  · have := (h2 1 (by simp)).1
    norm_num [WeChatQRCode.Impl.corner_near, abs_lt] at this

/-- The duplicate test on two quads whose first corners differ by more than 10 pixels in x
or in y: the corner loop of the second against the first ends with the flag `false`
whatever it held before; the flag after a list `check_points` in which the first quad
occurs is the flag after the quads that follow it, and `false` when it is the last; and
when a decode attempt yields just two such symbols, the symbol loop appends both quads and
erases no text. -/
theorem far_first_corner_both_retained (c1 c2 : Point2f) (r1 r2 : List Point2f)
    (h : 10 < |c1.x - c2.x| ∨ 10 < |c1.y - c2.y|) :
    (∀ b, WeChatQRCode.Impl.corner_loop (c2 :: r2) (c1 :: r1) 0 b = false) ∧
      (∀ pre post, WeChatQRCode.Impl.isDuplicate (pre ++ (c1 :: r1) :: post) (c2 :: r2) =
        WeChatQRCode.Impl.isDuplicate post (c2 :: r2)) ∧
      (∀ pre, WeChatQRCode.Impl.isDuplicate (pre ++ [c1 :: r1]) (c2 :: r2) = false) ∧
      (∀ (self : WeChatQRCode.Impl) (aligner : Align) (cur_scale : float)
          (z1 z2 : List Point2f) (texts : List (List Byte)) (pts : List (Mat float)),
        self.map_quad aligner cur_scale z1 = c1 :: r1 →
        self.map_quad aligner cur_scale z2 = c2 :: r2 →
        self.symbol_loop aligner cur_scale ⟨texts, pts, []⟩ 0 [z1, z2] =
          ⟨texts, pts ++ [Mat.of_points (c1 :: r1)] ++ [Mat.of_points (c2 :: r2)],
            [c1 :: r1, c2 :: r2]⟩) := by
  have hnot : ¬ (|c1.x - ((c2 :: r2).getD 0 ⟨0, 0⟩).x| < 10 ∧
      |c1.y - ((c2 :: r2).getD 0 ⟨0, 0⟩).y| < 10) := by
    simp only [List.getD_cons_zero]
    rintro ⟨hx, hy⟩
    rcases h with h | h <;> linarith
  have hloop : ∀ b, WeChatQRCode.Impl.corner_loop (c2 :: r2) (c1 :: r1) 0 b = false := by
    intro b
    rw [WeChatQRCode.Impl.corner_loop]
    simp only [if_neg hnot]
  have hmid : ∀ pre post,
      WeChatQRCode.Impl.isDuplicate (pre ++ (c1 :: r1) :: post) (c2 :: r2) =
        WeChatQRCode.Impl.isDuplicate post (c2 :: r2) := by
    intro pre post
    unfold WeChatQRCode.Impl.isDuplicate
    rw [List.foldl_append, List.foldl_cons, hloop]
  refine ⟨hloop, hmid, fun pre => ?_, ?_⟩
  · rw [hmid]; rfl
  · intro self aligner cur_scale z1 z2 texts pts h1 h2
    have hd1 : WeChatQRCode.Impl.isDuplicate [] (c1 :: r1) = false := rfl
    have hd2 : WeChatQRCode.Impl.isDuplicate ([] ++ [c1 :: r1]) (c2 :: r2) = false := by
      rw [hmid]; rfl
    rw [WeChatQRCode.Impl.symbol_loop, symbol_step_eq, h1]
    simp only [hd1, if_true]
    rw [WeChatQRCode.Impl.symbol_loop, symbol_step_eq, h2]
    simp only [hd2, if_true]
    rw [WeChatQRCode.Impl.symbol_loop]
    rfl

/-- The symbol loop on two symbols decoded at scale 1 with crop origin `(85, 85)`, whose
first corners `(95, 95)` and `(165, 165)` differ by 70 pixels: both are appended. -/
theorem far_first_corner_both_retained_witness :
    example_detector.p.symbol_loop ⟨85, 85, false⟩ 1 ⟨[[65], [66]], [], []⟩ 0
        [[⟨10, 10⟩, ⟨40, 10⟩, ⟨40, 40⟩, ⟨10, 40⟩], [⟨80, 80⟩, ⟨110, 80⟩, ⟨110, 110⟩, ⟨80, 110⟩]] =
      ⟨[[65], [66]],
        [] ++ [Mat.of_points [⟨95, 95⟩, ⟨125, 95⟩, ⟨125, 125⟩, ⟨95, 125⟩]] ++
          [Mat.of_points [⟨165, 165⟩, ⟨195, 165⟩, ⟨195, 195⟩, ⟨165, 195⟩]],
        [[⟨95, 95⟩, ⟨125, 95⟩, ⟨125, 125⟩, ⟨95, 125⟩],
          [⟨165, 165⟩, ⟨195, 165⟩, ⟨195, 195⟩, ⟨165, 195⟩]]⟩ :=
  (far_first_corner_both_retained ⟨95, 95⟩ ⟨165, 165⟩ [⟨125, 95⟩, ⟨125, 125⟩, ⟨95, 125⟩]
    [⟨195, 165⟩, ⟨195, 195⟩, ⟨165, 195⟩] (Or.inl (by norm_num [abs_lt]))).2.2.2
    example_detector.p ⟨85, 85, false⟩ 1 _ _ [[65], [66]] []
    (by norm_num [WeChatQRCode.Impl.map_quad, example_detector, WeChatQRCode.new, Align.warpBack])
    (by norm_num [WeChatQRCode.Impl.map_quad, example_detector, WeChatQRCode.new, Align.warpBack])

/-- Evaluation of `Impl::decode` for C13: one candidate whose decode returns three
symbols, the third at the same place as the first and the second 70 pixels away. The
pairwise test of the third against the first succeeds, the flag is overwritten by the test
against the second, and the third symbol is admitted: three texts and three quads are
returned, the first and the third quad being equal. -/
theorem duplicate_admitted_after_distinct_quad :
    WeChatQRCode.Impl.isDuplicate [[⟨95, 95⟩, ⟨125, 95⟩, ⟨125, 125⟩, ⟨95, 125⟩]]
        [⟨95, 95⟩, ⟨125, 95⟩, ⟨125, 125⟩, ⟨95, 125⟩] = true ∧
      WeChatQRCode.Impl.isDuplicate
        [[⟨95, 95⟩, ⟨125, 95⟩, ⟨125, 125⟩, ⟨95, 125⟩],
          [⟨165, 165⟩, ⟨195, 165⟩, ⟨195, 195⟩, ⟨165, 195⟩]]
        [⟨95, 95⟩, ⟨125, 95⟩, ⟨125, 125⟩, ⟨95, 125⟩] = false ∧
      example_detector.p.decode
          (example_decoder_library
            [([65], [⟨10, 10⟩, ⟨40, 10⟩, ⟨40, 40⟩, ⟨10, 40⟩]),
             ([66], [⟨80, 80⟩, ⟨110, 80⟩, ⟨110, 110⟩, ⟨80, 110⟩]),
             ([65], [⟨10, 10⟩, ⟨40, 10⟩, ⟨40, 40⟩, ⟨10, 40⟩])])
          (Mat.blank 400 400) [example_candidate] [] =
        ([[65], [66], [65]],
          [Mat.of_points [⟨95, 95⟩, ⟨125, 95⟩, ⟨125, 125⟩, ⟨95, 125⟩],
           Mat.of_points [⟨165, 165⟩, ⟨195, 165⟩, ⟨195, 195⟩, ⟨165, 195⟩],
           Mat.of_points [⟨95, 95⟩, ⟨125, 95⟩, ⟨125, 125⟩, ⟨95, 125⟩]]) := by
  have hq1 : example_detector.p.map_quad ⟨85, 85, false⟩ 1.0
      [⟨10, 10⟩, ⟨40, 10⟩, ⟨40, 40⟩, ⟨10, 40⟩] =
      [⟨95, 95⟩, ⟨125, 95⟩, ⟨125, 125⟩, ⟨95, 125⟩] := by
    norm_num [WeChatQRCode.Impl.map_quad, example_detector, WeChatQRCode.new, Align.warpBack]
  have hq2 : example_detector.p.map_quad ⟨85, 85, false⟩ 1.0
      [⟨80, 80⟩, ⟨110, 80⟩, ⟨110, 110⟩, ⟨80, 110⟩] =
      [⟨165, 165⟩, ⟨195, 165⟩, ⟨195, 195⟩, ⟨165, 195⟩] := by
    norm_num [WeChatQRCode.Impl.map_quad, example_detector, WeChatQRCode.new, Align.warpBack]
  have hd1 : WeChatQRCode.Impl.isDuplicate [[⟨95, 95⟩, ⟨125, 95⟩, ⟨125, 125⟩, ⟨95, 125⟩]]
      [⟨95, 95⟩, ⟨125, 95⟩, ⟨125, 125⟩, ⟨95, 125⟩] = true := by
    norm_num [WeChatQRCode.Impl.isDuplicate, WeChatQRCode.Impl.corner_loop]
  have hd2 : WeChatQRCode.Impl.isDuplicate [[⟨95, 95⟩, ⟨125, 95⟩, ⟨125, 125⟩, ⟨95, 125⟩]]
      [⟨165, 165⟩, ⟨195, 165⟩, ⟨195, 195⟩, ⟨165, 195⟩] = false := by
    norm_num [WeChatQRCode.Impl.isDuplicate, WeChatQRCode.Impl.corner_loop, abs_lt]
  have hd3 : WeChatQRCode.Impl.isDuplicate
      [[⟨95, 95⟩, ⟨125, 95⟩, ⟨125, 125⟩, ⟨95, 125⟩],
        [⟨165, 165⟩, ⟨195, 165⟩, ⟨195, 195⟩, ⟨165, 195⟩]]
      [⟨95, 95⟩, ⟨125, 95⟩, ⟨125, 125⟩, ⟨95, 125⟩] = false := by
    norm_num [WeChatQRCode.Impl.isDuplicate, WeChatQRCode.Impl.corner_loop, abs_lt]
  refine ⟨hd1, hd3, ?_⟩
  have hdec : ∀ lib, example_detector.p.decode lib (Mat.blank 400 400) [example_candidate] [] =
      example_detector.p.candidate_step lib (Mat.blank 400 400) ([], []) example_candidate := by
    intro lib; rfl
  rw [hdec, example_candidate_step]
  simp only [List.map_cons, List.map_nil, List.nil_append]
  have hloop : example_detector.p.symbol_loop ⟨85, 85, false⟩ 1.0 ⟨[[65], [66], [65]], [], []⟩ 0
      [[⟨10, 10⟩, ⟨40, 10⟩, ⟨40, 40⟩, ⟨10, 40⟩], [⟨80, 80⟩, ⟨110, 80⟩, ⟨110, 110⟩, ⟨80, 110⟩],
        [⟨10, 10⟩, ⟨40, 10⟩, ⟨40, 40⟩, ⟨10, 40⟩]] =
      ⟨[[65], [66], [65]],
        [Mat.of_points [⟨95, 95⟩, ⟨125, 95⟩, ⟨125, 125⟩, ⟨95, 125⟩],
         Mat.of_points [⟨165, 165⟩, ⟨195, 165⟩, ⟨195, 195⟩, ⟨165, 195⟩],
         Mat.of_points [⟨95, 95⟩, ⟨125, 95⟩, ⟨125, 125⟩, ⟨95, 125⟩]],
        [[⟨95, 95⟩, ⟨125, 95⟩, ⟨125, 125⟩, ⟨95, 125⟩],
         [⟨165, 165⟩, ⟨195, 165⟩, ⟨195, 195⟩, ⟨165, 195⟩],
         [⟨95, 95⟩, ⟨125, 95⟩, ⟨125, 125⟩, ⟨95, 125⟩]]⟩ := by
    have hd0 : ∀ q, WeChatQRCode.Impl.isDuplicate [] q = false := fun _ => rfl
    rw [WeChatQRCode.Impl.symbol_loop, symbol_step_eq, hq1]
    simp only [hd0, if_true, List.nil_append]
    rw [WeChatQRCode.Impl.symbol_loop, symbol_step_eq, hq2]
    simp only [hd2, if_true, List.cons_append, List.nil_append]
    rw [WeChatQRCode.Impl.symbol_loop, symbol_step_eq, hq1]
    simp only [hd3, if_true, List.cons_append, List.nil_append]
    rw [WeChatQRCode.Impl.symbol_loop]
  rw [hloop]

/-! ## Claims on the scale loop and on the coordinates -/

/-- The trace of the scale loop at a scale where the decoder succeeds. -/
theorem scale_loop_tried_cons_some (self : WeChatQRCode.Impl) (lib : Library)
    (cropped_img : Mat Nat) (cur_scale : float) (rest : List float)
    (symbols : List (List Byte × List Point2f))
    (h : lib.decodeImage (self.super_resolution_model_.processImageScale lib cropped_img
      cur_scale self.use_nn_sr_ lib.sr_max_size) self.use_nn_detector_ = some symbols) :
    self.scale_loop_tried lib cropped_img (cur_scale :: rest) = [cur_scale] := by
  rw [WeChatQRCode.Impl.scale_loop_tried]
  simp only [h]

/-- The trace of the scale loop at a scale where the decoder fails. -/
theorem scale_loop_tried_cons_none (self : WeChatQRCode.Impl) (lib : Library)
    (cropped_img : Mat Nat) (cur_scale : float) (rest : List float)
    (h : lib.decodeImage (self.super_resolution_model_.processImageScale lib cropped_img
      cur_scale self.use_nn_sr_ lib.sr_max_size) self.use_nn_detector_ = none) :
    self.scale_loop_tried lib cropped_img (cur_scale :: rest) =
      cur_scale :: self.scale_loop_tried lib cropped_img rest := by
  rw [WeChatQRCode.Impl.scale_loop_tried]
  simp only [h]

/-- C15: with the decoder an arbitrary function, the loop over the scales invokes it on a
prefix of the scale list, in list order: every scale tried but the last has failed; when
the decoder fails at every scale the whole list is tried and nothing is added to the
result; when it first succeeds at a scale `s` the scales tried are those up to and
including `s` and the result is that of the symbol loop at `s`, whatever the duplicate
test decides, no later scale contributing. The list is `getScaleList` of the crop width
and height. -/
theorem scales_tried_up_to_first_success (self : WeChatQRCode.Impl) (lib : Library)
    (cropped_img : Mat Nat) (aligner : Align) (scale_list : List float)
    (acc : List (List Byte) × List (Mat float)) :
    self.scale_loop_tried lib cropped_img scale_list <+: scale_list ∧
      (∀ s ∈ (self.scale_loop_tried lib cropped_img scale_list).dropLast,
        lib.decodeImage (self.super_resolution_model_.processImageScale lib cropped_img s
          self.use_nn_sr_ lib.sr_max_size) self.use_nn_detector_ = none) ∧
      ((∀ s ∈ scale_list,
          lib.decodeImage (self.super_resolution_model_.processImageScale lib cropped_img s
            self.use_nn_sr_ lib.sr_max_size) self.use_nn_detector_ = none) →
        self.scale_loop_tried lib cropped_img scale_list = scale_list ∧
          self.scale_loop lib cropped_img aligner scale_list acc = acc) ∧
      (∀ (pre : List float) (s : float) (post : List float)
          (symbols : List (List Byte × List Point2f)),
        scale_list = pre ++ s :: post →
        (∀ r ∈ pre,
          lib.decodeImage (self.super_resolution_model_.processImageScale lib cropped_img r
            self.use_nn_sr_ lib.sr_max_size) self.use_nn_detector_ = none) →
        lib.decodeImage (self.super_resolution_model_.processImageScale lib cropped_img s
            self.use_nn_sr_ lib.sr_max_size) self.use_nn_detector_ = some symbols →
        self.scale_loop_tried lib cropped_img scale_list = pre ++ [s] ∧
          self.scale_loop lib cropped_img aligner scale_list acc =
            ((self.symbol_loop aligner s ⟨acc.1 ++ symbols.map Prod.fst, acc.2, []⟩ 0
                (symbols.map Prod.snd)).decode_results,
              (self.symbol_loop aligner s ⟨acc.1 ++ symbols.map Prod.fst, acc.2, []⟩ 0
                (symbols.map Prod.snd)).points)) ∧
      (∀ (img : Mat Nat) (point : Mat float),
        self.candidate_step lib img acc point =
          self.scale_loop lib
            (if self.use_nn_detector_ then WeChatQRCode.Impl.cropObj img point Align.new
              else (Align.new, img)).2
            (if self.use_nn_detector_ then WeChatQRCode.Impl.cropObj img point Align.new
              else (Align.new, img)).1
            (WeChatQRCode.Impl.getScaleList
              (if self.use_nn_detector_ then WeChatQRCode.Impl.cropObj img point Align.new
                else (Align.new, img)).2.cols
              (if self.use_nn_detector_ then WeChatQRCode.Impl.cropObj img point Align.new
                else (Align.new, img)).2.rows)
            acc) := by
  refine ⟨?_, ?_, ?_, ?_, fun img point => rfl⟩
  · induction scale_list with
    | nil => exact List.prefix_refl _
    | cons s rest ih =>
      rw [WeChatQRCode.Impl.scale_loop_tried]
      split
      · exact ⟨rest, rfl⟩
      · exact (List.prefix_cons_inj s).mpr ih
  · induction scale_list with
    | nil => intro s hs; simp [WeChatQRCode.Impl.scale_loop_tried] at hs
    | cons s rest ih =>
      rw [WeChatQRCode.Impl.scale_loop_tried]
      split
      · intro r hr; simp at hr
      · rename_i hnone
        intro r hr
        cases hrest : self.scale_loop_tried lib cropped_img rest with
        | nil => rw [hrest] at hr; simp at hr
        | cons a l =>
          rw [hrest, List.dropLast_cons₂, List.mem_cons] at hr
          rcases hr with rfl | hr
          · exact hnone
          · exact ih r (by rw [hrest]; exact hr)
  · induction scale_list with
    | nil => intro _; exact ⟨rfl, rfl⟩
    | cons s rest ih =>
      intro hall
      have hs := hall s (List.mem_cons_self _ _)
      have hrest := ih (fun r hr => hall r (List.mem_cons_of_mem _ hr))
      rw [scale_loop_tried_cons_none _ _ _ _ _ hs, scale_loop_cons_none _ _ _ _ _ _ _ hs]
      exact ⟨by rw [hrest.1], hrest.2⟩
  · intro pre
    induction pre generalizing scale_list with
    | nil =>
      intro s post symbols hl _ hs
      subst hl
      rw [List.nil_append, scale_loop_tried_cons_some _ _ _ _ _ _ hs,
        scale_loop_cons_some _ _ _ _ _ _ _ _ hs]
      exact ⟨rfl, rfl⟩
    | cons r pre ih =>
      intro s post symbols hl hpre hs
      subst hl
      have hr := hpre r (List.mem_cons_self _ _)
      have hrest := ih (pre ++ s :: post) s post symbols rfl
        (fun q hq => hpre q (List.mem_cons_of_mem _ hq)) hs
      rw [List.cons_append, scale_loop_tried_cons_none _ _ _ _ _ hr,
        scale_loop_cons_none _ _ _ _ _ _ _ hr]
      exact ⟨by rw [hrest.1]; rfl, hrest.2⟩

/-- Witness of C15: with the decoder of `example_library`, which always fails, the three
scales of a 130 x 130 crop are all tried and the result is unchanged; with a decoder that
succeeds on that crop, only the first scale `1.0` is tried. -/
theorem scales_tried_up_to_first_success_witness :
    (example_detector.p.scale_loop_tried example_library (Mat.blank 130 130) [1.0, 2.0, 0.5] =
        [1.0, 2.0, 0.5] ∧
      example_detector.p.scale_loop example_library (Mat.blank 130 130) Align.new
        [1.0, 2.0, 0.5] ([], []) = ([], [])) ∧
      example_detector.p.scale_loop_tried (example_decoder_library [([65], [])])
        (Mat.blank 130 130) [1.0, 2.0, 0.5] = [] ++ [1.0] :=
  ⟨(scales_tried_up_to_first_success example_detector.p example_library (Mat.blank 130 130)
      Align.new [1.0, 2.0, 0.5] ([], [])).2.2.1 (fun _ _ => rfl),
   ((scales_tried_up_to_first_success example_detector.p (example_decoder_library [([65], [])])
      (Mat.blank 130 130) Align.new [1.0, 2.0, 0.5] ([], [])).2.2.2.1 [] 1.0 [2.0, 0.5]
      [([65], [])] rfl (fun _ h => absurd h (List.not_mem_nil _))
      (by simp [SuperScale.processImageScale, example_decoder_library, Mat.blank])).1⟩

/-- C16: for a symbol decoded at scale `s` from a candidate with crop origin `(cx, cy)`
and no transpose, the quad tested and reported is the list of the decoder's corners
`(x, y)`, in the decoder's order, each mapped to `(x / s + cx, y / s + cy)`: the matrix
appended to the result when the symbol is admitted has one row per corner, row `j` holding
`x_j / s + cx` and `y_j / s + cy`; in particular a candidate whose decode at its first scale
`s` returns a single symbol contributes that symbol's text and this matrix. -/
theorem decoded_corners_unscaled_then_offset (self : WeChatQRCode.Impl) (cx cy : Int)
    (s : float) (z : List Point2f) (hnn : self.use_nn_detector_ = true) :
    self.map_quad ⟨cx, cy, false⟩ s z =
        z.map (fun p => ⟨p.x / s + (cx : float), p.y / s + (cy : float)⟩) ∧
      (∀ (st : DecodeState) (i : Nat),
        WeChatQRCode.Impl.isDuplicate st.check_points
            (z.map fun p => ⟨p.x / s + (cx : float), p.y / s + (cy : float)⟩) = false →
          self.symbol_step ⟨cx, cy, false⟩ s st i z =
            ⟨st.decode_results,
              st.points ++
                [Mat.of_points (z.map fun p => ⟨p.x / s + (cx : float), p.y / s + (cy : float)⟩)],
              st.check_points ++
                [z.map fun p => ⟨p.x / s + (cx : float), p.y / s + (cy : float)⟩]⟩) ∧
      (∀ j (hj : j < z.length),
        (Mat.of_points (z.map fun p => ⟨p.x / s + (cx : float), p.y / s + (cy : float)⟩)).data
            j 0 = (z.get ⟨j, hj⟩).x / s + (cx : float) ∧
          (Mat.of_points (z.map fun p => ⟨p.x / s + (cx : float), p.y / s + (cy : float)⟩)).data
            j 1 = (z.get ⟨j, hj⟩).y / s + (cy : float)) ∧
      (∀ (lib : Library) (img : Mat Nat) (point : Mat float)
          (acc : List (List Byte) × List (Mat float)) (rest : List float) (text : List Byte),
        (WeChatQRCode.Impl.cropObj img point Align.new).1 = ⟨cx, cy, false⟩ →
        WeChatQRCode.Impl.getScaleList (WeChatQRCode.Impl.cropObj img point Align.new).2.cols
          (WeChatQRCode.Impl.cropObj img point Align.new).2.rows = s :: rest →
        lib.decodeImage (self.super_resolution_model_.processImageScale lib
          (WeChatQRCode.Impl.cropObj img point Align.new).2 s self.use_nn_sr_ lib.sr_max_size)
          self.use_nn_detector_ = some [(text, z)] →
        self.candidate_step lib img acc point =
          (acc.1 ++ [text],
            acc.2 ++
              [Mat.of_points
                (z.map fun p => ⟨p.x / s + (cx : float), p.y / s + (cy : float)⟩)])) := by
  have hmap : self.map_quad ⟨cx, cy, false⟩ s z =
      z.map (fun p => ⟨p.x / s + (cx : float), p.y / s + (cy : float)⟩) := by
    simp only [WeChatQRCode.Impl.map_quad, hnn, if_true, Align.warpBack, List.map_map]
    apply List.map_congr_left
    intro p _
    simp
  have hstep : ∀ (st : DecodeState) (i : Nat),
      WeChatQRCode.Impl.isDuplicate st.check_points
          (z.map fun p => ⟨p.x / s + (cx : float), p.y / s + (cy : float)⟩) = false →
        self.symbol_step ⟨cx, cy, false⟩ s st i z =
          ⟨st.decode_results,
            st.points ++
              [Mat.of_points (z.map fun p => ⟨p.x / s + (cx : float), p.y / s + (cy : float)⟩)],
            st.check_points ++
              [z.map fun p => ⟨p.x / s + (cx : float), p.y / s + (cy : float)⟩]⟩ := by
    intro st i hd
    rw [symbol_step_eq, hmap, if_pos hd]
  refine ⟨hmap, hstep, ?_, ?_⟩
  · intro j hj
    have hj2 : j < (z.map fun p : Point2f =>
        (⟨p.x / s + (cx : float), p.y / s + (cy : float)⟩ : Point2f)).length := by
      simpa using hj
    simp [Mat.of_points, List.getD_eq_getElem?_getD, List.getElem?_eq_getElem hj]
  · intro lib img point acc rest text ha hs hdec
    unfold WeChatQRCode.Impl.candidate_step
    simp only [hnn, if_true, hs, ha]
    rw [scale_loop_cons_some _ _ _ _ _ _ _ _ hdec]
    simp only [List.map_cons, List.map_nil]
    rw [WeChatQRCode.Impl.symbol_loop, hstep ⟨acc.1 ++ [text], acc.2, []⟩ 0 rfl,
      WeChatQRCode.Impl.symbol_loop]

/-- Witness of C16: `example_candidate` in a 400 x 400 image has crop origin `(85, 85)`
and first scale `1.0`; a single decoded symbol with local corners `(10, 10)`, `(40, 10)`,
`(40, 40)`, `(10, 40)` contributes its text and the matrix of the corners
`(x / 1.0 + 85, y / 1.0 + 85)`. -/
theorem decoded_corners_unscaled_then_offset_witness :
    example_detector.p.candidate_step
        (example_decoder_library [([65], [⟨10, 10⟩, ⟨40, 10⟩, ⟨40, 40⟩, ⟨10, 40⟩])])
        (Mat.blank 400 400) ([], []) example_candidate =
      (([] : List (List Byte)) ++ [[65]],
        ([] : List (Mat float)) ++
          [Mat.of_points (([⟨10, 10⟩, ⟨40, 10⟩, ⟨40, 40⟩, ⟨10, 40⟩] : List Point2f).map
            fun p => ⟨p.x / 1.0 + ((85 : Int) : float), p.y / 1.0 + ((85 : Int) : float)⟩)]) :=
  (decoded_corners_unscaled_then_offset example_detector.p 85 85 1.0
      [⟨10, 10⟩, ⟨40, 10⟩, ⟨40, 40⟩, ⟨10, 40⟩] rfl).2.2.2
    (example_decoder_library [([65], [⟨10, 10⟩, ⟨40, 10⟩, ⟨40, 40⟩, ⟨10, 40⟩])])
    (Mat.blank 400 400) example_candidate ([], []) [2.0, 0.5] [65]
    example_candidate_crop.1
    (by rw [example_candidate_crop.2.1, example_candidate_crop.2.2]; rfl)
    (by simp [SuperScale.processImageScale, example_decoder_library,
      example_candidate_crop.2.1])

/-- The crop of `example_candidate2` in a 400 x 400 image: origin `(205, 205)`, 170 columns
and 170 rows. -/
theorem example_candidate2_crop :
    (WeChatQRCode.Impl.cropObj (Mat.blank 400 400) example_candidate2 Align.new).1 =
        ⟨205, 205, false⟩ ∧
      (WeChatQRCode.Impl.cropObj (Mat.blank 400 400) example_candidate2 Align.new).2.cols = 170 ∧
      (WeChatQRCode.Impl.cropObj (Mat.blank 400 400) example_candidate2 Align.new).2.rows = 170 := by
  have e1 : float_to_int (220 : float) = 220 := float_to_int_intCast 220
  have e2 : float_to_int (360 : float) = 360 := float_to_int_intCast 360
  have e5 : float_to_int (15 : float) = 15 := float_to_int_intCast 15
  have h : (Align.new.crop_roi (Mat.blank 400 400) example_candidate2 0.1 0.1 15) =
      (⟨205, 205, false⟩, ⟨205, 205, 170, 170⟩) := by
    simp only [Align.crop_roi, example_candidate2, Mat.of_points, Mat.blank, Align.new,
      List.getD_cons_zero, List.getD_cons_succ]
    norm_num [e1, e2, e5, land_neg_two]
  simp only [WeChatQRCode.Impl.cropObj, Align.crop, h]
  simp [Align.new, Mat.roi_clone]

/-- The candidate step when the detector is in use, the first scale is `1.0` and the
decoder succeeds on the crop. -/
theorem candidate_step_first_scale (self : WeChatQRCode.Impl) (lib : Library) (img : Mat Nat)
    (acc : List (List Byte) × List (Mat float)) (point : Mat float) (rest : List float)
    (symbols : List (List Byte × List Point2f)) (hnn : self.use_nn_detector_ = true)
    (hs : WeChatQRCode.Impl.getScaleList (WeChatQRCode.Impl.cropObj img point Align.new).2.cols
      (WeChatQRCode.Impl.cropObj img point Align.new).2.rows = 1.0 :: rest)
    (hdec : lib.decodeImage (WeChatQRCode.Impl.cropObj img point Align.new).2 true =
      some symbols) :
    self.candidate_step lib img acc point =
      ((self.symbol_loop (WeChatQRCode.Impl.cropObj img point Align.new).1 1.0
          ⟨acc.1 ++ symbols.map Prod.fst, acc.2, []⟩ 0 (symbols.map Prod.snd)).decode_results,
        (self.symbol_loop (WeChatQRCode.Impl.cropObj img point Align.new).1 1.0
          ⟨acc.1 ++ symbols.map Prod.fst, acc.2, []⟩ 0 (symbols.map Prod.snd)).points) := by
  unfold WeChatQRCode.Impl.candidate_step
  simp only [hnn, if_true, hs]
  apply scale_loop_cons_some
  simp only [SuperScale.processImageScale, if_true, hnn, hdec]

/-- The decode of the two example candidates in a 400 x 400 image with a decoder that
returns `s1` on the first crop and `s2` on the second: two symbol loops at scale `1.0`,
with crop origins `(85, 85)` and `(205, 205)`. -/
theorem example_two_candidates_decode (s1 s2 : List (List Byte × List Point2f)) :
    example_detector.p.decode (example_decoder_library2 s1 s2) (Mat.blank 400 400)
        [example_candidate, example_candidate2] [] =
      ((example_detector.p.symbol_loop ⟨205, 205, false⟩ 1.0
          ⟨(example_detector.p.symbol_loop ⟨85, 85, false⟩ 1.0 ⟨[] ++ s1.map Prod.fst, [], []⟩ 0
              (s1.map Prod.snd)).decode_results ++ s2.map Prod.fst,
            (example_detector.p.symbol_loop ⟨85, 85, false⟩ 1.0 ⟨[] ++ s1.map Prod.fst, [], []⟩ 0
              (s1.map Prod.snd)).points, []⟩ 0 (s2.map Prod.snd)).decode_results,
        (example_detector.p.symbol_loop ⟨205, 205, false⟩ 1.0
          ⟨(example_detector.p.symbol_loop ⟨85, 85, false⟩ 1.0 ⟨[] ++ s1.map Prod.fst, [], []⟩ 0
              (s1.map Prod.snd)).decode_results ++ s2.map Prod.fst,
            (example_detector.p.symbol_loop ⟨85, 85, false⟩ 1.0 ⟨[] ++ s1.map Prod.fst, [], []⟩ 0
              (s1.map Prod.snd)).points, []⟩ 0 (s2.map Prod.snd)).points) := by
  have hnn : example_detector.p.use_nn_detector_ = true := rfl
  have hdec : ∀ lib, example_detector.p.decode lib (Mat.blank 400 400)
      [example_candidate, example_candidate2] [] =
      example_detector.p.candidate_step lib (Mat.blank 400 400)
        (example_detector.p.candidate_step lib (Mat.blank 400 400) ([], []) example_candidate)
        example_candidate2 := by
    intro lib; rfl
  obtain ⟨ha1, hc1, hr1⟩ := example_candidate_crop
  obtain ⟨ha2, hc2, hr2⟩ := example_candidate2_crop
  rw [hdec]
  rw [candidate_step_first_scale example_detector.p _ (Mat.blank 400 400) ([], [])
    example_candidate [2.0, 0.5] s1 hnn (by rw [hc1, hr1]; rfl)
    (by simp only [example_decoder_library2, hc1, if_true])]
  rw [candidate_step_first_scale example_detector.p _ (Mat.blank 400 400) _
    example_candidate2 [2.0, 0.5] s2 hnn (by rw [hc2, hr2]; rfl)
    (by simp [example_decoder_library2, hc2])]
  rw [ha1, ha2]

/-! ## Pairing of texts and quads -/

/-- Evaluation of `Impl::decode` for C19: in a 400 x 400 image the first candidate decodes
two distinct symbols with texts `A` and `B`, the second candidate decodes the same symbol
twice, with text `C`. The second `C` is rejected as a duplicate and the erase at the
symbol index 1 removes the text `B` of the first candidate: the texts returned are
`A, C, C` while the quads returned are those of `A`, `B` and `C`. -/
theorem duplicate_erases_other_text :
    example_detector.p.decode
        (example_decoder_library2
          [([65], [⟨10, 10⟩, ⟨40, 10⟩, ⟨40, 40⟩, ⟨10, 40⟩]),
           ([66], [⟨80, 80⟩, ⟨110, 80⟩, ⟨110, 110⟩, ⟨80, 110⟩])]
          [([67], [⟨20, 20⟩, ⟨150, 20⟩, ⟨150, 150⟩, ⟨20, 150⟩]),
           ([67], [⟨20, 20⟩, ⟨150, 20⟩, ⟨150, 150⟩, ⟨20, 150⟩])])
        (Mat.blank 400 400) [example_candidate, example_candidate2] [] =
      ([[65], [67], [67]],
        [Mat.of_points [⟨95, 95⟩, ⟨125, 95⟩, ⟨125, 125⟩, ⟨95, 125⟩],
         Mat.of_points [⟨165, 165⟩, ⟨195, 165⟩, ⟨195, 195⟩, ⟨165, 195⟩],
         Mat.of_points [⟨225, 225⟩, ⟨355, 225⟩, ⟨355, 355⟩, ⟨225, 355⟩]]) := by
  have hq1 : example_detector.p.map_quad ⟨85, 85, false⟩ 1.0
      [⟨10, 10⟩, ⟨40, 10⟩, ⟨40, 40⟩, ⟨10, 40⟩] =
      [⟨95, 95⟩, ⟨125, 95⟩, ⟨125, 125⟩, ⟨95, 125⟩] := by
    norm_num [WeChatQRCode.Impl.map_quad, example_detector, WeChatQRCode.new, Align.warpBack]
  have hq2 : example_detector.p.map_quad ⟨85, 85, false⟩ 1.0
      [⟨80, 80⟩, ⟨110, 80⟩, ⟨110, 110⟩, ⟨80, 110⟩] =
      [⟨165, 165⟩, ⟨195, 165⟩, ⟨195, 195⟩, ⟨165, 195⟩] := by
    norm_num [WeChatQRCode.Impl.map_quad, example_detector, WeChatQRCode.new, Align.warpBack]
  have hq3 : example_detector.p.map_quad ⟨205, 205, false⟩ 1.0
      [⟨20, 20⟩, ⟨150, 20⟩, ⟨150, 150⟩, ⟨20, 150⟩] =
      [⟨225, 225⟩, ⟨355, 225⟩, ⟨355, 355⟩, ⟨225, 355⟩] := by
    norm_num [WeChatQRCode.Impl.map_quad, example_detector, WeChatQRCode.new, Align.warpBack]
  have hd0 : ∀ q, WeChatQRCode.Impl.isDuplicate [] q = false := fun _ => rfl
  have hd2 : WeChatQRCode.Impl.isDuplicate [[⟨95, 95⟩, ⟨125, 95⟩, ⟨125, 125⟩, ⟨95, 125⟩]]
      [⟨165, 165⟩, ⟨195, 165⟩, ⟨195, 195⟩, ⟨165, 195⟩] = false := by
    norm_num [WeChatQRCode.Impl.isDuplicate, WeChatQRCode.Impl.corner_loop, abs_lt]
  have hd3 : WeChatQRCode.Impl.isDuplicate [[⟨225, 225⟩, ⟨355, 225⟩, ⟨355, 355⟩, ⟨225, 355⟩]]
      [⟨225, 225⟩, ⟨355, 225⟩, ⟨355, 355⟩, ⟨225, 355⟩] = true := by
    norm_num [WeChatQRCode.Impl.isDuplicate, WeChatQRCode.Impl.corner_loop]
  rw [example_two_candidates_decode]
  simp only [List.map_cons, List.map_nil, List.nil_append]
  have hloop1 : example_detector.p.symbol_loop ⟨85, 85, false⟩ 1.0 ⟨[[65], [66]], [], []⟩ 0
      [[⟨10, 10⟩, ⟨40, 10⟩, ⟨40, 40⟩, ⟨10, 40⟩], [⟨80, 80⟩, ⟨110, 80⟩, ⟨110, 110⟩, ⟨80, 110⟩]] =
      ⟨[[65], [66]],
        [Mat.of_points [⟨95, 95⟩, ⟨125, 95⟩, ⟨125, 125⟩, ⟨95, 125⟩],
         Mat.of_points [⟨165, 165⟩, ⟨195, 165⟩, ⟨195, 195⟩, ⟨165, 195⟩]],
        [[⟨95, 95⟩, ⟨125, 95⟩, ⟨125, 125⟩, ⟨95, 125⟩],
         [⟨165, 165⟩, ⟨195, 165⟩, ⟨195, 195⟩, ⟨165, 195⟩]]⟩ := by
    rw [WeChatQRCode.Impl.symbol_loop, symbol_step_eq, hq1]
    simp only [hd0, if_true, List.nil_append]
    rw [WeChatQRCode.Impl.symbol_loop, symbol_step_eq, hq2]
    simp only [hd2, if_true, List.cons_append, List.nil_append]
    rw [WeChatQRCode.Impl.symbol_loop]
  rw [hloop1]
  simp only [List.cons_append, List.nil_append]
  have hloop2 : ∀ pts : List (Mat float),
      example_detector.p.symbol_loop ⟨205, 205, false⟩ 1.0
        ⟨[[65], [66], [67], [67]], pts, []⟩ 0
        [[⟨20, 20⟩, ⟨150, 20⟩, ⟨150, 150⟩, ⟨20, 150⟩], [⟨20, 20⟩, ⟨150, 20⟩, ⟨150, 150⟩, ⟨20, 150⟩]] =
      ⟨[[65], [67], [67]],
        pts ++ [Mat.of_points [⟨225, 225⟩, ⟨355, 225⟩, ⟨355, 355⟩, ⟨225, 355⟩]],
        [[⟨225, 225⟩, ⟨355, 225⟩, ⟨355, 355⟩, ⟨225, 355⟩]]⟩ := by
    intro pts
    rw [WeChatQRCode.Impl.symbol_loop, symbol_step_eq, hq3]
    simp only [hd0, if_true, List.nil_append]
    rw [WeChatQRCode.Impl.symbol_loop, symbol_step_eq, hq3]
    simp only [hd3, Bool.true_eq_false, if_false]
    rw [WeChatQRCode.Impl.symbol_loop]
    rfl
  rw [hloop2]
  rfl

/-- Evaluation of `Impl::decode` for C12: in a 400 x 400 image the first candidate decodes
two symbols with texts `A` and `B`, whose quads in original-image coordinates have the first
corners `(95, 95)` and `(165, 165)`, 70 pixels apart in x and in y, and the second candidate
decodes the same symbol twice, with text `C`. The duplicate test does not reject `B` on
account of `A` and the quads of `A` and `B` are both returned, but the text `B` is not among
the texts returned, which are `A, C, C`: it is removed by the erase at the symbol index 1
when the second `C` is rejected. -/
theorem far_first_corner_text_erased :
    example_detector.p.map_quad ⟨85, 85, false⟩ 1.0
        [⟨10, 10⟩, ⟨40, 10⟩, ⟨40, 40⟩, ⟨10, 40⟩] = [⟨95, 95⟩, ⟨125, 95⟩, ⟨125, 125⟩, ⟨95, 125⟩] ∧
      example_detector.p.map_quad ⟨85, 85, false⟩ 1.0
        [⟨80, 80⟩, ⟨110, 80⟩, ⟨110, 110⟩, ⟨80, 110⟩] = [⟨165, 165⟩, ⟨195, 165⟩, ⟨195, 195⟩, ⟨165, 195⟩] ∧
      (10 : float) < |(95 : float) - 165| ∧
      WeChatQRCode.Impl.isDuplicate [[⟨95, 95⟩, ⟨125, 95⟩, ⟨125, 125⟩, ⟨95, 125⟩]]
        [⟨165, 165⟩, ⟨195, 165⟩, ⟨195, 195⟩, ⟨165, 195⟩] = false ∧
      example_detector.p.decode
        (example_decoder_library2
          [([65], [⟨10, 10⟩, ⟨40, 10⟩, ⟨40, 40⟩, ⟨10, 40⟩]),
           ([66], [⟨80, 80⟩, ⟨110, 80⟩, ⟨110, 110⟩, ⟨80, 110⟩])]
          [([67], [⟨20, 20⟩, ⟨150, 20⟩, ⟨150, 150⟩, ⟨20, 150⟩]),
           ([67], [⟨20, 20⟩, ⟨150, 20⟩, ⟨150, 150⟩, ⟨20, 150⟩])])
        (Mat.blank 400 400) [example_candidate, example_candidate2] [] =
        ([[65], [67], [67]],
          [Mat.of_points [⟨95, 95⟩, ⟨125, 95⟩, ⟨125, 125⟩, ⟨95, 125⟩],
           Mat.of_points [⟨165, 165⟩, ⟨195, 165⟩, ⟨195, 195⟩, ⟨165, 195⟩],
           Mat.of_points [⟨225, 225⟩, ⟨355, 225⟩, ⟨355, 355⟩, ⟨225, 355⟩]]) ∧
      ([66] : List Byte) ∉ (example_detector.p.decode
        (example_decoder_library2
          [([65], [⟨10, 10⟩, ⟨40, 10⟩, ⟨40, 40⟩, ⟨10, 40⟩]),
           ([66], [⟨80, 80⟩, ⟨110, 80⟩, ⟨110, 110⟩, ⟨80, 110⟩])]
          [([67], [⟨20, 20⟩, ⟨150, 20⟩, ⟨150, 150⟩, ⟨20, 150⟩]),
           ([67], [⟨20, 20⟩, ⟨150, 20⟩, ⟨150, 150⟩, ⟨20, 150⟩])])
        (Mat.blank 400 400) [example_candidate, example_candidate2] []).1 := by
  have hq1 : example_detector.p.map_quad ⟨85, 85, false⟩ 1.0
      [⟨10, 10⟩, ⟨40, 10⟩, ⟨40, 40⟩, ⟨10, 40⟩] =
      [⟨95, 95⟩, ⟨125, 95⟩, ⟨125, 125⟩, ⟨95, 125⟩] := by
    norm_num [WeChatQRCode.Impl.map_quad, example_detector, WeChatQRCode.new, Align.warpBack]
  have hq2 : example_detector.p.map_quad ⟨85, 85, false⟩ 1.0
      [⟨80, 80⟩, ⟨110, 80⟩, ⟨110, 110⟩, ⟨80, 110⟩] =
      [⟨165, 165⟩, ⟨195, 165⟩, ⟨195, 195⟩, ⟨165, 195⟩] := by
    norm_num [WeChatQRCode.Impl.map_quad, example_detector, WeChatQRCode.new, Align.warpBack]
  have hq3 : example_detector.p.map_quad ⟨205, 205, false⟩ 1.0
      [⟨20, 20⟩, ⟨150, 20⟩, ⟨150, 150⟩, ⟨20, 150⟩] =
      [⟨225, 225⟩, ⟨355, 225⟩, ⟨355, 355⟩, ⟨225, 355⟩] := by
    norm_num [WeChatQRCode.Impl.map_quad, example_detector, WeChatQRCode.new, Align.warpBack]
  have hd0 : ∀ q, WeChatQRCode.Impl.isDuplicate [] q = false := fun _ => rfl
  have hd2 : WeChatQRCode.Impl.isDuplicate [[⟨95, 95⟩, ⟨125, 95⟩, ⟨125, 125⟩, ⟨95, 125⟩]]
      [⟨165, 165⟩, ⟨195, 165⟩, ⟨195, 195⟩, ⟨165, 195⟩] = false := by
    norm_num [WeChatQRCode.Impl.isDuplicate, WeChatQRCode.Impl.corner_loop, abs_lt]
  have hd3 : WeChatQRCode.Impl.isDuplicate [[⟨225, 225⟩, ⟨355, 225⟩, ⟨355, 355⟩, ⟨225, 355⟩]]
      [⟨225, 225⟩, ⟨355, 225⟩, ⟨355, 355⟩, ⟨225, 355⟩] = true := by
    norm_num [WeChatQRCode.Impl.isDuplicate, WeChatQRCode.Impl.corner_loop]
  have main : example_detector.p.decode
        (example_decoder_library2
          [([65], [⟨10, 10⟩, ⟨40, 10⟩, ⟨40, 40⟩, ⟨10, 40⟩]),
           ([66], [⟨80, 80⟩, ⟨110, 80⟩, ⟨110, 110⟩, ⟨80, 110⟩])]
          [([67], [⟨20, 20⟩, ⟨150, 20⟩, ⟨150, 150⟩, ⟨20, 150⟩]),
           ([67], [⟨20, 20⟩, ⟨150, 20⟩, ⟨150, 150⟩, ⟨20, 150⟩])])
        (Mat.blank 400 400) [example_candidate, example_candidate2] [] =
      ([[65], [67], [67]],
        [Mat.of_points [⟨95, 95⟩, ⟨125, 95⟩, ⟨125, 125⟩, ⟨95, 125⟩],
         Mat.of_points [⟨165, 165⟩, ⟨195, 165⟩, ⟨195, 195⟩, ⟨165, 195⟩],
         Mat.of_points [⟨225, 225⟩, ⟨355, 225⟩, ⟨355, 355⟩, ⟨225, 355⟩]]) := by
    rw [example_two_candidates_decode]
    simp only [List.map_cons, List.map_nil, List.nil_append]
    have hloop1 : example_detector.p.symbol_loop ⟨85, 85, false⟩ 1.0 ⟨[[65], [66]], [], []⟩ 0
        [[⟨10, 10⟩, ⟨40, 10⟩, ⟨40, 40⟩, ⟨10, 40⟩], [⟨80, 80⟩, ⟨110, 80⟩, ⟨110, 110⟩, ⟨80, 110⟩]] =
        ⟨[[65], [66]],
          [Mat.of_points [⟨95, 95⟩, ⟨125, 95⟩, ⟨125, 125⟩, ⟨95, 125⟩],
           Mat.of_points [⟨165, 165⟩, ⟨195, 165⟩, ⟨195, 195⟩, ⟨165, 195⟩]],
          [[⟨95, 95⟩, ⟨125, 95⟩, ⟨125, 125⟩, ⟨95, 125⟩],
           [⟨165, 165⟩, ⟨195, 165⟩, ⟨195, 195⟩, ⟨165, 195⟩]]⟩ := by
      rw [WeChatQRCode.Impl.symbol_loop, symbol_step_eq, hq1]
      simp only [hd0, if_true, List.nil_append]
      rw [WeChatQRCode.Impl.symbol_loop, symbol_step_eq, hq2]
      simp only [hd2, if_true, List.cons_append, List.nil_append]
      rw [WeChatQRCode.Impl.symbol_loop]
    rw [hloop1]
    simp only [List.cons_append, List.nil_append]
    have hloop2 : ∀ pts : List (Mat float),
        example_detector.p.symbol_loop ⟨205, 205, false⟩ 1.0
          ⟨[[65], [66], [67], [67]], pts, []⟩ 0
          [[⟨20, 20⟩, ⟨150, 20⟩, ⟨150, 150⟩, ⟨20, 150⟩], [⟨20, 20⟩, ⟨150, 20⟩, ⟨150, 150⟩, ⟨20, 150⟩]] =
        ⟨[[65], [67], [67]],
          pts ++ [Mat.of_points [⟨225, 225⟩, ⟨355, 225⟩, ⟨355, 355⟩, ⟨225, 355⟩]],
          [[⟨225, 225⟩, ⟨355, 225⟩, ⟨355, 355⟩, ⟨225, 355⟩]]⟩ := by
      intro pts
      rw [WeChatQRCode.Impl.symbol_loop, symbol_step_eq, hq3]
      simp only [hd0, if_true, List.nil_append]
      rw [WeChatQRCode.Impl.symbol_loop, symbol_step_eq, hq3]
      simp only [hd3, Bool.true_eq_false, if_false]
      rw [WeChatQRCode.Impl.symbol_loop]
      rfl
    rw [hloop2]
    rfl
  refine ⟨hq1, hq2, by norm_num [lt_abs], hd2, main, ?_⟩
  rw [main]
  decide

/-! ## Claims on the raw pixel entry point -/

/-- The error returns of `qrcode_detect_and_decode_internal` with a non-null `out_result`:
the code is never `INVALID_ARGUMENT`, it is `INVALID_HANDLE` when the detector is not
registered, and every return other than `OK` leaves a null result handle and the
registries as they were. -/
theorem internal_error_returns (lib : Library) (fuel : Nat) (st : Registries) (detector : Nat)
    (img : Mat Nat) (v : Nat) :
    (st.detectors.get detector = none →
        qrcode_detect_and_decode_internal lib fuel st detector img (some v) =
          some (.ZZT_QRCODE_ERROR_INVALID_HANDLE, some 0, st)) ∧
      ∀ e o st2, qrcode_detect_and_decode_internal lib fuel st detector img (some v) =
          some (e, o, st2) →
        e ≠ .ZZT_QRCODE_ERROR_INVALID_ARGUMENT ∧ (e ≠ .ZZT_QRCODE_OK → o = some 0 ∧ st2 = st) := by
  constructor
  · intro hg
    simp only [qrcode_detect_and_decode_internal, hg]
  · intro e o st2 h
    unfold qrcode_detect_and_decode_internal at h
    simp only at h
    split at h
    · simp only [Option.some.injEq, Prod.mk.injEq] at h
      obtain ⟨rfl, rfl, rfl⟩ := h
      exact ⟨by decide, fun _ => ⟨rfl, rfl⟩⟩
    · have hcreate : ∀ rv : QrcodeResultList,
          (match st.results.create_handle rv fuel with
            | none => none
            | some (h, results_reg) =>
              some (zzt_qrcode_error_t.ZZT_QRCODE_OK, some h,
                (⟨st.detectors, results_reg⟩ : Registries))) = some (e, o, st2) →
          e = .ZZT_QRCODE_OK := by
        intro rv hrv
        split at hrv
        · cases hrv
        · simp only [Option.some.injEq, Prod.mk.injEq] at hrv
          exact hrv.1.symm
      by_cases hemp : lib.empty img = true
      · simp only [hemp, if_true, Option.some.injEq, Prod.mk.injEq] at h
        obtain ⟨rfl, rfl, rfl⟩ := h
        exact ⟨by decide, fun _ => ⟨rfl, rfl⟩⟩
      · simp only [hemp, if_false] at h
        have he := hcreate _ h
        subst he
        exact ⟨by decide, fun hne => absurd rfl hne⟩

/-- The format switch falls to its `default` case exactly outside the seven formats. -/
theorem pixel_format_switch_none_iff (format : Int) :
    pixel_format_switch format = none ↔ ¬ (0 ≤ format ∧ format ≤ 6) := by
  unfold pixel_format_switch ZZT_QRCODE_PIXEL_GRAY ZZT_QRCODE_PIXEL_RGB ZZT_QRCODE_PIXEL_BGR
    ZZT_QRCODE_PIXEL_RGBA ZZT_QRCODE_PIXEL_BGRA ZZT_QRCODE_PIXEL_ARGB ZZT_QRCODE_PIXEL_ABGR
  split_ifs <;> simp <;> omega

/-- C11: `zzt_qrcode_detect_and_decode_pixels` returns
`ZZT_QRCODE_ERROR_INVALID_ARGUMENT` exactly when `out_result` is null, `pixels` is null,
`width <= 0`, `height <= 0` or the format is none of the seven pixel formats, whatever the
detector handle is; otherwise it returns `ZZT_QRCODE_ERROR_INVALID_HANDLE` when the
detector handle is not registered; and on every return other than `ZZT_QRCODE_OK` with a
non-null `out_result`, `*out_result` is null and the registries are unchanged. -/
theorem detect_and_decode_pixels_errors (lib : Library)
    (from_pixels : (Nat → Nat) → PixelType → Int → Int → Option Int → Nat → Nat → Nat)
    (fuel : Nat) (st : Registries) (detector : Nat) (pixels : Option (Nat → Nat))
    (format : Int) (width height stride : Int) (out_result : Option Nat) :
    ((∃ o st2, zzt_qrcode_detect_and_decode_pixels lib from_pixels fuel st detector pixels
          format width height stride out_result =
            some (.ZZT_QRCODE_ERROR_INVALID_ARGUMENT, o, st2)) ↔
        (out_result = none ∨ pixels = none ∨ width ≤ 0 ∨ height ≤ 0 ∨
          ¬ (0 ≤ format ∧ format ≤ 6))) ∧
      ((out_result = none ∨ pixels = none ∨ width ≤ 0 ∨ height ≤ 0 ∨
          ¬ (0 ≤ format ∧ format ≤ 6)) →
        zzt_qrcode_detect_and_decode_pixels lib from_pixels fuel st detector pixels
          format width height stride out_result =
            some (.ZZT_QRCODE_ERROR_INVALID_ARGUMENT, out_result.map fun _ => 0, st)) ∧
      (¬ (out_result = none ∨ pixels = none ∨ width ≤ 0 ∨ height ≤ 0 ∨
          ¬ (0 ≤ format ∧ format ≤ 6)) →
        st.detectors.get detector = none →
        zzt_qrcode_detect_and_decode_pixels lib from_pixels fuel st detector pixels
          format width height stride out_result =
            some (.ZZT_QRCODE_ERROR_INVALID_HANDLE, some 0, st)) ∧
      (∀ e o st2, zzt_qrcode_detect_and_decode_pixels lib from_pixels fuel st detector pixels
          format width height stride out_result = some (e, o, st2) →
        e ≠ .ZZT_QRCODE_OK → out_result ≠ none → o = some 0 ∧ st2 = st) := by
  have hbad : (out_result = none ∨ pixels = none ∨ width ≤ 0 ∨ height ≤ 0 ∨
        ¬ (0 ≤ format ∧ format ≤ 6)) →
      zzt_qrcode_detect_and_decode_pixels lib from_pixels fuel st detector pixels
        format width height stride out_result =
          some (.ZZT_QRCODE_ERROR_INVALID_ARGUMENT, out_result.map fun _ => 0, st) := by
    intro hb
    unfold zzt_qrcode_detect_and_decode_pixels
    cases out_result with
    | none => rfl
    | some v =>
      cases pixels with
      | none => rfl
      | some px =>
        simp only [Option.map_some']
        by_cases hwh : width ≤ 0 ∨ height ≤ 0
        · rw [if_pos hwh]
        · rw [if_neg hwh]
          have hf : pixel_format_switch format = none := by
            rw [pixel_format_switch_none_iff]
            rcases hb with h | h | h | h | h
            · cases h
            · cases h
            · exact absurd (Or.inl h) hwh
            · exact absurd (Or.inr h) hwh
            · exact h
          simp only [hf]
  have hgood : ¬ (out_result = none ∨ pixels = none ∨ width ≤ 0 ∨ height ≤ 0 ∨
        ¬ (0 ≤ format ∧ format ≤ 6)) →
      ∃ img, zzt_qrcode_detect_and_decode_pixels lib from_pixels fuel st detector pixels
        format width height stride out_result =
          qrcode_detect_and_decode_internal lib fuel st detector img (some 0) := by
    intro hg
    simp only [not_or, not_not] at hg
    obtain ⟨ho, hp, hw, hh, hf⟩ := hg
    unfold zzt_qrcode_detect_and_decode_pixels
    cases out_result with
    | none => exact absurd rfl ho
    | some v =>
      cases pixels with
      | none => exact absurd rfl hp
      | some px =>
        have hwh : ¬ (width ≤ 0 ∨ height ≤ 0) := by omega
        simp only [if_neg hwh]
        cases hsw : pixel_format_switch format with
        | none => exact absurd ((pixel_format_switch_none_iff format).mp hsw) (not_not.mpr hf)
        | some pt => exact ⟨_, rfl⟩
  refine ⟨⟨?_, fun hb => ⟨_, _, hbad hb⟩⟩, hbad, ?_, ?_⟩
  · rintro ⟨o, st2, h⟩
    by_contra hg
    obtain ⟨img, himg⟩ := hgood hg
    rw [himg] at h
    exact ((internal_error_returns lib fuel st detector img 0).2 _ _ _ h).1 rfl
  · intro hg hdet
    obtain ⟨img, himg⟩ := hgood hg
    rw [himg]
    exact (internal_error_returns lib fuel st detector img 0).1 hdet
  · intro e o st2 h hne ho
    by_cases hb : out_result = none ∨ pixels = none ∨ width ≤ 0 ∨ height ≤ 0 ∨
        ¬ (0 ≤ format ∧ format ≤ 6)
    · rw [hbad hb] at h
      simp only [Option.some.injEq, Prod.mk.injEq] at h
      obtain ⟨_, rfl, rfl⟩ := h
      cases out_result with
      | none => exact absurd rfl ho
      | some v => exact ⟨rfl, rfl⟩
    · obtain ⟨img, himg⟩ := hgood hb
      rw [himg] at h
      exact ((internal_error_returns lib fuel st detector img 0).2 _ _ _ h).2 hne

/-- Witness of C11: in `example_registries`, a null `pixels` gives
`ZZT_QRCODE_ERROR_INVALID_ARGUMENT` although the detector handle is registered, and valid
arguments with the unregistered detector handle `5` give `ZZT_QRCODE_ERROR_INVALID_HANDLE`;
`*out_result`, which held `7`, is null afterwards. -/
theorem detect_and_decode_pixels_errors_witness :
    zzt_qrcode_detect_and_decode_pixels example_library (fun _ _ _ _ _ _ _ => 0) 1
        example_registries 0x9e3779b97fca7c15 none 0 100 100 0 (some 7) =
        some (.ZZT_QRCODE_ERROR_INVALID_ARGUMENT, (some 7).map fun _ => 0, example_registries) ∧
      zzt_qrcode_detect_and_decode_pixels example_library (fun _ _ _ _ _ _ _ => 0) 1
        example_registries 5 (some fun _ => 0) 6 100 100 0 (some 7) =
        some (.ZZT_QRCODE_ERROR_INVALID_HANDLE, some 0, example_registries) :=
  ⟨(detect_and_decode_pixels_errors example_library (fun _ _ _ _ _ _ _ => 0) 1
      example_registries 0x9e3779b97fca7c15 none 0 100 100 0 (some 7)).2.1 (Or.inr (Or.inl rfl)),
   (detect_and_decode_pixels_errors example_library (fun _ _ _ _ _ _ _ => 0) 1
      example_registries 5 (some fun _ => 0) 6 100 100 0 (some 7)).2.2.1 (by simp) rfl⟩

/-! ## Claims on the binarizer -/

/-- The block size for a non-negative width, with the Euclidean division. -/
theorem block_size_eq (width : Int) (h : 0 ≤ width) :
    AdaptiveThresholdMeanBinarizer.block_size width = width / 10 + width / 10 % 2 - 1 := by
  have h1 : Int.tdiv width 10 = width / 10 := Int.tdiv_eq_ediv h (by norm_num)
  have h2 : Int.tmod (width / 10) 2 = width / 10 % 2 :=
    Int.tmod_eq_emod (by omega) (by norm_num)
  simp only [AdaptiveThresholdMeanBinarizer.block_size, h1, h2]

/-- The remainder of the block size in the validity check, for a width of at least 10. -/
theorem block_size_tmod (width : Int) (h : 10 ≤ width) :
    Int.tmod (AdaptiveThresholdMeanBinarizer.block_size width) 2 =
      (width / 10 + width / 10 % 2 - 1) % 2 := by
  rw [block_size_eq width (by omega)]
  exact Int.tmod_eq_emod (by omega) (by norm_num)

/-- C20: `binarizeImage` takes the global histogram method when `width < 25` or
`height < 25`, storing that method's matrix, and the adaptive method when `width >= 25` and
`height >= 25`, where its result does not depend on the global method; the block size
computed from `bs = width / 10` and `bs = bs + bs % 2 - 1` is `width / 10` when `width / 10`
is odd and `width / 10 - 1` when it is even; it is odd and at least 3 for every
`width >= 30`; for `25 <= width <= 29` it is 1, the validity check fails and
`binarizeImage` returns -1 without storing a matrix. -/
theorem binarizer_variant_and_block_size (lib : BinarizerLibrary)
    (self : AdaptiveThresholdMeanBinarizer) (err : Int) :
    (¬ (self.width ≥ 25 ∧ self.height ≥ 25) →
        (self.binarizeImage lib err).2.1.matrix0_ =
            (lib.GlobalHistogramBinarizer_getBlackMatrix self.source self.width self.height
              self.matrix0_ err).1 ∧
          (self.binarizeImage lib err).2.2 =
            (lib.GlobalHistogramBinarizer_getBlackMatrix self.source self.width self.height
              self.matrix0_ err).2 ∧
          (self.binarizeImage lib err).1 = (if (self.binarizeImage lib err).2.2 ≠ 0 then 1 else 0)) ∧
      ((self.width ≥ 25 ∧ self.height ≥ 25) →
        ∀ lib2 : BinarizerLibrary, lib2.exp = lib.exp → lib2.BitMatrix_new = lib.BitMatrix_new →
          self.binarizeImage lib2 err = self.binarizeImage lib err) ∧
      (0 ≤ self.width → self.width / 10 % 2 = 1 →
        AdaptiveThresholdMeanBinarizer.block_size self.width = self.width / 10) ∧
      (0 ≤ self.width → self.width / 10 % 2 = 0 →
        AdaptiveThresholdMeanBinarizer.block_size self.width = self.width / 10 - 1) ∧
      (30 ≤ self.width →
        Int.tmod (AdaptiveThresholdMeanBinarizer.block_size self.width) 2 = 1 ∧
          3 ≤ AdaptiveThresholdMeanBinarizer.block_size self.width) ∧
      (30 ≤ self.width → 25 ≤ self.height → lib.BitMatrix_new self.width self.height err = 0 →
        (self.binarizeImage lib err).1 = 0 ∧
          ∃ bits, (self.binarizeImage lib err).2.1.matrix0_ =
            some ⟨self.width, self.height, bits⟩) ∧
      (25 ≤ self.width → self.width ≤ 29 →
        AdaptiveThresholdMeanBinarizer.block_size self.width = 1 ∧
          ¬ (Int.tmod (AdaptiveThresholdMeanBinarizer.block_size self.width) 2 = 1 ∧
            AdaptiveThresholdMeanBinarizer.block_size self.width > 1) ∧
          (25 ≤ self.height → lib.BitMatrix_new self.width self.height err = 0 →
            self.binarizeImage lib err = (-1, self, 0))) := by
  refine ⟨?_, ?_, ?_, ?_, ?_, ?_, ?_⟩
  · intro h
    have h2 : ¬ (self.width ≥ BLOCK_SIZE ∧ self.height ≥ BLOCK_SIZE) := h
    unfold AdaptiveThresholdMeanBinarizer.binarizeImage
    rw [if_neg h2]
    simp only
    split_ifs <;> simp_all
  · intro h lib2 he hb
    have h2 : self.width ≥ BLOCK_SIZE ∧ self.height ≥ BLOCK_SIZE := h
    unfold AdaptiveThresholdMeanBinarizer.binarizeImage
    rw [if_pos h2, if_pos h2, he, hb]
  · intro h0 hodd
    rw [block_size_eq self.width h0]; omega
  · intro h0 heven
    rw [block_size_eq self.width h0]; omega
  · intro h30
    have hb := block_size_eq self.width (by omega)
    have hm := block_size_tmod self.width (by omega)
    rw [hm, hb]
    omega
  · intro h30 h25 hnew
    have hb := block_size_eq self.width (by omega)
    have hm := block_size_tmod self.width (by omega)
    have h2 : self.width ≥ BLOCK_SIZE ∧ self.height ≥ BLOCK_SIZE := by
      unfold BLOCK_SIZE; omega
    have hvalid : ¬ ¬ (Int.tmod (AdaptiveThresholdMeanBinarizer.block_size self.width) 2 = 1 ∧
        AdaptiveThresholdMeanBinarizer.block_size self.width > 1) := by
      rw [hm, hb]; omega
    unfold AdaptiveThresholdMeanBinarizer.binarizeImage
    rw [if_pos h2]
    simp only [hnew, ne_eq, not_true_eq_false, if_false, if_neg hvalid]
    exact ⟨trivial, _, rfl⟩
  · intro h25 h29
    have hb := block_size_eq self.width (by omega)
    have hm := block_size_tmod self.width (by omega)
    have hone : AdaptiveThresholdMeanBinarizer.block_size self.width = 1 := by
      rw [hb]; omega
    have hinvalid : ¬ (Int.tmod (AdaptiveThresholdMeanBinarizer.block_size self.width) 2 = 1 ∧
        AdaptiveThresholdMeanBinarizer.block_size self.width > 1) := by
      rw [hone]; omega
    refine ⟨hone, hinvalid, fun hh hnew => ?_⟩
    have h2 : self.width ≥ BLOCK_SIZE ∧ self.height ≥ BLOCK_SIZE := by
      unfold BLOCK_SIZE; omega
    unfold AdaptiveThresholdMeanBinarizer.binarizeImage
    rw [if_pos h2]
    simp only [hnew, ne_eq, not_true_eq_false, if_false, if_pos hinvalid]

/-- Witness of C20: for a 100 x 100 source the block size is odd and at least 3; for a
27 x 30 source it is 1 and `binarizeImage` returns -1, the binarizer and the error code
being left as they were; for a 20 x 100 source the matrix stored is that of the global
method. -/
theorem binarizer_variant_and_block_size_witness :
    (Int.tmod (AdaptiveThresholdMeanBinarizer.block_size 100) 2 = 1 ∧
        3 ≤ AdaptiveThresholdMeanBinarizer.block_size 100) ∧
      (AdaptiveThresholdMeanBinarizer.block_size 27 = 1 ∧
        ¬ (Int.tmod (AdaptiveThresholdMeanBinarizer.block_size 27) 2 = 1 ∧
          AdaptiveThresholdMeanBinarizer.block_size 27 > 1) ∧
        (25 ≤ (30 : Int) → example_binarizer_library.BitMatrix_new 27 30 0 = 0 →
          AdaptiveThresholdMeanBinarizer.binarizeImage example_binarizer_library
            ⟨27, 30, fun _ => 0, none⟩ 0 = (-1, ⟨27, 30, fun _ => 0, none⟩, 0))) ∧
      (AdaptiveThresholdMeanBinarizer.binarizeImage example_binarizer_library
          ⟨20, 100, fun _ => 0, none⟩ 0).2.1.matrix0_ =
        (example_binarizer_library.GlobalHistogramBinarizer_getBlackMatrix (fun _ => 0) 20 100
          none 0).1 :=
  ⟨(binarizer_variant_and_block_size example_binarizer_library ⟨100, 100, fun _ => 0, none⟩
      0).2.2.2.2.1 (by decide),
   (binarizer_variant_and_block_size example_binarizer_library ⟨27, 30, fun _ => 0, none⟩
      0).2.2.2.2.2.2 (by decide) (by decide),
   ((binarizer_variant_and_block_size example_binarizer_library ⟨20, 100, fun _ => 0, none⟩
      0).1 (by decide)).1⟩

/-! ## Key mixing of the handle registry -/

/-- The shift-or expression of `generate_handle` rotates a 64 bit word by 23 bits to the
left: bit `i` of the result is bit `(i + 41) % 64` of the word. -/
theorem shift_or_testBit (raw : Nat) (hlt : raw < 2 ^ 64) (i : Nat) (hi : i < 64) :
    (((raw <<< 23) % 2 ^ 64) ||| (raw >>> 41)).testBit i = raw.testBit ((i + 41) % 64) := by
  rw [Nat.testBit_or, Nat.testBit_mod_two_pow, Nat.testBit_shiftLeft, Nat.testBit_shiftRight]
  by_cases h : 23 ≤ i
  · have hhigh : raw.testBit (41 + i) = false := by
      apply Nat.testBit_lt_two_pow
      exact lt_of_lt_of_le hlt (Nat.pow_le_pow_right (by norm_num) (by omega))
    have e : (i + 41) % 64 = i - 23 := by omega
    simp [hhigh, e, hi, h]
  · have e : (i + 41) % 64 = 41 + i := by omega
    simp [e, h]

/-- The key computed from a counter value below `2^64` is below `2^64`. -/
theorem mix_lt (raw : Nat) (hlt : raw < 2 ^ 64) : Handle.mix raw < 2 ^ 64 := by
  unfold Handle.mix
  apply Nat.xor_lt_two_pow
  · omega
  · unfold Handle.xor_key; norm_num

/-- Every 64 bit word is the key of some counter value below `2^64`. -/
theorem mix_surjective (k : Nat) (hk : k < 2 ^ 64) :
    ∃ raw, raw < 2 ^ 64 ∧ Handle.mix raw = k := by
  have ht : k ^^^ Handle.xor_key < 2 ^ 64 :=
    Nat.xor_lt_two_pow hk (by unfold Handle.xor_key; norm_num)
  refine ⟨((k ^^^ Handle.xor_key) % 2 ^ 23) * 2 ^ 41 + (k ^^^ Handle.xor_key) / 2 ^ 23, by omega,
    ?_⟩
  unfold Handle.mix
  have e : ((((k ^^^ Handle.xor_key) % 2 ^ 23) * 2 ^ 41 + (k ^^^ Handle.xor_key) / 2 ^ 23)
      % 2 ^ 41) * 2 ^ 23 +
      (((k ^^^ Handle.xor_key) % 2 ^ 23) * 2 ^ 41 + (k ^^^ Handle.xor_key) / 2 ^ 23) / 2 ^ 41 =
      k ^^^ Handle.xor_key := by omega
  rw [e, Nat.xor_cancel_right]

/-- C26: over 64 bit words the key mixing of `generate_handle` is a bijection. For every
counter value the counter is incremented modulo `2^64`, the key is a 64 bit word, and the
key with the mask `0x9e3779b97f4a7c15` removed is the incremented counter rotated left by
23 bits (bit `i` of it is bit `(i + 41) % 64` of the counter), so the shift-or expression
is the rotation; distinct 64 bit counter values give distinct keys; every 64 bit word is
the key of some counter value; `create_handle` never returns the key `0`, and it returns
within `2^64` iterations while the map has fewer than `2^64 - 1` entries. -/
theorem key_mixing_bijective :
    (∀ c : Nat, (Handle.generate_handle c).2 = (c + 1) % 2 ^ 64 ∧
        (Handle.generate_handle c).1 < 2 ^ 64 ∧
        ∀ i, i < 64 → ((Handle.generate_handle c).1 ^^^ Handle.xor_key).testBit i =
          (Handle.generate_handle c).2.testBit ((i + 41) % 64)) ∧
      (∀ c1 c2 : Nat, c1 < 2 ^ 64 → c2 < 2 ^ 64 →
        (Handle.generate_handle c1).1 = (Handle.generate_handle c2).1 → c1 = c2) ∧
      (∀ k : Nat, k < 2 ^ 64 → ∃ c, c < 2 ^ 64 ∧ (Handle.generate_handle c).1 = k) ∧
      (∀ (T : Type) (ptr : T) (fuel : Nat) (st : Handle T) (h : Nat) (st2 : Handle T),
        Handle.create_handle ptr fuel st = some (h, st2) → h ≠ 0) ∧
      (∀ (T : Type) (ptr : T) (fuel : Nat) (st : Handle T), 2 ^ 64 ≤ fuel →
        st.handle_map.length + 1 < 2 ^ 64 →
        ∃ h st2, Handle.create_handle ptr fuel st = some (h, st2) ∧ h ≠ 0) := by
  refine ⟨?_, ?_, ?_, ?_, ?_⟩
  · intro c
    have hlt : (c + 1) % 2 ^ 64 < 2 ^ 64 := Nat.mod_lt _ (by norm_num)
    refine ⟨by rw [generate_handle_eq], by rw [generate_handle_eq]; exact mix_lt _ hlt, ?_⟩
    intro i hi
    rw [generate_handle_eq]
    simp only [Handle.mix, Nat.xor_cancel_right]
    rw [← rotl_23_eq _ hlt]
    exact shift_or_testBit _ hlt i hi
  · intro c1 c2 h1 h2 he
    rw [generate_handle_eq, generate_handle_eq] at he
    have := mix_injective (Nat.mod_lt _ (by norm_num)) (Nat.mod_lt _ (by norm_num)) he
    omega
  · intro k hk
    obtain ⟨raw, hr, hm⟩ := mix_surjective k hk
    refine ⟨(raw + 2 ^ 64 - 1) % 2 ^ 64, Nat.mod_lt _ (by norm_num), ?_⟩
    rw [generate_handle_eq]
    have e : ((raw + 2 ^ 64 - 1) % 2 ^ 64 + 1) % 2 ^ 64 = raw := by omega
    rw [e]
    exact hm
  · intro T ptr fuel st h st2 hc
    exact (create_handle_spec ptr fuel st h st2 hc).1
  · intro T ptr fuel st hfuel hsize
    obtain ⟨h, st2, hc⟩ := create_handle_returns ptr st fuel hfuel hsize
    exact ⟨h, st2, hc, (create_handle_spec ptr fuel st h st2 hc).1⟩

/-- Witness of C26: the counter values `0` and `1` give the keys `0x9e3779b97fca7c15` and
`0x9e3779b97e4a7c15`; the key returned by `create_handle` on an empty registry with counter
`0` is not `0`. -/
theorem key_mixing_bijective_witness :
    ((Handle.generate_handle 0).1 = (Handle.generate_handle 1).1 → (0 : Nat) = 1) ∧
      (0x9e3779b97fca7c15 : Nat) ≠ 0 :=
  ⟨key_mixing_bijective.2.1 0 1 (by norm_num) (by norm_num),
   key_mixing_bijective.2.2.2.1 Nat 7 1 ⟨0, []⟩ 0x9e3779b97fca7c15
     ⟨1, [(0x9e3779b97fca7c15, 7)]⟩ (by rfl)⟩
/-! ## The crop under the preconditions of the orchestrator -/

/-- The padding computed by `Align::crop` is at least the minimum padding, when that is
non-negative. -/
theorem crop_padding_ge_min (padding : float) (extent minPadding : Int) (h : 0 ≤ minPadding) :
    minPadding ≤ float_to_int (max (padding * (extent : float)) (minPadding : float)) := by
  have h0 : (0 : float) ≤ max (padding * (extent : float)) (minPadding : float) :=
    le_max_of_le_right (by exact_mod_cast h)
  unfold float_to_int
  rw [if_pos h0]
  exact Int.le_floor.mpr (le_max_right _ _)

/-- One axis of the crop rectangle for a padding of at least 15 in an image of more than
20 columns, when `0 <= x0 <= x2 <= cols - 1`. -/
theorem crop_axis_nonempty (x0 x2 pad cols : Int) (hc : 20 < cols) (h0 : 0 ≤ x0)
    (h1 : x0 ≤ x2) (h2 : x2 ≤ cols - 1) (hp : 15 ≤ pad) :
    max (x0 - pad) 0 ≤ x0 ∧
      16 ≤ Int.land (min (x2 + pad) (cols - 1) - max (x0 - pad) 0 + 1) (-2) ∧
      min (x2 + pad) (cols - 1) - max (x0 - pad) 0 + 1 - 1 ≤
        Int.land (min (x2 + pad) (cols - 1) - max (x0 - pad) 0 + 1) (-2) ∧
      Int.land (min (x2 + pad) (cols - 1) - max (x0 - pad) 0 + 1) (-2) ≤
        min (x2 + pad) (cols - 1) - max (x0 - pad) 0 + 1 := by
  rw [land_neg_two]
  omega

/-- C28: for an image with `cols > 20` and `rows > 20` and a candidate whose first and
third corners satisfy `0 <= x0 <= x2 <= cols - 1` and `0 <= y0 <= y2 <= rows - 1`, the crop
of `cropObj` (`Align::crop` with padding fractions 0.1 and minimum padding 15) stores an
origin with `crop_x_ <= x0` and `crop_y_ <= y0`, and its rectangle starts at that origin,
has an even width of at least 16 and an even height of at least 16, lies inside the image,
and has at most one column and one row less than the extent from the origin to the padded
end (`end_x - crop_x_ + 1`, `end_y - crop_y_ + 1`); without transposition the cropped
image has the size of the rectangle. -/
theorem crop_never_empty (aligner : Align) (img : Mat Nat) (point : Mat float)
    (hc : 20 < img.cols) (hr : 20 < img.rows)
    (hx0 : 0 ≤ float_to_int (point.data 0 0))
    (hx1 : float_to_int (point.data 0 0) ≤ float_to_int (point.data 2 0))
    (hx2 : float_to_int (point.data 2 0) ≤ img.cols - 1)
    (hy0 : 0 ≤ float_to_int (point.data 0 1))
    (hy1 : float_to_int (point.data 0 1) ≤ float_to_int (point.data 2 1))
    (hy2 : float_to_int (point.data 2 1) ≤ img.rows - 1) :
    let a := (WeChatQRCode.Impl.cropObj img point aligner).1
    let dst := (WeChatQRCode.Impl.cropObj img point aligner).2
    let r := (aligner.crop_roi img point 0.1 0.1 15).2
    let x0 := float_to_int (point.data 0 0)
    let y0 := float_to_int (point.data 0 1)
    let x2 := float_to_int (point.data 2 0)
    let y2 := float_to_int (point.data 2 1)
    let padx := float_to_int (max ((0.1 : float) * ((x2 - x0 + 1 : Int) : float)) ((15 : Int) : float))
    let pady := float_to_int (max ((0.1 : float) * ((y2 - y0 + 1 : Int) : float)) ((15 : Int) : float))
    let end_x := min (x2 + padx) (img.cols - 1)
    let end_y := min (y2 + pady) (img.rows - 1)
    (a.crop_x_ = r.x ∧ a.crop_y_ = r.y) ∧
      (a.crop_x_ ≤ x0 ∧ a.crop_y_ ≤ y0) ∧
      (r.width % 2 = 0 ∧ 16 ≤ r.width) ∧
      (r.height % 2 = 0 ∧ 16 ≤ r.height) ∧
      (0 ≤ r.x ∧ 0 ≤ r.y ∧ r.x + r.width ≤ img.cols ∧ r.y + r.height ≤ img.rows) ∧
      (end_x - a.crop_x_ + 1 - 1 ≤ r.width ∧ r.width ≤ end_x - a.crop_x_ + 1) ∧
      (end_y - a.crop_y_ + 1 - 1 ≤ r.height ∧ r.height ≤ end_y - a.crop_y_ + 1) ∧
      (aligner.rotate90_ = false → dst.cols = r.width ∧ dst.rows = r.height) := by
  intro a dst r x0 y0 x2 y2 padx pady end_x end_y
  have hpx : 15 ≤ padx := crop_padding_ge_min 0.1 (x2 - x0 + 1) 15 (by norm_num)
  have hpy : 15 ≤ pady := crop_padding_ge_min 0.1 (y2 - y0 + 1) 15 (by norm_num)
  have ax := crop_axis_nonempty x0 x2 padx img.cols hc hx0 hx1 hx2 hpx
  have ay := crop_axis_nonempty y0 y2 pady img.rows hr hy0 hy1 hy2 hpy
  have bx := crop_axis x0 x2 padx img.cols
  have bY := crop_axis y0 y2 pady img.rows
  refine ⟨⟨rfl, rfl⟩, ⟨ax.1, ay.1⟩, ⟨bx.1, ax.2.1⟩, ⟨bY.1, ay.2.1⟩,
    ⟨bx.2.1, bY.2.1, bx.2.2.1, bY.2.2.1⟩, ⟨ax.2.2.1, ax.2.2.2⟩, ⟨ay.2.2.1, ay.2.2.2⟩, ?_⟩
  intro hrot
  have hd : dst = (if aligner.rotate90_ then transposeMat (img.roi_clone r)
      else img.roi_clone r) := rfl
  rw [hd, hrot]
  exact ⟨rfl, rfl⟩

/-- Witness of C28: the quad with first corner `(100, 100)` and third corner `(200, 200)`
in a 400 x 400 image gives the crop origin `(85, 85)`, which is at most `(100, 100)`, and
a rectangle of width and height at least 16. -/
theorem crop_never_empty_witness :
    ((WeChatQRCode.Impl.cropObj (Mat.blank 400 400) example_candidate Align.new).1.crop_x_ ≤
        float_to_int (example_candidate.data 0 0) ∧
      (WeChatQRCode.Impl.cropObj (Mat.blank 400 400) example_candidate Align.new).1.crop_y_ ≤
        float_to_int (example_candidate.data 0 1)) ∧
      16 ≤ (Align.new.crop_roi (Mat.blank 400 400) example_candidate 0.1 0.1 15).2.width ∧
      16 ≤ (Align.new.crop_roi (Mat.blank 400 400) example_candidate 0.1 0.1 15).2.height := by
  have e1 : float_to_int (100 : float) = 100 := float_to_int_intCast 100
  have e2 : float_to_int (200 : float) = 200 := float_to_int_intCast 200
  have h := crop_never_empty Align.new (Mat.blank 400 400) example_candidate
    (by norm_num [Mat.blank]) (by norm_num [Mat.blank])
    (by norm_num [example_candidate, Mat.of_points, e1])
    (by norm_num [example_candidate, Mat.of_points, e1, e2])
    (by norm_num [example_candidate, Mat.of_points, Mat.blank, e2])
    (by norm_num [example_candidate, Mat.of_points, e1])
    (by norm_num [example_candidate, Mat.of_points, e1, e2])
    (by norm_num [example_candidate, Mat.of_points, Mat.blank, e2])
  exact ⟨h.2.1, h.2.2.1.2, h.2.2.2.1.2⟩
/-! ## The exact rule of the duplicate test -/

/-- The duplicate flag against a list `check_points` whose last quad has 4 corners, for a
new quad of 4 corners: `true` exactly when all 4 corners of the last quad are near the
corners of the same index of the new quad. -/
theorem isDuplicate_last_four (pre : List (List Point2f)) (t0 t1 t2 t3 p0 p1 p2 p3 : Point2f) :
    WeChatQRCode.Impl.isDuplicate (pre ++ [[t0, t1, t2, t3]]) [p0, p1, p2, p3] = true ↔
      WeChatQRCode.Impl.corner_near t0 p0 ∧ WeChatQRCode.Impl.corner_near t1 p1 ∧
        WeChatQRCode.Impl.corner_near t2 p2 ∧ WeChatQRCode.Impl.corner_near t3 p3 := by
  rw [isDuplicate_append pre t0 [t1, t2, t3] [] [p0, p1, p2, p3]]
  have e : WeChatQRCode.Impl.isDuplicate [[t0, t1, t2, t3]] [p0, p1, p2, p3] =
      WeChatQRCode.Impl.corner_loop [p0, p1, p2, p3] [t0, t1, t2, t3] 0 false := rfl
  rw [e, corner_loop_true_iff]
  constructor
  · rintro (⟨h, _⟩ | ⟨_, h⟩)
    · cases h
    · exact ⟨h 0 (by simp), h 1 (by simp), h 2 (by simp), h 3 (by simp)⟩
  · rintro ⟨h0, h1, h2, h3⟩
    refine Or.inr ⟨by simp, fun k hk => ?_⟩
    have hk4 : k < 4 := hk
    interval_cases k
    · exact h0
    · exact h1
    · exact h2
    · exact h3

/-- The quads admitted by the symbol loop depend on `check_points` and on the symbols only:
two runs from states with the same `check_points` end with the same `check_points` and
append the same quads to their lists `points`. -/
theorem symbol_loop_added (self : WeChatQRCode.Impl) (aligner : Align) (cur_scale : float) :
    ∀ (zs : List (List Point2f)) (st st2 : DecodeState) (i i2 : Nat),
      st.check_points = st2.check_points →
      (self.symbol_loop aligner cur_scale st i zs).check_points =
          (self.symbol_loop aligner cur_scale st2 i2 zs).check_points ∧
        ∃ added, (self.symbol_loop aligner cur_scale st i zs).points = st.points ++ added ∧
          (self.symbol_loop aligner cur_scale st2 i2 zs).points = st2.points ++ added := by
  intro zs
  induction zs with
  | nil =>
    intro st st2 i i2 h
    exact ⟨h, [], by simp [WeChatQRCode.Impl.symbol_loop], by simp [WeChatQRCode.Impl.symbol_loop]⟩
  | cons z rest ih =>
    intro st st2 i i2 h
    rw [WeChatQRCode.Impl.symbol_loop, WeChatQRCode.Impl.symbol_loop, symbol_step_eq,
      symbol_step_eq, ← h]
    by_cases hd : WeChatQRCode.Impl.isDuplicate st.check_points
        (self.map_quad aligner cur_scale z) = false
    · rw [if_pos hd, if_pos hd]
      obtain ⟨hc, added, h1, h2⟩ := ih
        ⟨st.decode_results, st.points ++ [Mat.of_points (self.map_quad aligner cur_scale z)],
          st.check_points ++ [self.map_quad aligner cur_scale z]⟩
        ⟨st2.decode_results, st2.points ++ [Mat.of_points (self.map_quad aligner cur_scale z)],
          st.check_points ++ [self.map_quad aligner cur_scale z]⟩ (i + 1) (i2 + 1) rfl
      refine ⟨hc, Mat.of_points (self.map_quad aligner cur_scale z) :: added, ?_, ?_⟩
      · rw [h1]; simp
      · rw [h2]; simp
    · rw [if_neg hd, if_neg hd]
      exact ih ⟨st.decode_results.eraseIdx i, st.points, st.check_points⟩
        ⟨st2.decode_results.eraseIdx i2, st2.points, st.check_points⟩ (i + 1) (i2 + 1) rfl

/-- C29: the exact rule of the duplicate loop of `Impl::decode`. A symbol met with an
empty `check_points` (the first symbol of an attempt) is admitted: its quad is appended to
`points` and to `check_points` and no text is erased. A symbol with a quad of 4 corners met
after at least one admission, the most recently admitted quad having 4 corners, is rejected
(`points` and `check_points` are left as they are and a text is erased at the index of the
symbol) if and only if each of the 4 corners of the most recently admitted quad is within
less than 10 pixels in x and in y of the corner of the same index of the new quad, whatever
the quads admitted before it; otherwise it is admitted. An attempt starts with an empty
`check_points`, so the quads it appends to `points` are the same whatever the texts and
quads accumulated from other candidates. -/
theorem duplicate_rule_last_admitted (self : WeChatQRCode.Impl) (aligner : Align)
    (cur_scale : float) :
    (∀ (st : DecodeState) (i : Nat) (z : List Point2f), st.check_points = [] →
        self.symbol_step aligner cur_scale st i z =
          ⟨st.decode_results, st.points ++ [Mat.of_points (self.map_quad aligner cur_scale z)],
            [self.map_quad aligner cur_scale z]⟩) ∧
      (∀ (st : DecodeState) (i : Nat) (z : List Point2f) (pre : List (List Point2f))
          (t0 t1 t2 t3 p0 p1 p2 p3 : Point2f),
        st.check_points = pre ++ [[t0, t1, t2, t3]] →
        self.map_quad aligner cur_scale z = [p0, p1, p2, p3] →
        (WeChatQRCode.Impl.isDuplicate st.check_points [p0, p1, p2, p3] = true ↔
            WeChatQRCode.Impl.corner_near t0 p0 ∧ WeChatQRCode.Impl.corner_near t1 p1 ∧
              WeChatQRCode.Impl.corner_near t2 p2 ∧ WeChatQRCode.Impl.corner_near t3 p3) ∧
          (WeChatQRCode.Impl.isDuplicate st.check_points [p0, p1, p2, p3] = true →
            self.symbol_step aligner cur_scale st i z =
              ⟨st.decode_results.eraseIdx i, st.points, st.check_points⟩) ∧
          (¬ WeChatQRCode.Impl.isDuplicate st.check_points [p0, p1, p2, p3] = true →
            self.symbol_step aligner cur_scale st i z =
              ⟨st.decode_results, st.points ++ [Mat.of_points [p0, p1, p2, p3]],
                st.check_points ++ [[p0, p1, p2, p3]]⟩)) ∧
      (∀ (lib : Library) (cropped_img : Mat Nat) (rest : List float)
          (symbols : List (List Byte × List Point2f))
          (acc acc2 : List (List Byte) × List (Mat float)),
        lib.decodeImage (self.super_resolution_model_.processImageScale lib cropped_img
          cur_scale self.use_nn_sr_ lib.sr_max_size) self.use_nn_detector_ = some symbols →
        ∃ added, (self.scale_loop lib cropped_img aligner (cur_scale :: rest) acc).2 =
            acc.2 ++ added ∧
          (self.scale_loop lib cropped_img aligner (cur_scale :: rest) acc2).2 =
            acc2.2 ++ added) := by
  refine ⟨?_, ?_, ?_⟩
  · intro st i z h
    rw [symbol_step_eq, h]
    have hd0 : WeChatQRCode.Impl.isDuplicate [] (self.map_quad aligner cur_scale z) = false :=
      rfl
    rw [if_pos hd0]
    rfl
  · intro st i z pre t0 t1 t2 t3 p0 p1 p2 p3 hcp hq
    refine ⟨?_, ?_, ?_⟩
    · rw [hcp]
      exact isDuplicate_last_four pre t0 t1 t2 t3 p0 p1 p2 p3
    · intro hd
      rw [symbol_step_eq, hq, if_neg (by rw [hd]; decide)]
    · intro hd
      rw [symbol_step_eq, hq, if_pos (by simpa using hd)]
  · intro lib cropped_img rest symbols acc acc2 hdec
    rw [scale_loop_cons_some self lib cropped_img aligner cur_scale rest acc symbols hdec,
      scale_loop_cons_some self lib cropped_img aligner cur_scale rest acc2 symbols hdec]
    obtain ⟨_, added, h1, h2⟩ := symbol_loop_added self aligner cur_scale
      (symbols.map Prod.snd) ⟨acc.1 ++ symbols.map Prod.fst, acc.2, []⟩
      ⟨acc2.1 ++ symbols.map Prod.fst, acc2.2, []⟩ 0 0 rfl
    exact ⟨added, h1, h2⟩

/-- Witness of C29: with crop origin `(85, 85)` at scale `1.0`, a symbol whose quad maps to
`(95,95),(125,95),(125,125),(95,125)` is admitted when `check_points` is empty, and is
rejected, the text at its index 1 being erased, when the most recently admitted quad is
that same quad. -/
theorem duplicate_rule_last_admitted_witness :
    example_detector.p.symbol_step ⟨85, 85, false⟩ 1.0 ⟨[[65], [65]], [], []⟩ 0
        [⟨10, 10⟩, ⟨40, 10⟩, ⟨40, 40⟩, ⟨10, 40⟩] =
      ⟨[[65], [65]],
        [] ++ [Mat.of_points (example_detector.p.map_quad ⟨85, 85, false⟩ 1.0
          [⟨10, 10⟩, ⟨40, 10⟩, ⟨40, 40⟩, ⟨10, 40⟩])],
        [example_detector.p.map_quad ⟨85, 85, false⟩ 1.0
          [⟨10, 10⟩, ⟨40, 10⟩, ⟨40, 40⟩, ⟨10, 40⟩]]⟩ ∧
      example_detector.p.symbol_step ⟨85, 85, false⟩ 1.0
        ⟨[[65], [65]], [Mat.of_points [⟨95, 95⟩, ⟨125, 95⟩, ⟨125, 125⟩, ⟨95, 125⟩]],
          [] ++ [[⟨95, 95⟩, ⟨125, 95⟩, ⟨125, 125⟩, ⟨95, 125⟩]]⟩ 1
        [⟨10, 10⟩, ⟨40, 10⟩, ⟨40, 40⟩, ⟨10, 40⟩] =
      ⟨[[65]], [Mat.of_points [⟨95, 95⟩, ⟨125, 95⟩, ⟨125, 125⟩, ⟨95, 125⟩]],
        [] ++ [[⟨95, 95⟩, ⟨125, 95⟩, ⟨125, 125⟩, ⟨95, 125⟩]]⟩ := by
  have hq : example_detector.p.map_quad ⟨85, 85, false⟩ 1.0
      [⟨10, 10⟩, ⟨40, 10⟩, ⟨40, 40⟩, ⟨10, 40⟩] =
      [⟨95, 95⟩, ⟨125, 95⟩, ⟨125, 125⟩, ⟨95, 125⟩] := by
    norm_num [WeChatQRCode.Impl.map_quad, example_detector, WeChatQRCode.new, Align.warpBack]
  have h := (duplicate_rule_last_admitted example_detector.p ⟨85, 85, false⟩ 1.0).2.1
    ⟨[[65], [65]], [Mat.of_points [⟨95, 95⟩, ⟨125, 95⟩, ⟨125, 125⟩, ⟨95, 125⟩]],
      [] ++ [[⟨95, 95⟩, ⟨125, 95⟩, ⟨125, 125⟩, ⟨95, 125⟩]]⟩ 1
    [⟨10, 10⟩, ⟨40, 10⟩, ⟨40, 40⟩, ⟨10, 40⟩] []
    ⟨95, 95⟩ ⟨125, 95⟩ ⟨125, 125⟩ ⟨95, 125⟩ ⟨95, 95⟩ ⟨125, 95⟩ ⟨125, 125⟩ ⟨95, 125⟩ rfl hq
  exact ⟨(duplicate_rule_last_admitted example_detector.p ⟨85, 85, false⟩ 1.0).1
      ⟨[[65], [65]], [], []⟩ 0 [⟨10, 10⟩, ⟨40, 10⟩, ⟨40, 40⟩, ⟨10, 40⟩] rfl,
    h.2.1 (h.1.mpr (by norm_num [WeChatQRCode.Impl.corner_near]))⟩
/-! ## Lengths of the text list and of the quad list -/

/-- Evaluation of `Impl::decode` for C30: in a 400 x 400 image one candidate decodes the
same symbol three times, with texts `A`, `B`, `C`, so that the symbol loop starts with the
texts `A`, `B`, `C` at the crop origin `(85, 85)` and the scale `1.0`. The first symbol is
admitted, the second is rejected and the erase at index 1 leaves the texts `A`, `C`; the
third is rejected too, at the symbol index 2, which is not below the size 2 of the text
list: not every erase of the loop has its index within the text list. -/
theorem second_duplicate_erases_out_of_range :
    example_detector.p.symbol_loop ⟨85, 85, false⟩ 1.0 ⟨[[65], [66], [67]], [], []⟩ 0
        [[⟨10, 10⟩, ⟨40, 10⟩, ⟨40, 40⟩, ⟨10, 40⟩], [⟨10, 10⟩, ⟨40, 10⟩, ⟨40, 40⟩, ⟨10, 40⟩]] =
      ⟨[[65], [67]], [Mat.of_points [⟨95, 95⟩, ⟨125, 95⟩, ⟨125, 125⟩, ⟨95, 125⟩]],
        [[⟨95, 95⟩, ⟨125, 95⟩, ⟨125, 125⟩, ⟨95, 125⟩]]⟩ ∧
      WeChatQRCode.Impl.isDuplicate [[⟨95, 95⟩, ⟨125, 95⟩, ⟨125, 125⟩, ⟨95, 125⟩]]
        (example_detector.p.map_quad ⟨85, 85, false⟩ 1.0
          [⟨10, 10⟩, ⟨40, 10⟩, ⟨40, 40⟩, ⟨10, 40⟩]) = true ∧
      ¬ (2 < (example_detector.p.symbol_loop ⟨85, 85, false⟩ 1.0
        ⟨[[65], [66], [67]], [], []⟩ 0
        [[⟨10, 10⟩, ⟨40, 10⟩, ⟨40, 40⟩, ⟨10, 40⟩],
          [⟨10, 10⟩, ⟨40, 10⟩, ⟨40, 40⟩, ⟨10, 40⟩]]).decode_results.length) ∧
      example_detector.p.erase_in_range ⟨85, 85, false⟩ 1.0 ⟨[[65], [66], [67]], [], []⟩ 0
        [[⟨10, 10⟩, ⟨40, 10⟩, ⟨40, 40⟩, ⟨10, 40⟩], [⟨10, 10⟩, ⟨40, 10⟩, ⟨40, 40⟩, ⟨10, 40⟩],
          [⟨10, 10⟩, ⟨40, 10⟩, ⟨40, 40⟩, ⟨10, 40⟩]] = false := by
  have hq : example_detector.p.map_quad ⟨85, 85, false⟩ 1.0
      [⟨10, 10⟩, ⟨40, 10⟩, ⟨40, 40⟩, ⟨10, 40⟩] =
      [⟨95, 95⟩, ⟨125, 95⟩, ⟨125, 125⟩, ⟨95, 125⟩] := by
    norm_num [WeChatQRCode.Impl.map_quad, example_detector, WeChatQRCode.new, Align.warpBack]
  have hd0 : ∀ q, WeChatQRCode.Impl.isDuplicate [] q = false := fun _ => rfl
  have hd1 : WeChatQRCode.Impl.isDuplicate [[⟨95, 95⟩, ⟨125, 95⟩, ⟨125, 125⟩, ⟨95, 125⟩]]
      [⟨95, 95⟩, ⟨125, 95⟩, ⟨125, 125⟩, ⟨95, 125⟩] = true := by
    norm_num [WeChatQRCode.Impl.isDuplicate, WeChatQRCode.Impl.corner_loop]
  have hloop2 : example_detector.p.symbol_loop ⟨85, 85, false⟩ 1.0
      ⟨[[65], [66], [67]], [], []⟩ 0
      [[⟨10, 10⟩, ⟨40, 10⟩, ⟨40, 40⟩, ⟨10, 40⟩], [⟨10, 10⟩, ⟨40, 10⟩, ⟨40, 40⟩, ⟨10, 40⟩]] =
      ⟨[[65], [67]], [Mat.of_points [⟨95, 95⟩, ⟨125, 95⟩, ⟨125, 125⟩, ⟨95, 125⟩]],
        [[⟨95, 95⟩, ⟨125, 95⟩, ⟨125, 125⟩, ⟨95, 125⟩]]⟩ := by
    rw [WeChatQRCode.Impl.symbol_loop, symbol_step_eq, hq]
    simp only [hd0, if_true, List.nil_append]
    rw [WeChatQRCode.Impl.symbol_loop, symbol_step_eq, hq]
    simp only [hd1, Bool.true_eq_false, if_false]
    rw [WeChatQRCode.Impl.symbol_loop]
    rfl
  refine ⟨hloop2, by rw [hq]; exact hd1, by rw [hloop2]; decide, ?_⟩
  rw [WeChatQRCode.Impl.erase_in_range, hq]
  simp only [hd0, if_true]
  rw [symbol_step_eq, hq]
  simp only [hd0, if_true, List.nil_append]
  rw [WeChatQRCode.Impl.erase_in_range, hq]
  simp only [hd1, Bool.true_eq_false, if_false]
  rw [if_pos (by decide), symbol_step_eq, hq]
  simp only [hd1, Bool.true_eq_false, if_false]
  rw [WeChatQRCode.Impl.erase_in_range, hq]
  simp only [hd1, Bool.true_eq_false, if_false]
  rw [if_neg (by decide)]

/-! ## The output size of `processImageScale` -/

/-- An integer is rounded to itself. -/
theorem round_half_even_intCast (n : Int) : round_half_even (n : ℚ) = n := by
  unfold round_half_even
  rw [Int.floor_intCast]
  simp

/-- The rounding of a non-negative rational is non-negative. -/
theorem round_half_even_nonneg (y : ℚ) (h : 0 ≤ y) : 0 ≤ round_half_even y := by
  have hf : 0 ≤ ⌊y⌋ := Int.floor_nonneg.2 h
  unfold round_half_even
  split_ifs <;> omega

/-- The binary logarithm of a rational between `2^e` and `2^(e+1)`. -/
theorem log_two_eq (x : ℚ) (e : Int) (h1 : (2 : ℚ) ^ e ≤ x) (h2 : x < (2 : ℚ) ^ (e + 1)) :
    Int.log 2 x = e := by
  have hx : 0 < x := lt_of_lt_of_le (by positivity) h1
  have a := (Int.zpow_le_iff_le_log (b := 2) (by norm_num) (x := e) hx).1 (by exact_mod_cast h1)
  have b := (Int.lt_zpow_iff_log_lt (b := 2) (by norm_num) (x := e + 1) hx).1
    (by exact_mod_cast h2)
  omega

/-- A value `m * 2^k` with a significand `m` of at most 24 bits and an exponent `k` in the
range of the format is a `float` value: rounding leaves it as it is. -/
theorem float_round_exact (m k : Int) (hm : |m| < 2 ^ 24) (hk : -149 ≤ k) :
    float_round ((m : ℚ) * 2 ^ k) = (m : ℚ) * 2 ^ k := by
  by_cases hm0 : m = 0
  · subst hm0
    simp [float_round, round_half_even]
  have hx : (0 : ℚ) < |(m : ℚ) * 2 ^ k| := by
    apply abs_pos.2
    have : (m : ℚ) ≠ 0 := by exact_mod_cast hm0
    positivity
  have hlt : |(m : ℚ) * 2 ^ k| < (2 : ℚ) ^ (24 + k) := by
    rw [abs_mul, abs_of_pos (by positivity : (0 : ℚ) < 2 ^ k), zpow_add₀ (by norm_num)]
    have : |(m : ℚ)| < 2 ^ 24 := by exact_mod_cast hm
    have h2 : (0 : ℚ) < 2 ^ k := by positivity
    have := mul_lt_mul_of_pos_right this h2
    rw [show ((24 : Int)) = ((24 : ℕ) : Int) from rfl, zpow_natCast]
    exact this
  have hlog : Int.log 2 |(m : ℚ) * 2 ^ k| < 24 + k :=
    (Int.lt_zpow_iff_log_lt (b := 2) (by norm_num) hx).1 (by exact_mod_cast hlt)
  have hE : float_exponent ((m : ℚ) * 2 ^ k) - 23 ≤ k := by
    unfold float_exponent
    rcases max_cases (Int.log 2 |(m : ℚ) * 2 ^ k|) (-126) with h | h <;> omega
  obtain ⟨d, hd⟩ : ∃ d : ℕ, k = (float_exponent ((m : ℚ) * 2 ^ k) - 23) + d :=
    ⟨(k - (float_exponent ((m : ℚ) * 2 ^ k) - 23)).toNat, by omega⟩
  unfold float_round
  generalize float_exponent ((m : ℚ) * 2 ^ k) - 23 = q at hd
  have hdiv : (m : ℚ) * 2 ^ k / 2 ^ q = ((m * 2 ^ d : Int) : ℚ) := by
    rw [hd, zpow_add₀ (by norm_num)]
    have : (2 : ℚ) ^ q ≠ 0 := by positivity
    field_simp
    ring
  rw [hdiv, round_half_even_intCast, hd, zpow_add₀ (by norm_num)]
  push_cast
  rw [zpow_natCast]
  ring

/-- The rounding of a non-negative rational is non-negative. -/
theorem float_round_nonneg (x : ℚ) (h : 0 ≤ x) : 0 ≤ float_round x := by
  unfold float_round
  have hq : (0 : ℚ) < 2 ^ (float_exponent x - 23) := by positivity
  have hr := round_half_even_nonneg (x / 2 ^ (float_exponent x - 23)) (div_nonneg h hq.le)
  have : (0 : ℚ) ≤ (round_half_even (x / 2 ^ (float_exponent x - 23)) : ℚ) := by
    exact_mod_cast hr
  positivity

/-- An integer below a rational is at most its rounding. -/
theorem le_round_half_even (y : ℚ) (m : Int) (h : (m : ℚ) ≤ y) : m ≤ round_half_even y := by
  have hf : m ≤ ⌊y⌋ := Int.le_floor.2 h
  unfold round_half_even
  split_ifs <;> omega

/-- An integer above a rational is at least its rounding. -/
theorem round_half_even_le (y : ℚ) (m : Int) (h : y ≤ (m : ℚ)) : round_half_even y ≤ m := by
  have hf : ⌊y⌋ ≤ m := Int.floor_le_floor h |>.trans (le_of_eq (Int.floor_intCast m))
  have hlt : (1 : ℚ) / 2 ≤ y - ⌊y⌋ → ⌊y⌋ + 1 ≤ m := by
    intro hh
    have h1 : ((⌊y⌋ : Int) : ℚ) < (m : ℚ) := by linarith
    have h2 : ⌊y⌋ < m := by exact_mod_cast h1
    omega
  unfold round_half_even
  split_ifs with a b c
  · exact hf
  · exact hlt b.le
  · exact hf
  · exact hlt (not_lt.1 a)

/-- A `float` result between `0` and `2^24` is rounded to a value between the integers
around it: integers of that range are `float` values. -/
theorem float_round_floor_le (x : ℚ) (h0 : 0 ≤ x) (h1 : x < 2 ^ 24) :
    ((⌊x⌋ : Int) : ℚ) ≤ float_round x ∧ float_round x ≤ ((⌊x⌋ + 1 : Int) : ℚ) := by
  have hE : float_exponent x ≤ 23 := by
    unfold float_exponent
    rcases eq_or_lt_of_le h0 with h | h
    · rw [← h]
      simp
    · have hx : (0 : ℚ) < |x| := abs_pos.2 (ne_of_gt h)
      have hlt : |x| < ((2 : ℕ) : ℚ) ^ (24 : Int) := by
        rw [abs_of_pos h]
        exact_mod_cast h1
      have := (Int.lt_zpow_iff_log_lt (b := 2) (by norm_num) hx).1 hlt
      rcases max_cases (Int.log 2 |x|) (-126) with h | h <;> omega
  obtain ⟨j, hj⟩ : ∃ j : ℕ, float_exponent x - 23 = -(j : Int) :=
    ⟨(23 - float_exponent x).toNat, by omega⟩
  unfold float_round
  rw [hj]
  have hq : (2 : ℚ) ^ (-(j : Int)) = 1 / 2 ^ j := by
    rw [zpow_neg, zpow_natCast, one_div]
  have hp : (0 : ℚ) < 2 ^ j := by positivity
  rw [hq]
  have hy : x / (1 / 2 ^ j) = x * 2 ^ j := by field_simp
  rw [hy]
  have hlo : ((⌊x⌋ * 2 ^ j : Int) : ℚ) ≤ x * 2 ^ j := by
    push_cast
    exact mul_le_mul_of_nonneg_right (Int.floor_le x) hp.le
  have hhi : x * 2 ^ j ≤ (((⌊x⌋ + 1) * 2 ^ j : Int) : ℚ) := by
    push_cast
    exact mul_le_mul_of_nonneg_right (Int.lt_floor_add_one x).le hp.le
  have a := le_round_half_even _ _ hlo
  have b := round_half_even_le _ _ hhi
  have a2 : ((⌊x⌋ * 2 ^ j : Int) : ℚ) ≤ (round_half_even (x * 2 ^ j) : ℚ) := by exact_mod_cast a
  have b2 : (round_half_even (x * 2 ^ j) : ℚ) ≤ (((⌊x⌋ + 1) * 2 ^ j : Int) : ℚ) := by
    exact_mod_cast b
  push_cast at a2 b2 ⊢
  constructor
  · rw [mul_one_div, le_div_iff₀ hp]
    exact a2
  · rw [mul_one_div, div_le_iff₀ hp]
    exact b2

/-- The conversion to `float` of an integer of at most 24 bits is exact. -/
theorem int_to_float_exact (w : Int) (h : |w| < 2 ^ 24) : int_to_float w = (w : ℚ) := by
  have := float_round_exact w 0 h (by norm_num)
  simpa [int_to_float] using this

/-- The `float` product of an integer of at most 24 bits with the scale `2.0` is exact. -/
theorem float_mul_two (w : Int) (h : |w| < 2 ^ 24) :
    float_mul (int_to_float w) 2.0 = ((2 * w : Int) : ℚ) := by
  have := float_round_exact w 1 h (by norm_num)
  have e : (w : ℚ) * 2.0 = (w : ℚ) * 2 ^ (1 : Int) := by norm_num
  rw [int_to_float_exact w h]
  unfold float_mul
  rw [e, this, zpow_one]
  push_cast
  ring

/-- The `float` product of an integer of at most 24 bits with the scale `0.5` is exact. -/
theorem float_mul_half (w : Int) (h : |w| < 2 ^ 24) :
    float_mul (int_to_float w) 0.5 = (w : ℚ) / 2 := by
  have := float_round_exact w (-1) h (by norm_num)
  have e : (w : ℚ) * 0.5 = (w : ℚ) * 2 ^ (-1 : Int) := by norm_num
  rw [int_to_float_exact w h]
  unfold float_mul
  rw [e, this, zpow_neg_one]
  ring

/-- The conversion to `int` of half a non-negative integer is the integer quotient. -/
theorem float_to_int_half (w : Int) (h : 0 ≤ w) : float_to_int ((w : ℚ) / 2) = w / 2 := by
  have h0 : (0 : ℚ) ≤ (w : ℚ) / 2 := by
    have : (0 : ℚ) ≤ (w : ℚ) := by exact_mod_cast h
    positivity
  unfold float_to_int
  rw [if_pos h0]
  rw [Int.floor_eq_iff]
  have h1 : ((w / 2 : Int) : ℚ) * 2 ≤ (w : ℚ) := by
    have : (w / 2) * 2 ≤ w := by omega
    exact_mod_cast this
  have h2 : (w : ℚ) < ((w / 2 : Int) : ℚ) * 2 + 2 := by
    have : w < (w / 2) * 2 + 2 := by omega
    exact_mod_cast this
  constructor <;> linarith

/-- The `float` nearest to `0.7` is `11744051 / 2^24`, and the `float` product of `30` with
it is `21`. -/
theorem float_mul_thirty :
    float_round (7 / 10) = 11744051 / 16777216 ∧
      float_mul (int_to_float 30) (11744051 / 16777216) = 21 := by
  constructor
  · have e : float_exponent (7 / 10) = -1 := by
      unfold float_exponent
      rw [log_two_eq _ (-1) (by norm_num [abs_of_pos]) (by norm_num [abs_of_pos])]
      rfl
    have f : ⌊(7 / 10 : ℚ) / 2 ^ ((-1 : Int) - 23)⌋ = 11744051 := by
      rw [Int.floor_eq_iff]; norm_num [zpow_neg]
    unfold float_round
    rw [e]
    unfold round_half_even
    rw [f]
    norm_num
  · rw [int_to_float_exact 30 (by norm_num [abs_lt])]
    have e : float_exponent (((30 : Int) : ℚ) * (11744051 / 16777216)) = 4 := by
      unfold float_exponent
      rw [log_two_eq _ 4 (by norm_num [abs_of_pos]) (by norm_num [abs_of_pos])]
      rfl
    have f : ⌊((30 : Int) : ℚ) * (11744051 / 16777216) / 2 ^ ((4 : Int) - 23)⌋ = 11010047 := by
      rw [Int.floor_eq_iff]; norm_num [zpow_neg]
    unfold float_mul float_round
    rw [e]
    unfold round_half_even
    rw [f]
    norm_num

/-- Counterexample to C25 as stated: for a 30 x 30 image and the scale `0.7f`, the `float`
nearest to `0.7`, which is positive and below `1.0`, `processImageScale` returns an image of
21 columns and 21 rows, the `float` product `30 * 0.7f` being `21`, whereas the floor of
the product of `30` and the scale is `20`. -/
theorem processImageScale_rounds_product :
    float_round (7 / 10) = 11744051 / 16777216 ∧
      (0 : float) < 11744051 / 16777216 ∧ (11744051 / 16777216 : float) < 1.0 ∧
      (example_detector.p.super_resolution_model_.processImageScale example_library
        (Mat.blank 30 30) (11744051 / 16777216) false 160).cols = 21 ∧
      (example_detector.p.super_resolution_model_.processImageScale example_library
        (Mat.blank 30 30) (11744051 / 16777216) false 160).rows = 21 ∧
      ⌊(((Mat.blank 30 30).cols : Int) : float) * (11744051 / 16777216)⌋ = 20 ∧
      ⌊(((Mat.blank 30 30).rows : Int) : float) * (11744051 / 16777216)⌋ = 20 := by
  have e : float_to_int (21 : float) = 21 := float_to_int_intCast 21
  have h1 : ¬ ((11744051 / 16777216 : float) = 1.0) := by norm_num
  have h2 : ¬ ((11744051 / 16777216 : float) = 2.0) := by norm_num
  have h3 : (11744051 / 16777216 : float) < 1.0 := by norm_num
  refine ⟨float_mul_thirty.1, by norm_num, h3, ?_, ?_, ?_, ?_⟩
  · unfold SuperScale.processImageScale
    rw [if_neg h1]
    simp only [if_neg h2, if_pos h3, Mat.blank, float_mul_thirty.2, e]
  · unfold SuperScale.processImageScale
    rw [if_neg h1]
    simp only [if_neg h2, if_pos h3, Mat.blank, float_mul_thirty.2, e]
  · norm_num [Mat.blank, Int.floor_eq_iff]
  · norm_num [Mat.blank, Int.floor_eq_iff]

/-- C25 (amended): `processImageScale` returns the input image when `scale == 1.0`; when
`scale == 2.0` and the neural path is not taken (`use_sr` false, or the integer part of
`sqrt(w * h)` not below `sr_max_size`, or the model not loaded) it returns, for `w` and `h`
below `2^24`, the bicubic resampling to exactly `(2w, 2h)`, the integer part of a
non-negative `sqrt(w * h)` being below `sr_max_size` exactly when `sqrt(w * h)` is; when
`scale < 1.0` it returns the bilinear resampling to the size `((int)(w * scale),
(int)(h * scale))`, where the product is computed in `float`, that is rounded to the
nearest `float`, and the conversion truncates toward zero; for `scale >= 0` and
non-negative `w`, `h` this size is the floor of the rounded product, which for `w`, `h`
below `2^24` is `floor(w * scale)` or `floor(w * scale) + 1`, and `floor(w * scale)` when
the product `w * scale` is itself a `float` value; it is `(w / 2, h / 2)` for the scale
`0.5` and `w`, `h` below `2^24`, the quotient being exact for even `w`, `h`. -/
theorem processImageScale_sizes (self : SuperScale) (lib : Library) (src : Mat Nat)
    (scale : float) (use_sr : Bool) (sr_max_size : Int) :
    (scale = 1.0 → self.processImageScale lib src scale use_sr sr_max_size = src) ∧
      (scale = 2.0 →
        ¬ (use_sr = true ∧
            float_to_int (lib.sqrt (((src.cols * src.rows : Int) : float) * 1.0)) < sr_max_size ∧
            self.net_loaded_ = true) →
        |src.cols| < 2 ^ 24 → |src.rows| < 2 ^ 24 →
        self.processImageScale lib src scale use_sr sr_max_size =
          ⟨2 * src.rows, 2 * src.cols, 1, lib.resize_bicubic src (2 * src.cols) (2 * src.rows)⟩) ∧
      (0 ≤ lib.sqrt (((src.cols * src.rows : Int) : float) * 1.0) →
        (float_to_int (lib.sqrt (((src.cols * src.rows : Int) : float) * 1.0)) < sr_max_size ↔
          lib.sqrt (((src.cols * src.rows : Int) : float) * 1.0) < (sr_max_size : float))) ∧
      (scale < 1.0 →
        self.processImageScale lib src scale use_sr sr_max_size =
          ⟨float_to_int (float_mul (int_to_float src.rows) scale),
            float_to_int (float_mul (int_to_float src.cols) scale), 1,
            lib.resize_bilinear_c1 src (float_to_int (float_mul (int_to_float src.cols) scale))
              (float_to_int (float_mul (int_to_float src.rows) scale))⟩) ∧
      (scale < 1.0 → 0 ≤ scale → 0 ≤ src.cols → 0 ≤ src.rows →
        (self.processImageScale lib src scale use_sr sr_max_size).cols =
            ⌊float_mul (int_to_float src.cols) scale⌋ ∧
          (self.processImageScale lib src scale use_sr sr_max_size).rows =
            ⌊float_mul (int_to_float src.rows) scale⌋) ∧
      (scale < 1.0 → 0 ≤ scale → 0 ≤ src.cols → src.cols < 2 ^ 24 →
        (self.processImageScale lib src scale use_sr sr_max_size).cols =
            ⌊(src.cols : float) * scale⌋ ∨
          (self.processImageScale lib src scale use_sr sr_max_size).cols =
            ⌊(src.cols : float) * scale⌋ + 1) ∧
      (scale < 1.0 → 0 ≤ scale → 0 ≤ src.rows → src.rows < 2 ^ 24 →
        (self.processImageScale lib src scale use_sr sr_max_size).rows =
            ⌊(src.rows : float) * scale⌋ ∨
          (self.processImageScale lib src scale use_sr sr_max_size).rows =
            ⌊(src.rows : float) * scale⌋ + 1) ∧
      (scale < 1.0 → 0 ≤ scale → 0 ≤ src.cols → src.cols < 2 ^ 24 →
        float_round ((src.cols : float) * scale) = (src.cols : float) * scale →
        (self.processImageScale lib src scale use_sr sr_max_size).cols =
          ⌊(src.cols : float) * scale⌋) ∧
      (scale < 1.0 → 0 ≤ scale → 0 ≤ src.rows → src.rows < 2 ^ 24 →
        float_round ((src.rows : float) * scale) = (src.rows : float) * scale →
        (self.processImageScale lib src scale use_sr sr_max_size).rows =
          ⌊(src.rows : float) * scale⌋) ∧
      (scale = 0.5 → 0 ≤ src.cols → src.cols < 2 ^ 24 → 0 ≤ src.rows → src.rows < 2 ^ 24 →
        ((self.processImageScale lib src scale use_sr sr_max_size).cols = src.cols / 2 ∧
          (self.processImageScale lib src scale use_sr sr_max_size).rows = src.rows / 2) ∧
        (src.cols % 2 = 0 →
          2 * (self.processImageScale lib src scale use_sr sr_max_size).cols = src.cols) ∧
        (src.rows % 2 = 0 →
          2 * (self.processImageScale lib src scale use_sr sr_max_size).rows = src.rows)) := by
  have hlt : ∀ s : float, s < 1.0 →
      self.processImageScale lib src s use_sr sr_max_size =
        ⟨float_to_int (float_mul (int_to_float src.rows) s),
          float_to_int (float_mul (int_to_float src.cols) s), 1,
          lib.resize_bilinear_c1 src (float_to_int (float_mul (int_to_float src.cols) s))
            (float_to_int (float_mul (int_to_float src.rows) s))⟩ := by
    intro s hs
    have h1 : ¬ s = 1.0 := ne_of_lt hs
    have h2 : ¬ s = 2.0 := by
      intro h
      rw [h] at hs
      norm_num at hs
    unfold SuperScale.processImageScale
    rw [if_neg h1]
    simp only [if_neg h2, if_pos hs]
  have habs : ∀ w : Int, 0 ≤ w → w < 2 ^ 24 → |w| < 2 ^ 24 := by
    intro w h0 h1
    rw [abs_of_nonneg h0]
    exact h1
  have hfloor : ∀ w : Int, 0 ≤ w → 0 ≤ scale →
      float_to_int (float_mul (int_to_float w) scale) = ⌊float_mul (int_to_float w) scale⌋ := by
    intro w hw h0
    have hi : (0 : ℚ) ≤ int_to_float w := float_round_nonneg _ (by exact_mod_cast hw)
    have hp : (0 : ℚ) ≤ float_mul (int_to_float w) scale :=
      float_round_nonneg _ (mul_nonneg hi h0)
    unfold float_to_int
    rw [if_pos hp]
  have hnear : ∀ w : Int, 0 ≤ w → w < 2 ^ 24 → scale < 1.0 → 0 ≤ scale →
      float_to_int (float_mul (int_to_float w) scale) = ⌊(w : float) * scale⌋ ∨
        float_to_int (float_mul (int_to_float w) scale) = ⌊(w : float) * scale⌋ + 1 := by
    intro w hw hw2 hs h0
    rw [hfloor w hw h0, int_to_float_exact w (habs w hw hw2)]
    have hwq : (0 : ℚ) ≤ (w : ℚ) := by exact_mod_cast hw
    have hw2q : (w : ℚ) < 2 ^ 24 := by exact_mod_cast hw2
    have hs1 : scale < 1 := by
      have : (1.0 : float) = 1 := by norm_num
      rw [this] at hs
      exact hs
    have hx0 : (0 : ℚ) ≤ (w : ℚ) * scale := mul_nonneg hwq h0
    have hx1 : (w : ℚ) * scale < 2 ^ 24 :=
      lt_of_le_of_lt (mul_le_of_le_one_right hwq hs1.le) hw2q
    obtain ⟨a, b⟩ := float_round_floor_le _ hx0 hx1
    have a2 : ⌊(w : ℚ) * scale⌋ ≤ ⌊float_round ((w : ℚ) * scale)⌋ := Int.le_floor.2 a
    have b2 : ⌊float_round ((w : ℚ) * scale)⌋ ≤ ⌊(w : ℚ) * scale⌋ + 1 := by
      have := Int.floor_le_floor b
      rwa [Int.floor_intCast] at this
    unfold float_mul
    omega
  refine ⟨?_, ?_, ?_, hlt scale, ?_, ?_, ?_, ?_, ?_, ?_⟩
  · intro h
    unfold SuperScale.processImageScale
    rw [if_pos h]
  · intro h hn hc hr
    have h1 : ¬ scale = 1.0 := by rw [h]; norm_num
    have hn2 : ¬ ((use_sr = true) ∧
        float_to_int (lib.sqrt (((src.cols * src.rows : Int) : float) * 1.0)) < sr_max_size ∧
        (self.net_loaded_ = true)) := hn
    unfold SuperScale.processImageScale
    rw [if_neg h1]
    simp only [if_pos h, if_neg hn2]
    rw [h, float_mul_two _ hc, float_mul_two _ hr, float_to_int_intCast, float_to_int_intCast]
  · intro h0
    unfold float_to_int
    rw [if_pos h0]
    exact Int.floor_lt
  · intro hs h0 hc hr
    rw [hlt scale hs]
    exact ⟨hfloor _ hc h0, hfloor _ hr h0⟩
  · intro hs h0 hc hc2
    rw [hlt scale hs]
    exact hnear _ hc hc2 hs h0
  · intro hs h0 hr hr2
    rw [hlt scale hs]
    exact hnear _ hr hr2 hs h0
  · intro hs h0 hc hc2 hex
    rw [hlt scale hs]
    show float_to_int (float_mul (int_to_float src.cols) scale) = _
    rw [hfloor _ hc h0, int_to_float_exact src.cols (habs _ hc hc2)]
    unfold float_mul
    rw [hex]
  · intro hs h0 hr hr2 hex
    rw [hlt scale hs]
    show float_to_int (float_mul (int_to_float src.rows) scale) = _
    rw [hfloor _ hr h0, int_to_float_exact src.rows (habs _ hr hr2)]
    unfold float_mul
    rw [hex]
  · intro h hc hc2 hr hr2
    have hs : scale < 1.0 := by rw [h]; norm_num
    rw [hlt scale hs, h]
    simp only []
    rw [float_mul_half _ (habs _ hc hc2), float_mul_half _ (habs _ hr hr2),
      float_to_int_half _ hc, float_to_int_half _ hr]
    refine ⟨⟨rfl, rfl⟩, fun he => ?_, fun he => ?_⟩ <;> omega

/-- Witness of C25 (amended): a 130 x 130 image at the scale `2.0` without the model gives
the bicubic resampling to 260 x 260, and at the scale `0.5` an image of 65 columns. -/
theorem processImageScale_sizes_witness :
    example_detector.p.super_resolution_model_.processImageScale example_library
        (Mat.blank 130 130) 2.0 false 160 =
      ⟨2 * (Mat.blank 130 130).rows, 2 * (Mat.blank 130 130).cols, 1,
        example_library.resize_bicubic (Mat.blank 130 130) (2 * (Mat.blank 130 130).cols)
          (2 * (Mat.blank 130 130).rows)⟩ ∧
      (example_detector.p.super_resolution_model_.processImageScale example_library
        (Mat.blank 130 130) 0.5 false 160).cols = (Mat.blank 130 130).cols / 2 :=
  ⟨(processImageScale_sizes example_detector.p.super_resolution_model_ example_library
      (Mat.blank 130 130) 2.0 false 160).2.1 rfl (by simp)
      (by norm_num [Mat.blank, abs_lt]) (by norm_num [Mat.blank, abs_lt]),
   ((processImageScale_sizes example_detector.p.super_resolution_model_ example_library
      (Mat.blank 130 130) 0.5 false 160).2.2.2.2.2.2.2.2.2 rfl (by norm_num [Mat.blank])
      (by norm_num [Mat.blank]) (by norm_num [Mat.blank]) (by norm_num [Mat.blank])).1.1⟩

/-! ## Lemmas on the Gaussian blur -/

/-- A left fold adding the values of `f` over `0, ..., n - 1` is the sum of these values. -/
theorem range_foldl_add (f : Nat → double) (n : Nat) (a : double) :
    (List.range n).foldl (fun acc x => acc + f x) a = a + ∑ x in Finset.range n, f x := by
  induction n with
  | zero => simp
  | succ n ih =>
    rw [List.range_succ, List.foldl_append, ih, Finset.sum_range_succ]
    simp [add_assoc]

/-- The truncating division by 2 of a natural number. -/
theorem tdiv_two_natCast (K : Nat) : Int.tdiv (K : Int) 2 = ((K / 2 : Nat) : Int) := by
  rw [Int.tdiv_eq_ediv (by omega) (by norm_num)]
  norm_cast

/-- The convolution `convolve1D` as a sum over the kernel, for a signal of `n` values and a
kernel of `K` values. -/
theorem convolve1D_eq_sum (signal kernel : Nat → double) (n K i : Nat) :
    convolve1D signal (n : Int) kernel (K : Int) i =
      ∑ j in Finset.range K,
        (if i + j < K / 2 then signal 0
          else if i + j < K / 2 + n then signal (i + j - K / 2) else signal (n - 1)) *
          kernel j := by
  unfold convolve1D
  simp only [tdiv_two_natCast, Int.toNat_ofNat]
  rw [range_foldl_add]
  have z : (0.0 : double) = 0 := by norm_num
  rw [z, zero_add]
  apply Finset.sum_congr rfl
  intro j _
  have e1 : (((i + j : Nat) : Int) < ((K / 2 : Nat) : Int)) ↔ i + j < K / 2 := by omega
  have e2 : (((i + j : Nat) : Int) < ((K / 2 : Nat) : Int) + (n : Int)) ↔ i + j < K / 2 + n := by
    omega
  have e3 : ((n : Int) - 1).toNat = n - 1 := by omega
  simp only [e1, e2, e3]

/-- The Gaussian kernel of `K` values: the value at `x` and the normalising sum. -/
theorem generateGaussianKernel_eq (exp : double → double) (K x : Nat) :
    generateGaussianKernel exp (K : Int) x =
      exp (-0.5 * ((((x : Int) - ((K / 2 : Nat) : Int) : Int) : double) /
          (if 0.3 * (((((K : Int) - 1 : Int) : double) / 2.0) - 1) + 0.8 < (0.1 : double) then 0.1
            else 0.3 * (((((K : Int) - 1 : Int) : double) / 2.0) - 1) + 0.8)) ^ 2) /
        ∑ y in Finset.range K,
          exp (-0.5 * ((((y : Int) - ((K / 2 : Nat) : Int) : Int) : double) /
            (if 0.3 * (((((K : Int) - 1 : Int) : double) / 2.0) - 1) + 0.8 < (0.1 : double) then 0.1
              else 0.3 * (((((K : Int) - 1 : Int) : double) / 2.0) - 1) + 0.8)) ^ 2) := by
  unfold generateGaussianKernel
  simp only [tdiv_two_natCast, Int.toNat_ofNat]
  rw [range_foldl_add]
  have z : (0.0 : double) = 0 := by norm_num
  rw [z, zero_add]

/-- The normalised Gaussian kernel sums to 1 when `exp` takes positive values. -/
theorem kernel_sum_eq_one (exp : double → double) (hexp : ∀ x, 0 < exp x) (K : Nat)
    (hK : 0 < K) : ∑ j in Finset.range K, generateGaussianKernel exp (K : Int) j = 1 := by
  simp only [generateGaussianKernel_eq]
  rw [← Finset.sum_div]
  apply div_self
  apply ne_of_gt
  apply Finset.sum_pos
  · intro y _
    exact hexp _
  · exact Finset.nonempty_range_iff.mpr (by omega)

/-- The Gaussian kernel of an odd number `K` of values is symmetric about its centre. -/
theorem kernel_symm (exp : double → double) (K : Nat) (hodd : K % 2 = 1) (j : Nat)
    (hj : j < K) :
    generateGaussianKernel exp (K : Int) (K - 1 - j) = generateGaussianKernel exp (K : Int) j := by
  rw [generateGaussianKernel_eq, generateGaussianKernel_eq]
  have e : ((((K - 1 - j : Nat) : Int) - ((K / 2 : Nat) : Int) : Int) : double) =
      -((((j : Int) - ((K / 2 : Nat) : Int) : Int) : double)) := by
    have : (((K - 1 - j : Nat) : Int) - ((K / 2 : Nat) : Int) : Int) =
        -(((j : Int) - ((K / 2 : Nat) : Int) : Int)) := by omega
    rw [this]
    push_cast
    ring
  rw [e, neg_div, neg_sq]

/-- The convolution of a signal that is constant on its `n` values with a kernel of sum 1
is that constant. -/
theorem convolve1D_const (signal kernel : Nat → double) (n K : Nat) (c : double)
    (hn : 0 < n) (hs : ∀ t, t < n → signal t = c)
    (hk : ∑ j in Finset.range K, kernel j = 1) (i : Nat) :
    convolve1D signal (n : Int) kernel (K : Int) i = c := by
  rw [convolve1D_eq_sum]
  have h : ∀ j, (if i + j < K / 2 then signal 0
      else if i + j < K / 2 + n then signal (i + j - K / 2) else signal (n - 1)) = c := by
    intro j
    split_ifs with h1 h2
    · exact hs 0 hn
    · exact hs _ (by omega)
    · exact hs _ (by omega)
  simp only [h]
  rw [← Finset.mul_sum, hk, mul_one]

/-- The convolution depends on the `n` values of the signal only. -/
theorem convolve1D_congr (s1 s2 kernel : Nat → double) (n K : Nat) (hn : 0 < n)
    (hs : ∀ t, t < n → s1 t = s2 t) (i : Nat) :
    convolve1D s1 (n : Int) kernel (K : Int) i = convolve1D s2 (n : Int) kernel (K : Int) i := by
  rw [convolve1D_eq_sum, convolve1D_eq_sum]
  apply Finset.sum_congr rfl
  intro j _
  congr 1
  split_ifs with h1 h2
  · exact hs 0 hn
  · exact hs _ (by omega)
  · exact hs _ (by omega)

/-- The convolution of the reversed signal with a symmetric kernel of odd size is the
reversed convolution. -/
theorem convolve1D_reverse (s1 s2 kernel : Nat → double) (n K : Nat) (hn : 0 < n)
    (hodd : K % 2 = 1) (hs : ∀ t, t < n → s2 t = s1 (n - 1 - t))
    (hk : ∀ j, j < K → kernel (K - 1 - j) = kernel j) (i : Nat) (hi : i < n) :
    convolve1D s2 (n : Int) kernel (K : Int) (n - 1 - i) =
      convolve1D s1 (n : Int) kernel (K : Int) i := by
  rw [convolve1D_eq_sum, convolve1D_eq_sum]
  rw [← Finset.sum_range_reflect (fun j => (if i + j < K / 2 then s1 0
      else if i + j < K / 2 + n then s1 (i + j - K / 2) else s1 (n - 1)) * kernel j) K]
  apply Finset.sum_congr rfl
  intro j hj
  rw [Finset.mem_range] at hj
  rw [hk j hj]
  congr 1
  have h0 := hs 0 hn
  have hl := hs (n - 1) (by omega)
  split_ifs with h1 h2 h3 h4 h5 h6 h7 h8 <;> try omega
  · rw [h0, Nat.sub_zero]
  · rw [hs _ (by omega)]; congr 1; omega
  · rw [hl]; congr 1; omega

/-- Row and column of the index `t * W + z` of a row-major buffer of width `W`. -/
theorem index_div_mod (W t z : Nat) (hz : z < W) :
    (t * W + z) / W = t ∧ (t * W + z) % W = z := by
  have hW : 0 < W := by omega
  constructor
  · rw [Nat.add_comm, Nat.add_mul_div_right _ _ hW, Nat.div_eq_of_lt hz, Nat.zero_add]
  · rw [Nat.add_comm, Nat.add_mul_mod_self_right, Nat.mod_eq_of_lt hz]

/-- The index `t * W + z` of a buffer of `H` rows and `W` columns is below `H * W`. -/
theorem index_lt (H W t z : Nat) (ht : t < H) (hz : z < W) : t * W + z < H * W := by
  have h1 : (t + 1) * W ≤ H * W := Nat.mul_le_mul_right W ht
  have h2 : (t + 1) * W = t * W + W := by ring
  omega

/-- Row and column of an index below `H * W`. -/
theorem index_row_col (H W k : Nat) (hk : k < H * W) : k / W < H ∧ k % W < W := by
  have hW : 0 < W := by
    rcases Nat.eq_zero_or_pos W with h | h
    · subst h; simp at hk
    · exact h
  exact ⟨Nat.div_lt_of_lt_mul (by rw [Nat.mul_comm]; exact hk), Nat.mod_lt _ hW⟩

/-- The blur of `gaussianBlur` in terms of natural numbers. -/
theorem gaussianBlur_eq (exp : double → double) (image : Nat → double) (H W K k : Nat) :
    gaussianBlur exp image (H : Int) (W : Int) (K : Int) k =
      convolve1D (fun i => convolve1D (fun j => image ((i * W + k % W) / W * W + j)) (W : Int)
        (generateGaussianKernel exp (K : Int)) (K : Int) ((i * W + k % W) % W)) (H : Int)
        (generateGaussianKernel exp (K : Int)) (K : Int) (k / W) := by
  unfold gaussianBlur
  simp only [Int.toNat_ofNat]

/-- The blur of an image that is constant on its `H * W` pixels is that constant, when
`exp` takes positive values. -/
theorem gaussianBlur_const (exp : double → double) (hexp : ∀ x, 0 < exp x)
    (image : Nat → double) (H W K : Nat) (hH : 0 < H) (hW : 0 < W) (hK : 0 < K) (c : double)
    (hc : ∀ p, p < H * W → image p = c) (k : Nat) :
    gaussianBlur exp image (H : Int) (W : Int) (K : Int) k = c := by
  rw [gaussianBlur_eq]
  have hsum := kernel_sum_eq_one exp hexp K hK
  apply convolve1D_const _ _ H K c hH _ hsum
  intro t ht
  apply convolve1D_const _ _ W K c hW _ hsum
  intro j hj
  have hz : k % W < W := Nat.mod_lt _ hW
  rw [(index_div_mod W t (k % W) hz).1]
  exact hc _ (index_lt H W t j ht hj)

/-- The blur commutes with the inversion of the rows: when `image2` is `image1` with its
rows in the opposite order, the blur of `image2` at row `H - 1 - i` is the blur of `image1`
at row `i`, for a kernel of odd size. -/
theorem gaussianBlur_flip (exp : double → double) (image1 image2 : Nat → double)
    (H W K : Nat) (hodd : K % 2 = 1)
    (hflip : ∀ t z, t < H → z < W → image2 (t * W + z) = image1 ((H - 1 - t) * W + z))
    (i z : Nat) (hi : i < H) (hz : z < W) :
    gaussianBlur exp image2 (H : Int) (W : Int) (K : Int) ((H - 1 - i) * W + z) =
      gaussianBlur exp image1 (H : Int) (W : Int) (K : Int) (i * W + z) := by
  have hW : 0 < W := by omega
  have hH : 0 < H := by omega
  rw [gaussianBlur_eq, gaussianBlur_eq]
  rw [(index_div_mod W (H - 1 - i) z hz).1, (index_div_mod W (H - 1 - i) z hz).2,
    (index_div_mod W i z hz).1, (index_div_mod W i z hz).2]
  apply convolve1D_reverse _ _ _ H K hH hodd _ (kernel_symm exp K hodd) i hi
  intro t ht
  simp only [(index_div_mod W t z hz).1, (index_div_mod W t z hz).2,
    (index_div_mod W (H - 1 - t) z hz).1, (index_div_mod W (H - 1 - t) z hz).2]
  apply convolve1D_congr _ _ _ W K hW
  intro j hj
  exact hflip t j ht hj

/-- The composition of `TransBufferToMat`, `adaptiveThresholdGaussian` and
`TransMatToBuffer` made by `binarizeImage`: the two inversions of the rows cancel, and the
bit at row `i` and column `z` encodes the thresholded value of the pixel at row `i` and
column `z` of the buffer, `0` for the value 255 and `1` for the value 0. -/
theorem adaptive_bits_eq (exp : double → double) (src : Nat → Nat) (H W K : Nat) (C : Int)
    (hodd : K % 2 = 1) (i z : Nat) (hi : i < H) (hz : z < W) :
    TransMatToBuffer ⟨(H : Int), (W : Int), 1, fun r c =>
        adaptiveThresholdGaussian exp
          (fun p => (TransBufferToMat src (W : Int) (H : Int)).data (p / (W : Int).toNat)
            (p % (W : Int).toNat))
          (H : Int) (W : Int) (K : Int) C (r * (W : Int).toNat + c)⟩ (i * W + z) =
      if adaptiveThresholdGaussian exp src (H : Int) (W : Int) (K : Int) C (i * W + z) > 120
        then 0 else 1 := by
  have hg : ∀ t c, t < H → c < W →
      (TransBufferToMat src (W : Int) (H : Int)).data ((t * W + c) / W) ((t * W + c) % W) =
        src ((H - 1 - t) * W + c) := by
    intro t c ht hc
    have e : ((H : Int) - 1 - (t : Int)).toNat = H - 1 - t := by omega
    simp only [TransBufferToMat, Int.toNat_ofNat, (index_div_mod W t c hc).1,
      (index_div_mod W t c hc).2, e]
  have hblur : gaussianBlur exp
      (fun p => (((TransBufferToMat src (W : Int) (H : Int)).data (p / W) (p % W) : Nat) : double))
      (H : Int) (W : Int) (K : Int) ((H - 1 - i) * W + z) =
      gaussianBlur exp (fun p => (src p : double)) (H : Int) (W : Int) (K : Int) (i * W + z) := by
    apply gaussianBlur_flip exp (fun p => (src p : double)) _ H W K hodd _ i z hi hz
    intro t c ht hc
    simp only []
    rw [hg t c ht hc]
  have hpix : (TransBufferToMat src (W : Int) (H : Int)).data (((H - 1 - i) * W + z) / W)
      (((H - 1 - i) * W + z) % W) = src (i * W + z) := by
    rw [hg (H - 1 - i) z (by omega) hz]
    have e2 : H - 1 - (H - 1 - i) = i := by omega
    rw [e2]
  have hval : adaptiveThresholdGaussian exp
      (fun p => (TransBufferToMat src (W : Int) (H : Int)).data (p / W) (p % W))
      (H : Int) (W : Int) (K : Int) C ((H - 1 - i) * W + z) =
      adaptiveThresholdGaussian exp src (H : Int) (W : Int) (K : Int) C (i * W + z) := by
    unfold adaptiveThresholdGaussian
    simp only [hblur, hpix]
  have e3 : ((H : Int) - ((i : Nat) : Int) - 1).toNat = H - 1 - i := by omega
  unfold TransMatToBuffer
  simp only [Int.toNat_ofNat, (index_div_mod W i z hz).1, (index_div_mod W i z hz).2, e3]
  simp only [hval]

/-- The thresholded value of `adaptiveThresholdGaussian` on an image constant on its
`H * W` pixels is 255 at each of them, for a non-negative `C` and positive values of
`exp`. -/
theorem adaptiveThreshold_const (exp : double → double) (hexp : ∀ x, 0 < exp x)
    (src : Nat → Nat) (H W K : Nat) (hH : 0 < H) (hW : 0 < W) (hK : 0 < K) (C : Int)
    (hC : 0 < C) (v : Nat) (hv : ∀ p, p < H * W → src p = v) (k : Nat) (hk : k < H * W) :
    adaptiveThresholdGaussian exp src (H : Int) (W : Int) (K : Int) C k = 255 := by
  unfold adaptiveThresholdGaussian
  simp only []
  rw [gaussianBlur_const exp hexp _ H W K hH hW hK (v : double)
    (fun p hp => by rw [hv p hp]) k, hv k hk]
  have : ((v : Nat) : double) > (v : double) - (C : double) := by
    have : (0 : double) < (C : double) := by exact_mod_cast hC
    linarith
  rw [if_pos this]

/-- The adaptive branch of `binarizeImage` for a width of at least 30 and a height of at
least 25, when the constructor of the bit matrix sets no error. -/
theorem binarizeImage_adaptive (lib : BinarizerLibrary) (self : AdaptiveThresholdMeanBinarizer)
    (err : Int) (hw : 30 ≤ self.width) (hh : 25 ≤ self.height)
    (hnew : lib.BitMatrix_new self.width self.height err = 0) :
    self.binarizeImage lib err =
      (0, ⟨self.width, self.height, self.source, some ⟨self.width, self.height,
        TransMatToBuffer ⟨self.height, self.width, 1, fun r c =>
          adaptiveThresholdGaussian lib.exp
            (fun p => (TransBufferToMat self.source self.width self.height).data
              (p / self.width.toNat) (p % self.width.toNat))
            self.height self.width (AdaptiveThresholdMeanBinarizer.block_size self.width) Bias
            (r * self.width.toNat + c)⟩⟩⟩, 0) := by
  have hb := block_size_eq self.width (by omega)
  have hm := block_size_tmod self.width (by omega)
  have h2 : self.width ≥ BLOCK_SIZE ∧ self.height ≥ BLOCK_SIZE := by
    unfold BLOCK_SIZE; omega
  have hvalid : ¬ ¬ (Int.tmod (AdaptiveThresholdMeanBinarizer.block_size self.width) 2 = 1 ∧
      AdaptiveThresholdMeanBinarizer.block_size self.width > 1) := by
    rw [hm, hb]; omega
  unfold AdaptiveThresholdMeanBinarizer.binarizeImage
  rw [if_pos h2]
  simp only [hnew, ne_eq, not_true_eq_false, if_false, if_neg hvalid]

/-- The matrix stored by the adaptive branch of `binarizeImage`: `binarizeImage` returns 0
and the bit at row `i` and column `z` of the stored matrix is `0` when the thresholded
value of the pixel at row `i` and column `z` of the luminance buffer is 255, and `1` when
it is 0. -/
theorem binarizeImage_bits (lib : BinarizerLibrary) (self : AdaptiveThresholdMeanBinarizer)
    (err : Int) (hw : 30 ≤ self.width) (hh : 25 ≤ self.height)
    (hnew : lib.BitMatrix_new self.width self.height err = 0) :
    ∃ bits, self.binarizeImage lib err =
        (0, ⟨self.width, self.height, self.source, some ⟨self.width, self.height, bits⟩⟩, 0) ∧
      ∀ i z : Nat, (i : Int) < self.height → (z : Int) < self.width →
        bits (i * self.width.toNat + z) =
          if adaptiveThresholdGaussian lib.exp self.source self.height self.width
              (AdaptiveThresholdMeanBinarizer.block_size self.width) Bias
              (i * self.width.toNat + z) > 120 then 0 else 1 := by
  refine ⟨_, binarizeImage_adaptive lib self err hw hh hnew, ?_⟩
  intro i z hi hz
  have hb := block_size_eq self.width (by omega)
  have hodd : (AdaptiveThresholdMeanBinarizer.block_size self.width).toNat % 2 = 1 := by
    rw [hb]; omega
  have h := adaptive_bits_eq lib.exp self.source self.height.toNat self.width.toNat
    (AdaptiveThresholdMeanBinarizer.block_size self.width).toNat Bias hodd i z (by omega)
    (by omega)
  have e1 : ((self.width.toNat : Nat) : Int) = self.width := Int.toNat_of_nonneg (by omega)
  have e2 : ((self.height.toNat : Nat) : Int) = self.height := Int.toNat_of_nonneg (by omega)
  have e3 : (((AdaptiveThresholdMeanBinarizer.block_size self.width).toNat : Nat) : Int) =
      AdaptiveThresholdMeanBinarizer.block_size self.width :=
    Int.toNat_of_nonneg (by rw [hb]; omega)
  rw [e1, e2, e3] at h
  exact h

/-- The blur of an image whose rows are constant, row `t` holding the value `r t`: the
vertical convolution of `r`, when `exp` takes positive values. -/
theorem gaussianBlur_rows_const (exp : double → double) (hexp : ∀ x, 0 < exp x)
    (image : Nat → double) (H W K : Nat) (hH : 0 < H) (hW : 0 < W) (hK : 0 < K)
    (r : Nat → double) (hr : ∀ t j, t < H → j < W → image (t * W + j) = r t) (k : Nat) :
    gaussianBlur exp image (H : Int) (W : Int) (K : Int) k =
      convolve1D r (H : Int) (generateGaussianKernel exp (K : Int)) (K : Int) (k / W) := by
  rw [gaussianBlur_eq]
  apply convolve1D_congr _ _ _ H K hH
  intro t ht
  apply convolve1D_const _ _ W K (r t) hW _ (kernel_sum_eq_one exp hexp K hK)
  intro j hj
  have hz : k % W < W := Nat.mod_lt _ hW
  rw [(index_div_mod W t (k % W) hz).1]
  exact hr t j ht hj

/-- The values of `exp` of `example_gaussian_library` are positive. -/
theorem example_gaussian_exp_pos (x : double) : 0 < example_gaussian_library.exp x := by
  have h : (0 : double) < 1 - x + x ^ 2 / 2 := by nlinarith [sq_nonneg (x - 1)]
  exact one_div_pos.mpr h

/-- The Gaussian kernel of size 3 of `example_gaussian_library`. -/
theorem example_gaussian_kernel :
    generateGaussianKernel example_gaussian_library.exp ((3 : Nat) : Int) 0 = 2048 / 8369 ∧
      generateGaussianKernel example_gaussian_library.exp ((3 : Nat) : Int) 1 = 4273 / 8369 ∧
      generateGaussianKernel example_gaussian_library.exp ((3 : Nat) : Int) 2 = 2048 / 8369 := by
  simp only [generateGaussianKernel_eq, Finset.sum_range_succ, Finset.sum_range_zero,
    example_gaussian_library]
  norm_num

/-- The blur of the luminance buffer of `example_dark_row_binarizer` with the kernel of
size 3 of `example_gaussian_library`: the local mean is `255 * 2048 / 8369` (about 62) in
the black first row, `255 * 6321 / 8369` (about 193) in the second row and `255` in the
last two rows. -/
theorem example_dark_row_blur (z : Nat) (hz : z < 30) :
    gaussianBlur example_gaussian_library.exp
        (fun p => (example_dark_row_binarizer.source p : double)) 25 30 3 (0 * 30 + z) =
        255 * (2048 / 8369) ∧
      gaussianBlur example_gaussian_library.exp
        (fun p => (example_dark_row_binarizer.source p : double)) 25 30 3 (1 * 30 + z) =
        255 * (6321 / 8369) ∧
      gaussianBlur example_gaussian_library.exp
        (fun p => (example_dark_row_binarizer.source p : double)) 25 30 3 (23 * 30 + z) =
        255 ∧
      gaussianBlur example_gaussian_library.exp
        (fun p => (example_dark_row_binarizer.source p : double)) 25 30 3 (24 * 30 + z) =
        255 := by
  have hr : ∀ t j, t < 25 → j < 30 →
      (fun p => (example_dark_row_binarizer.source p : double)) (t * 30 + j) =
        (fun t => if t = 0 then (0 : double) else 255) t := by
    intro t j ht hj
    simp only [example_dark_row_binarizer]
    by_cases h0 : t = 0
    · subst h0
      simp [hj]
    · have : ¬ t * 30 + j < 30 := by omega
      simp [h0, this]
  have hblur := gaussianBlur_rows_const example_gaussian_library.exp example_gaussian_exp_pos
    (fun p => (example_dark_row_binarizer.source p : double)) 25 30 3 (by norm_num)
    (by norm_num) (by norm_num) (fun t => if t = 0 then (0 : double) else 255) hr
  obtain ⟨k0, k1, k2⟩ := example_gaussian_kernel
  have e0 : (0 * 30 + z) / 30 = 0 := by omega
  have e1 : (1 * 30 + z) / 30 = 1 := by omega
  have e23 : (23 * 30 + z) / 30 = 23 := by omega
  have e24 : (24 * 30 + z) / 30 = 24 := by omega
  have hb : ∀ k, gaussianBlur example_gaussian_library.exp
      (fun p => (example_dark_row_binarizer.source p : double)) 25 30 3 k =
      convolve1D (fun t => if t = 0 then (0 : double) else 255) ((25 : Nat) : Int)
        (generateGaussianKernel example_gaussian_library.exp ((3 : Nat) : Int)) ((3 : Nat) : Int)
        (k / 30) := by
    intro k
    exact_mod_cast hblur k
  refine ⟨?_, ?_, ?_, ?_⟩
  · rw [hb, e0, convolve1D_eq_sum]
    simp only [Finset.sum_range_succ, Finset.sum_range_zero, k0, k1, k2]
    norm_num
  · rw [hb, e1, convolve1D_eq_sum]
    simp only [Finset.sum_range_succ, Finset.sum_range_zero, k0, k1, k2]
    norm_num
  · rw [hb, e23, convolve1D_eq_sum]
    simp only [Finset.sum_range_succ, Finset.sum_range_zero, k0, k1, k2]
    norm_num
  · rw [hb, e24, convolve1D_eq_sum]
    simp only [Finset.sum_range_succ, Finset.sum_range_zero, k0, k1, k2]
    norm_num

/-! ## Claims on the adaptive threshold -/

/-- The result of `binarizeImage` for a width from 25 to 29 and a height of at least 25:
the block size is 1 and `binarizeImage` returns -1, the binarizer being left as it was. -/
theorem binarizeImage_block_size_one (lib : BinarizerLibrary)
    (self : AdaptiveThresholdMeanBinarizer) (err : Int) (h25 : 25 ≤ self.width)
    (h29 : self.width ≤ 29) (hh : 25 ≤ self.height) :
    self.binarizeImage lib err = (-1, self, lib.BitMatrix_new self.width self.height err) := by
  have hb := block_size_eq self.width (by omega)
  have hone : AdaptiveThresholdMeanBinarizer.block_size self.width = 1 := by
    rw [hb]; omega
  have hinvalid : ¬ (Int.tmod (AdaptiveThresholdMeanBinarizer.block_size self.width) 2 = 1 ∧
      AdaptiveThresholdMeanBinarizer.block_size self.width > 1) := by
    rw [hone]; omega
  have h2 : self.width ≥ BLOCK_SIZE ∧ self.height ≥ BLOCK_SIZE := by
    unfold BLOCK_SIZE; omega
  unfold AdaptiveThresholdMeanBinarizer.binarizeImage
  rw [if_pos h2]
  by_cases hnew : lib.BitMatrix_new self.width self.height err = 0
  · simp only [hnew, ne_eq, not_true_eq_false, if_false, if_pos hinvalid]
  · simp only [ne_eq, hnew, not_false_eq_true, if_true]

/-- Counterexample to C21 as stated: for a source of width 27 and height 30 the block size
is 1, `binarizeImage` returns -1 and stores no matrix, whereas the global histogram method
of the library yields a matrix: there is no fallback to the global method. -/
theorem no_fallback_for_block_size_one :
    AdaptiveThresholdMeanBinarizer.block_size 27 = 1 ∧
      (AdaptiveThresholdMeanBinarizer.binarizeImage example_binarizer_library
        ⟨27, 30, fun _ => 0, none⟩ 0).1 = -1 ∧
      (AdaptiveThresholdMeanBinarizer.binarizeImage example_binarizer_library
        ⟨27, 30, fun _ => 0, none⟩ 0).2.1.matrix0_ = none ∧
      ¬ ((AdaptiveThresholdMeanBinarizer.binarizeImage example_binarizer_library
          ⟨27, 30, fun _ => 0, none⟩ 0).2.1.matrix0_ =
        (example_binarizer_library.GlobalHistogramBinarizer_getBlackMatrix (fun _ => 0) 27 30
          none 0).1) := by
  have h := binarizeImage_block_size_one example_binarizer_library ⟨27, 30, fun _ => 0, none⟩ 0
    (by decide) (by decide) (by decide)
  rw [h]
  refine ⟨by decide, rfl, rfl, ?_⟩
  simp [example_binarizer_library]

/-- C21 (amended): when the block size computed from the width is not a valid odd size
above 1, that is for an image of width from 25 to 29 and height at least 25, the block size
is 1 and `binarizeImage` fails for that path: it returns -1, leaves the binarizer and its
field `matrix0_` as they were, leaves in the error handler what the constructor of the bit
matrix left there, and does not consult the global histogram method (the result is the
same for every global method). -/
theorem block_size_one_returns_failure (lib : BinarizerLibrary)
    (self : AdaptiveThresholdMeanBinarizer) (err : Int) (h25 : 25 ≤ self.width)
    (h29 : self.width ≤ 29) (hh : 25 ≤ self.height) :
    AdaptiveThresholdMeanBinarizer.block_size self.width = 1 ∧
      ¬ (Int.tmod (AdaptiveThresholdMeanBinarizer.block_size self.width) 2 = 1 ∧
        AdaptiveThresholdMeanBinarizer.block_size self.width > 1) ∧
      self.binarizeImage lib err = (-1, self, lib.BitMatrix_new self.width self.height err) ∧
      (self.binarizeImage lib err).2.1.matrix0_ = self.matrix0_ ∧
      ∀ lib2 : BinarizerLibrary, lib2.BitMatrix_new = lib.BitMatrix_new →
        self.binarizeImage lib2 err = self.binarizeImage lib err := by
  have hb := block_size_eq self.width (by omega)
  have hone : AdaptiveThresholdMeanBinarizer.block_size self.width = 1 := by
    rw [hb]; omega
  refine ⟨hone, by rw [hone]; omega, binarizeImage_block_size_one lib self err h25 h29 hh, ?_, ?_⟩
  · rw [binarizeImage_block_size_one lib self err h25 h29 hh]
  · intro lib2 he
    rw [binarizeImage_block_size_one lib self err h25 h29 hh,
      binarizeImage_block_size_one lib2 self err h25 h29 hh, he]

/-- Witness of C21 (amended): a source of width 27 and height 30 with the example library:
`binarizeImage` returns -1 and leaves the binarizer and the error code as they were. -/
theorem block_size_one_returns_failure_witness :
    AdaptiveThresholdMeanBinarizer.binarizeImage example_binarizer_library
        ⟨27, 30, fun _ => 0, none⟩ 0 =
      (-1, ⟨27, 30, fun _ => 0, none⟩, example_binarizer_library.BitMatrix_new 27 30 0) :=
  (block_size_one_returns_failure example_binarizer_library ⟨27, 30, fun _ => 0, none⟩ 0
    (by decide) (by decide) (by decide)).2.2.1

/-- Counterexample to C22 as stated: in a uniform image of 30 columns and 25 rows with
intensity 200 the first pixel has the intermediate value 255, and the bit stored for it by
`binarizeImage` is 0, not 1. -/
theorem threshold_255_encoded_as_bit_zero :
    adaptiveThresholdGaussian example_gaussian_library.exp (fun _ => 200) 25 30 3 10 0 = 255 ∧
      ∃ bits, (AdaptiveThresholdMeanBinarizer.binarizeImage example_gaussian_library
          ⟨30, 25, fun _ => 200, none⟩ 0).2.1.matrix0_ = some ⟨30, 25, bits⟩ ∧
        bits 0 = 0 ∧ ¬ (bits 0 = 1) := by
  have hexp : ∀ x, 0 < example_gaussian_library.exp x := example_gaussian_exp_pos
  have hval : adaptiveThresholdGaussian example_gaussian_library.exp (fun _ => 200) 25 30 3 10
      0 = 255 := by
    have h := adaptiveThreshold_const example_gaussian_library.exp hexp (fun _ => 200) 25 30 3
      (by norm_num) (by norm_num) (by norm_num) 10 (by norm_num) 200 (fun _ _ => rfl) 0
      (by norm_num)
    exact_mod_cast h
  obtain ⟨bits, hb, hbits⟩ := binarizeImage_bits example_gaussian_library
    ⟨30, 25, fun _ => 200, none⟩ 0 (by decide) (by decide) rfl
  have h0 := hbits 0 0 (by decide) (by decide)
  have hbs : AdaptiveThresholdMeanBinarizer.block_size 30 = 3 := by decide
  simp only [hbs, Bias, Nat.zero_mul, Nat.add_zero] at h0
  rw [hval] at h0
  refine ⟨hval, bits, by rw [hb], ?_, ?_⟩
  · rw [h0]; decide
  · rw [h0]; decide

/-- C22 (amended): with the local mean `m` of a pixel taken as the value of the blur at
that pixel, a pixel of intensity `v` gets the intermediate value 255 if and only if
`v > m - 10` (bias 10) and the value 0 otherwise; in the final bit matrix written by
`TransMatToBuffer` a pixel with the intermediate value 255 is encoded as the bit 0 and a
pixel with the intermediate value 0 as the bit 1. -/
theorem threshold_polarity (exp : double → double) (grayImage : Nat → Nat)
    (rows cols kernelSize : Int) (mSrc : Mat Nat) (k : Nat) :
    (adaptiveThresholdGaussian exp grayImage rows cols kernelSize Bias k = 255 ↔
        (grayImage k : double) >
          gaussianBlur exp (fun p => (grayImage p : double)) rows cols kernelSize k - 10) ∧
      (adaptiveThresholdGaussian exp grayImage rows cols kernelSize Bias k = 0 ↔
        ¬ (grayImage k : double) >
          gaussianBlur exp (fun p => (grayImage p : double)) rows cols kernelSize k - 10) ∧
      (mSrc.data (mSrc.rows - ((k / mSrc.cols.toNat : Nat) : Int) - 1).toNat
          (k % mSrc.cols.toNat) = 255 → TransMatToBuffer mSrc k = 0) ∧
      (mSrc.data (mSrc.rows - ((k / mSrc.cols.toNat : Nat) : Int) - 1).toNat
          (k % mSrc.cols.toNat) = 0 → TransMatToBuffer mSrc k = 1) := by
  have hB : ((Bias : Int) : double) = 10 := by norm_num [Bias]
  refine ⟨?_, ?_, ?_, ?_⟩
  · unfold adaptiveThresholdGaussian
    simp only [hB]
    split_ifs with h <;> simp [h]
  · unfold adaptiveThresholdGaussian
    simp only [hB]
    split_ifs with h <;> simp [h]
  · intro h
    unfold TransMatToBuffer
    simp only [h]
    decide
  · intro h
    unfold TransMatToBuffer
    simp only [h]
    decide

/-- Witness of C22 (amended): a matrix of one row and one column holding 255 is written as
the bit 0, one holding 0 as the bit 1. -/
theorem threshold_polarity_witness :
    TransMatToBuffer ⟨1, 1, 1, fun _ _ => 255⟩ 0 = 0 ∧
      TransMatToBuffer ⟨1, 1, 1, fun _ _ => 0⟩ 0 = 1 :=
  ⟨(threshold_polarity (fun _ => 1) (fun _ => 0) 1 1 3 ⟨1, 1, 1, fun _ _ => 255⟩ 0).2.2.1 rfl,
   (threshold_polarity (fun _ => 1) (fun _ => 0) 1 1 3 ⟨1, 1, 1, fun _ _ => 0⟩ 0).2.2.2 rfl⟩

/-- Counterexample to C23 as stated: for the luminance buffer of 30 columns and 25 rows
whose first row is black and whose other rows are white, the bits stored by `binarizeImage`
at rows 0 and 1 are 1 and 0, the encodings of the thresholded values 0 and 255 of the
pixels of rows 0 and 1, whereas the thresholded values of the pixels of rows `25 - 1 - 0`
and `25 - 1 - 1` are both 255: the bit at row 0 is not the encoding of the value at row
`25 - 1 - 0`, and under no encoding of the values are the bits at rows 0 and 1 those of
rows `25 - 1 - 0` and `25 - 1 - 1`. -/
theorem adaptive_bits_not_row_inverted :
    (adaptiveThresholdGaussian example_gaussian_library.exp example_dark_row_binarizer.source
          25 30 3 10 (0 * 30 + 0) = 0 ∧
        adaptiveThresholdGaussian example_gaussian_library.exp example_dark_row_binarizer.source
          25 30 3 10 (1 * 30 + 0) = 255) ∧
      (adaptiveThresholdGaussian example_gaussian_library.exp example_dark_row_binarizer.source
          25 30 3 10 ((25 - 1 - 0) * 30 + 0) = 255 ∧
        adaptiveThresholdGaussian example_gaussian_library.exp example_dark_row_binarizer.source
          25 30 3 10 ((25 - 1 - 1) * 30 + 0) = 255) ∧
      ∃ bits, (example_dark_row_binarizer.binarizeImage example_gaussian_library 0).2.1.matrix0_ =
          some ⟨30, 25, bits⟩ ∧
        (bits (0 * 30 + 0) = 1 ∧ bits (1 * 30 + 0) = 0) ∧
        ¬ (bits (0 * 30 + 0) =
          if adaptiveThresholdGaussian example_gaussian_library.exp
            example_dark_row_binarizer.source 25 30 3 10 ((25 - 1 - 0) * 30 + 0) > 120
          then 0 else 1) ∧
        ¬ ∃ encode : Nat → Nat,
          bits (0 * 30 + 0) = encode (adaptiveThresholdGaussian example_gaussian_library.exp
            example_dark_row_binarizer.source 25 30 3 10 ((25 - 1 - 0) * 30 + 0)) ∧
          bits (1 * 30 + 0) = encode (adaptiveThresholdGaussian example_gaussian_library.exp
            example_dark_row_binarizer.source 25 30 3 10 ((25 - 1 - 1) * 30 + 0)) := by
  obtain ⟨hb0, hb1, hb23, hb24⟩ := example_dark_row_blur 0 (by norm_num)
  have h0 : adaptiveThresholdGaussian example_gaussian_library.exp
      example_dark_row_binarizer.source 25 30 3 10 (0 * 30 + 0) = 0 := by
    unfold adaptiveThresholdGaussian
    simp only [hb0]
    norm_num [example_dark_row_binarizer]
  have h1 : adaptiveThresholdGaussian example_gaussian_library.exp
      example_dark_row_binarizer.source 25 30 3 10 (1 * 30 + 0) = 255 := by
    unfold adaptiveThresholdGaussian
    simp only [hb1]
    norm_num [example_dark_row_binarizer]
  have h23 : adaptiveThresholdGaussian example_gaussian_library.exp
      example_dark_row_binarizer.source 25 30 3 10 ((25 - 1 - 1) * 30 + 0) = 255 := by
    have e : (25 - 1 - 1) * 30 + 0 = 23 * 30 + 0 := by norm_num
    rw [e]
    unfold adaptiveThresholdGaussian
    simp only [hb23]
    norm_num [example_dark_row_binarizer]
  have h24 : adaptiveThresholdGaussian example_gaussian_library.exp
      example_dark_row_binarizer.source 25 30 3 10 ((25 - 1 - 0) * 30 + 0) = 255 := by
    have e : (25 - 1 - 0) * 30 + 0 = 24 * 30 + 0 := by norm_num
    rw [e]
    unfold adaptiveThresholdGaussian
    simp only [hb24]
    norm_num [example_dark_row_binarizer]
  obtain ⟨bits, hb, hbits⟩ := binarizeImage_bits example_gaussian_library
    example_dark_row_binarizer 0 (by decide) (by decide) rfl
  have hbit0 := hbits 0 0 (by decide) (by decide)
  have hbit1 := hbits 1 0 (by decide) (by decide)
  have hbs : AdaptiveThresholdMeanBinarizer.block_size 30 = 3 := by decide
  have hw : example_dark_row_binarizer.width = 30 := rfl
  have hh : example_dark_row_binarizer.height = 25 := rfl
  have ht : (30 : Int).toNat = 30 := rfl
  simp only [hw, hh, ht, hbs, Bias] at hbit0 hbit1
  rw [h0] at hbit0
  rw [h1] at hbit1
  have hv0 : bits (0 * 30 + 0) = 1 := by rw [hbit0]; decide
  have hv1 : bits (1 * 30 + 0) = 0 := by rw [hbit1]; decide
  refine ⟨⟨h0, h1⟩, ⟨h24, h23⟩, bits, by rw [hb]; rfl, ⟨hv0, hv1⟩, ?_, ?_⟩
  · rw [hv0, h24]; decide
  · rintro ⟨encode, e0, e1⟩
    rw [hv0, h24] at e0
    rw [hv1, h23] at e1
    rw [← e0] at e1
    cases e1

/-- C23 (amended): the output of the adaptive binarizer is stored in the row order of its
input. For a width of at least 30 and a height `h` of at least 25, when the constructor of
the bit matrix sets no error, `binarizeImage` returns 0 and stores a matrix of the
dimensions of the source in which the bit at row `j` and column `z` encodes (255 as 0, 0
as 1) the thresholded value of the pixel at row `j` and column `z` of the luminance
buffer it read: `TransBufferToMat` and `TransMatToBuffer` each put row `h - 1 - j` in the
place of row `j`, and under the composition `TransBufferToMat`,
`adaptiveThresholdGaussian`, `TransMatToBuffer` the two inversions cancel. -/
theorem adaptive_bits_same_row (lib : BinarizerLibrary) (self : AdaptiveThresholdMeanBinarizer)
    (err : Int) (hw : 30 ≤ self.width) (hh : 25 ≤ self.height)
    (hnew : lib.BitMatrix_new self.width self.height err = 0) :
    (∃ bits, self.binarizeImage lib err =
        (0, ⟨self.width, self.height, self.source, some ⟨self.width, self.height, bits⟩⟩, 0) ∧
      ∀ j z : Nat, (j : Int) < self.height → (z : Int) < self.width →
        bits (j * self.width.toNat + z) =
          if adaptiveThresholdGaussian lib.exp self.source self.height self.width
              (AdaptiveThresholdMeanBinarizer.block_size self.width) Bias
              (j * self.width.toNat + z) > 120 then 0 else 1) ∧
      (∀ j z : Nat, (TransBufferToMat self.source self.width self.height).data j z =
        self.source ((self.height - 1 - (j : Int)).toNat * self.width.toNat + z)) ∧
      (∀ (m : Nat → Nat → Nat) (j z : Nat), (z : Int) < self.width →
        TransMatToBuffer ⟨self.height, self.width, 1, m⟩ (j * self.width.toNat + z) =
          if m (self.height - (j : Int) - 1).toNat z > 120 then 0 else 1) :=  by
  refine ⟨binarizeImage_bits lib self err hw hh hnew, fun j z => rfl, ?_⟩
  intro m j z hz
  have hzn : z < self.width.toNat := by omega
  unfold TransMatToBuffer
  simp only [(index_div_mod self.width.toNat j z hzn).1,
    (index_div_mod self.width.toNat j z hzn).2]

/-- Witness of C23 (amended): for the luminance buffer whose first row is black, the bit
at row 0 and column 0 encodes the thresholded value of the pixel at row 0 and column 0. -/
theorem adaptive_bits_same_row_witness :
    ∃ bits, example_dark_row_binarizer.binarizeImage example_gaussian_library 0 =
        (0, ⟨example_dark_row_binarizer.width, example_dark_row_binarizer.height,
          example_dark_row_binarizer.source,
          some ⟨example_dark_row_binarizer.width, example_dark_row_binarizer.height, bits⟩⟩, 0) ∧
      bits (0 * example_dark_row_binarizer.width.toNat + 0) =
        if adaptiveThresholdGaussian example_gaussian_library.exp
            example_dark_row_binarizer.source example_dark_row_binarizer.height
            example_dark_row_binarizer.width
            (AdaptiveThresholdMeanBinarizer.block_size example_dark_row_binarizer.width) Bias
            (0 * example_dark_row_binarizer.width.toNat + 0) > 120 then 0 else 1 := by
  obtain ⟨bits, hb, hbits⟩ := (adaptive_bits_same_row example_gaussian_library
    example_dark_row_binarizer 0 (by decide) (by decide) rfl).1
  exact ⟨bits, hb, hbits 0 0 (by decide) (by decide)⟩

/-- C24: for every constant `C` and every image of width at least 30 and height at least 25
whose pixels all equal `C`, when `exp` takes positive values and the constructor of the bit
matrix sets no error, the normalised Gaussian kernel sums to 1, the blur of the image is
`C` at every pixel, every pixel satisfies `C > C - 10` and gets the thresholded value 255,
and `binarizeImage` returns 0 and stores a matrix all of whose bits are 0, the same class
for every `C`. -/
theorem uniform_image_uniform_bits (lib : BinarizerLibrary)
    (self : AdaptiveThresholdMeanBinarizer) (err : Int) (C : Nat) (hw : 30 ≤ self.width)
    (hh : 25 ≤ self.height) (hnew : lib.BitMatrix_new self.width self.height err = 0)
    (hexp : ∀ x, 0 < lib.exp x)
    (hC : ∀ p, p < self.height.toNat * self.width.toNat → self.source p = C) :
    (∑ x in Finset.range (AdaptiveThresholdMeanBinarizer.block_size self.width).toNat,
        generateGaussianKernel lib.exp (AdaptiveThresholdMeanBinarizer.block_size self.width) x
        = 1) ∧
      (∀ k, gaussianBlur lib.exp (fun p => (self.source p : double)) self.height self.width
        (AdaptiveThresholdMeanBinarizer.block_size self.width) k = (C : double)) ∧
      (∀ k, k < self.height.toNat * self.width.toNat →
        adaptiveThresholdGaussian lib.exp self.source self.height self.width
          (AdaptiveThresholdMeanBinarizer.block_size self.width) Bias k = 255) ∧
      ∃ bits, self.binarizeImage lib err =
          (0, ⟨self.width, self.height, self.source, some ⟨self.width, self.height, bits⟩⟩, 0) ∧
        ∀ j z : Nat, (j : Int) < self.height → (z : Int) < self.width →
          bits (j * self.width.toNat + z) = 0 := by
  have hb := block_size_eq self.width (by omega)
  have e1 : ((self.width.toNat : Nat) : Int) = self.width := Int.toNat_of_nonneg (by omega)
  have e2 : ((self.height.toNat : Nat) : Int) = self.height := Int.toNat_of_nonneg (by omega)
  have e3 : (((AdaptiveThresholdMeanBinarizer.block_size self.width).toNat : Nat) : Int) =
      AdaptiveThresholdMeanBinarizer.block_size self.width :=
    Int.toNat_of_nonneg (by rw [hb]; omega)
  have hK : 0 < (AdaptiveThresholdMeanBinarizer.block_size self.width).toNat := by
    rw [hb]; omega
  have hH : 0 < self.height.toNat := by omega
  have hW : 0 < self.width.toNat := by omega
  have hsum := kernel_sum_eq_one lib.exp hexp
    (AdaptiveThresholdMeanBinarizer.block_size self.width).toNat hK
  rw [e3] at hsum
  have hblur : ∀ k, gaussianBlur lib.exp (fun p => (self.source p : double)) self.height
      self.width (AdaptiveThresholdMeanBinarizer.block_size self.width) k = (C : double) := by
    intro k
    have h := gaussianBlur_const lib.exp hexp (fun p => (self.source p : double))
      self.height.toNat self.width.toNat
      (AdaptiveThresholdMeanBinarizer.block_size self.width).toNat hH hW hK (C : double)
      (fun p hp => by simp only [hC p hp]) k
    rw [e1, e2, e3] at h
    exact h
  have hval : ∀ k, k < self.height.toNat * self.width.toNat →
      adaptiveThresholdGaussian lib.exp self.source self.height self.width
        (AdaptiveThresholdMeanBinarizer.block_size self.width) Bias k = 255 := by
    intro k hk
    have h := adaptiveThreshold_const lib.exp hexp self.source self.height.toNat
      self.width.toNat (AdaptiveThresholdMeanBinarizer.block_size self.width).toNat hH hW hK
      Bias (by decide) C hC k hk
    rw [e1, e2, e3] at h
    exact h
  refine ⟨hsum, hblur, hval, ?_⟩
  obtain ⟨bits, hbin, hbits⟩ := binarizeImage_bits lib self err hw hh hnew
  refine ⟨bits, hbin, fun j z hj hz => ?_⟩
  rw [hbits j z hj hz, hval _ (index_lt _ _ j z (by omega) (by omega))]
  decide

/-- Witness of C24: the uniform image of 30 columns and 25 rows with intensity 200 and the
example library: every stored bit is 0. -/
theorem uniform_image_uniform_bits_witness :
    ∃ bits, AdaptiveThresholdMeanBinarizer.binarizeImage example_gaussian_library
          ⟨30, 25, fun _ => 200, none⟩ 0 =
        (0, ⟨30, 25, fun _ => 200, some ⟨30, 25, bits⟩⟩, 0) ∧
      ∀ j z : Nat, (j : Int) < 25 → (z : Int) < 30 → bits (j * (30 : Int).toNat + z) = 0 :=
  (uniform_image_uniform_bits example_gaussian_library ⟨30, 25, fun _ => 200, none⟩ 0 200
    (by decide) (by decide) rfl example_gaussian_exp_pos (fun _ _ => rfl)).2.2.2
/-! ## Lemmas on `utf8_to_utf16` -/

set_option maxRecDepth 100000 in
/-- The classification of a start byte, in arithmetic form. -/
theorem utf8_lead_eq : ∀ b, b < 256 → utf8_lead b =
    if b < 0x80 then some (b, 1)
    else if b < 0xC0 then none
    else if b < 0xE0 then some (b - 0xC0, 2)
    else if b < 0xF0 then some (b - 0xE0, 3)
    else if b < 0xF8 then some (b - 0xF0, 4)
    else none := by
  decide

set_option maxRecDepth 100000 in
/-- The test and the payload of a continuation byte, in arithmetic form. -/
theorem utf8_cont_eq : ∀ b, b < 256 →
    (b &&& 0xC0 = 0x80 ↔ 0x80 ≤ b ∧ b < 0xC0) ∧ b &&& 0x3F = b % 64 := by
  decide

/-- One step of the loop over the continuation bytes, in arithmetic form. -/
theorem utf8_shift_or (cp b : Nat) (hcp : cp < 2 ^ 26) (hb : b < 256) :
    ((cp <<< 6) % 2 ^ 32) ||| (b &&& 0x3F) = cp * 64 + b % 64 := by
  rw [(utf8_cont_eq b hb).2, Nat.shiftLeft_eq]
  have h1 : cp * 2 ^ 6 % 2 ^ 32 = 2 ^ 6 * cp := by omega
  have h2 : b % 64 < 2 ^ 6 := by omega
  rw [h1, ← Nat.mul_add_lt_is_or h2]
  omega

/-- The loop over the continuation bytes for the lengths 1 to 4, in arithmetic form. -/
theorem utf8_continuation_eq (src : Nat → Byte) (i cp : Nat) (hcp : cp < 32) :
    utf8_continuation src i 1 cp = some cp ∧
      utf8_continuation src i 2 cp =
        (if 0x80 ≤ (src (i + 1)).val ∧ (src (i + 1)).val < 0xC0 then
          some (cp * 64 + (src (i + 1)).val % 64) else none) ∧
      utf8_continuation src i 3 cp =
        (if 0x80 ≤ (src (i + 1)).val ∧ (src (i + 1)).val < 0xC0 then
          if 0x80 ≤ (src (i + 2)).val ∧ (src (i + 2)).val < 0xC0 then
            some ((cp * 64 + (src (i + 1)).val % 64) * 64 + (src (i + 2)).val % 64)
          else none
        else none) ∧
      utf8_continuation src i 4 cp =
        (if 0x80 ≤ (src (i + 1)).val ∧ (src (i + 1)).val < 0xC0 then
          if 0x80 ≤ (src (i + 2)).val ∧ (src (i + 2)).val < 0xC0 then
            if 0x80 ≤ (src (i + 3)).val ∧ (src (i + 3)).val < 0xC0 then
              some (((cp * 64 + (src (i + 1)).val % 64) * 64 + (src (i + 2)).val % 64) * 64 +
                (src (i + 3)).val % 64)
            else none
          else none
        else none) := by
  have b1 := (src (i + 1)).isLt
  have b2 := (src (i + 2)).isLt
  have b3 := (src (i + 3)).isLt
  have c1 := (utf8_cont_eq _ b1).1
  have c2 := (utf8_cont_eq _ b2).1
  have c3 := (utf8_cont_eq _ b3).1
  have s1 := utf8_shift_or cp _ (by omega) b1
  have m1 : (src (i + 1)).val % 64 < 64 := Nat.mod_lt _ (by norm_num)
  have m2 : (src (i + 2)).val % 64 < 64 := Nat.mod_lt _ (by norm_num)
  have s2 := utf8_shift_or (cp * 64 + (src (i + 1)).val % 64) _ (by omega) b2
  have s3 := utf8_shift_or ((cp * 64 + (src (i + 1)).val % 64) * 64 + (src (i + 2)).val % 64) _
    (by omega) b3
  refine ⟨rfl, ?_, ?_, ?_⟩
  · simp only [utf8_continuation, List.range_succ, List.range_zero, List.nil_append,
      List.foldl_cons, List.foldl_nil, Option.bind_some, ne_eq, c1, s1]
    split_ifs <;> simp_all
  · simp only [utf8_continuation, List.range_succ, List.range_zero, List.nil_append,
      List.foldl_cons, List.foldl_nil, List.cons_append, Option.bind_some, ne_eq, c1, c2, s1]
    by_cases h1 : 0x80 ≤ (src (i + 1)).val ∧ (src (i + 1)).val < 0xC0
    · simp only [h1, and_self, not_true_eq_false, if_false, if_true, Option.bind_some, s2]
      split_ifs <;> simp_all
    · simp [h1]
  · simp only [utf8_continuation, List.range_succ, List.range_zero, List.nil_append,
      List.foldl_cons, List.foldl_nil, List.cons_append, Option.bind_some, ne_eq, c1, c2, c3,
      s1]
    by_cases h1 : 0x80 ≤ (src (i + 1)).val ∧ (src (i + 1)).val < 0xC0
    · simp only [h1, and_self, not_true_eq_false, if_false, if_true, Option.bind_some, s2]
      by_cases h2 : 0x80 ≤ (src (i + 2)).val ∧ (src (i + 2)).val < 0xC0
      · simp only [h2, and_self, not_true_eq_false, if_false, if_true, Option.bind_some, s3]
        split_ifs <;> simp_all
      · simp [h2]
    · simp [h1]

/-- The value `utf8_lead` gives for the start byte of the encoding of a scalar value. -/
theorem utf8_lead_encode (cp : Nat) (hs : is_scalar_value cp) :
    utf8_lead ((utf8_encode_scalar cp).getD 0 0) =
      if cp < 0x80 then some (cp, 1)
      else if cp < 0x800 then some (cp / 64, 2)
      else if cp < 0x10000 then some (cp / 4096, 3)
      else some (cp / 262144, 4) := by
  obtain ⟨hmax, _⟩ := hs
  unfold utf8_encode_scalar
  split_ifs with h1 h2 h3
  · rw [List.getD_cons_zero, utf8_lead_eq _ (by omega), if_pos h1]
  · rw [List.getD_cons_zero, utf8_lead_eq _ (by omega)]
    have e : 0xC0 + cp / 64 - 0xC0 = cp / 64 := by omega
    rw [if_neg (by omega), if_neg (by omega), if_pos (by omega), e]
  · rw [List.getD_cons_zero, utf8_lead_eq _ (by omega)]
    have e : 0xE0 + cp / 4096 - 0xE0 = cp / 4096 := by omega
    rw [if_neg (by omega), if_neg (by omega), if_neg (by omega), if_pos (by omega), e]
  · rw [List.getD_cons_zero, utf8_lead_eq _ (by omega)]
    have e : 0xF0 + cp / 262144 - 0xF0 = cp / 262144 := by omega
    rw [if_neg (by omega), if_neg (by omega), if_neg (by omega), if_neg (by omega),
      if_pos (by omega), e]

/-- The two surrogates written by `utf8_to_utf16` for a code point above U+FFFF, `x` being
the code point less `0x10000`, in arithmetic form. -/
theorem utf16_surrogates (x : Nat) (hx : x < 2 ^ 20) :
    (0xD800 ||| (x >>> 10)) % 2 ^ 16 = 0xD800 + x / 1024 ∧
      (0xDC00 ||| (x &&& 0x3FF)) % 2 ^ 16 = 0xDC00 + x % 1024 := by
  have h1 : x >>> 10 = x / 2 ^ 10 := Nat.shiftRight_eq_div_pow _ _
  have h2 : x &&& 0x3FF = x % 2 ^ 10 := Nat.and_pow_two_sub_one_eq_mod x 10
  have h3 : x / 2 ^ 10 < 2 ^ 10 := by omega
  have h4 : x % 2 ^ 10 < 2 ^ 10 := Nat.mod_lt _ (by norm_num)
  have h5 := Nat.mul_add_lt_is_or h3 54
  have h6 := Nat.mul_add_lt_is_or h4 55
  have e5 : (0xD800 : Nat) = 2 ^ 10 * 54 := by norm_num
  have e6 : (0xDC00 : Nat) = 2 ^ 10 * 55 := by norm_num
  rw [h1, h2, e5, e6, ← h5, ← h6]
  omega

/-- The encodings of a scalar value are not empty. -/
theorem encode_scalar_length_pos (cp : Nat) :
    0 < (utf8_encode_scalar cp).length ∧ 0 < (utf16_encode_scalar cp).length := by
  unfold utf8_encode_scalar utf16_encode_scalar
  constructor <;> split_ifs <;> simp

/-- The scalar step for a scalar value below U+0080. -/
theorem utf8_body_scalar_one (src : Nat → Byte) (src_len dst_max : Int)
    (st : Utf16State) (cp : Nat) (hs : is_scalar_value cp) (h0 : cp ≠ 0) (c1 : cp < 0x80)
    (hbytes : ∀ k, k < (utf8_encode_scalar cp).length →
      (src (st.i + k)).val = (utf8_encode_scalar cp).getD k 0)
    (hlen : ((st.i + (utf8_encode_scalar cp).length : Nat) : Int) ≤ src_len) :
    utf8_to_utf16_body src src_len dst_max st =
      (⟨st.i + (utf8_encode_scalar cp).length, st.out + (utf16_encode_scalar cp).length,
        fun k => if st.out ≤ k ∧ k < st.out + (utf16_encode_scalar cp).length
          then (utf16_encode_scalar cp).getD (k - st.out) 0 else st.dst k⟩, true) := by
  have hsc := hs
  obtain ⟨hmax, hsur⟩ := hs
  have hlead := utf8_lead_encode cp hsc
  have hb0 := hbytes 0
  rw [Nat.add_zero] at hb0
  unfold utf8_to_utf16_body
  have e8 : utf8_encode_scalar cp = [cp] := by simp [utf8_encode_scalar, c1]
  have e16 : utf16_encode_scalar cp = [cp] := by
    simp only [utf16_encode_scalar]; rw [if_pos (by omega)]
  rw [e8] at hbytes hlen hb0 hlead
  simp only [List.length_singleton, List.getD_cons_zero] at hbytes hlen hb0 hlead
  rw [if_pos c1] at hlead
  have hb := hb0 (by norm_num)
  simp only [hb, h0, if_false, hlead]
  have hc : utf8_continuation src st.i 1 cp = some cp := rfl
  rw [if_neg (by push_cast at hlen ⊢; omega), hc]
  simp only []
  rw [if_neg (by omega), if_pos (by omega), e8, e16]
  simp only [List.length_singleton]
  congr 2
  funext k
  by_cases hk : k = st.out
  · subst hk
    simp
    omega
  · rw [Function.update_noteq hk, if_neg (by omega)]

/-- The scalar step for a scalar value from U+0080 to U+07FF. -/
theorem utf8_body_scalar_two (src : Nat → Byte) (src_len dst_max : Int)
    (st : Utf16State) (cp : Nat) (hs : is_scalar_value cp) (c1 : ¬ cp < 0x80) (c2 : cp < 0x800)
    (hbytes : ∀ k, k < (utf8_encode_scalar cp).length →
      (src (st.i + k)).val = (utf8_encode_scalar cp).getD k 0)
    (hlen : ((st.i + (utf8_encode_scalar cp).length : Nat) : Int) ≤ src_len) :
    utf8_to_utf16_body src src_len dst_max st =
      (⟨st.i + (utf8_encode_scalar cp).length, st.out + (utf16_encode_scalar cp).length,
        fun k => if st.out ≤ k ∧ k < st.out + (utf16_encode_scalar cp).length
          then (utf16_encode_scalar cp).getD (k - st.out) 0 else st.dst k⟩, true) := by
  have hsc := hs
  obtain ⟨hmax, hsur⟩ := hs
  have hlead := utf8_lead_encode cp hsc
  have hb0 := hbytes 0
  rw [Nat.add_zero] at hb0
  unfold utf8_to_utf16_body
  have e8 : utf8_encode_scalar cp = [0xC0 + cp / 64, 0x80 + cp % 64] := by
    simp [utf8_encode_scalar, c1, c2]
  have e16 : utf16_encode_scalar cp = [cp] := by
    simp only [utf16_encode_scalar]; rw [if_pos (by omega)]
  rw [e8] at hbytes hlen hb0 hlead
  simp only [List.length_cons, List.length_nil, List.getD_cons_zero] at hbytes hlen hb0 hlead
  rw [if_neg c1, if_pos c2] at hlead
  have hb := hb0 (by norm_num)
  have hb1 : (src (st.i + 1)).val = 0x80 + cp % 64 := hbytes 1 (by norm_num)
  have hne : ¬ (0xC0 + cp / 64 = 0) := by omega
  simp only [hb, hne, if_false, hlead]
  have hc : utf8_continuation src st.i 2 (cp / 64) = some cp := by
    rw [(utf8_continuation_eq src st.i (cp / 64) (by omega)).2.1, hb1, if_pos (by omega)]
    congr 1
    omega
  rw [if_neg (by push_cast at hlen ⊢; omega), hc]
  simp only []
  rw [if_neg (by omega), if_pos (by omega), e8, e16]
  simp only [List.length_cons, List.length_nil]
  congr 2
  funext k
  by_cases hk : k = st.out
  · subst hk
    simp
    omega
  · rw [Function.update_noteq hk, if_neg (by omega)]

/-- The scalar step for a scalar value from U+0800 to U+FFFF. -/
theorem utf8_body_scalar_three (src : Nat → Byte) (src_len dst_max : Int)
    (st : Utf16State) (cp : Nat) (hs : is_scalar_value cp) (c1 : ¬ cp < 0x80) (c2 : ¬ cp < 0x800) (c3 : cp < 0x10000)
    (hbytes : ∀ k, k < (utf8_encode_scalar cp).length →
      (src (st.i + k)).val = (utf8_encode_scalar cp).getD k 0)
    (hlen : ((st.i + (utf8_encode_scalar cp).length : Nat) : Int) ≤ src_len) :
    utf8_to_utf16_body src src_len dst_max st =
      (⟨st.i + (utf8_encode_scalar cp).length, st.out + (utf16_encode_scalar cp).length,
        fun k => if st.out ≤ k ∧ k < st.out + (utf16_encode_scalar cp).length
          then (utf16_encode_scalar cp).getD (k - st.out) 0 else st.dst k⟩, true) := by
  have hsc := hs
  obtain ⟨hmax, hsur⟩ := hs
  have hlead := utf8_lead_encode cp hsc
  have hb0 := hbytes 0
  rw [Nat.add_zero] at hb0
  unfold utf8_to_utf16_body
  have e8 : utf8_encode_scalar cp =
      [0xE0 + cp / 4096, 0x80 + cp / 64 % 64, 0x80 + cp % 64] := by
    simp [utf8_encode_scalar, c1, c2, c3]
  have e16 : utf16_encode_scalar cp = [cp] := by
    simp only [utf16_encode_scalar]; rw [if_pos (by omega)]
  rw [e8] at hbytes hlen hb0 hlead
  simp only [List.length_cons, List.length_nil, List.getD_cons_zero] at hbytes hlen hb0 hlead
  rw [if_neg c1, if_neg c2, if_pos c3] at hlead
  have hb := hb0 (by norm_num)
  have hb1 : (src (st.i + 1)).val = 0x80 + cp / 64 % 64 := hbytes 1 (by norm_num)
  have hb2 : (src (st.i + 2)).val = 0x80 + cp % 64 := hbytes 2 (by norm_num)
  have hne : ¬ (0xE0 + cp / 4096 = 0) := by omega
  simp only [hb, hne, if_false, hlead]
  have hc : utf8_continuation src st.i 3 (cp / 4096) = some cp := by
    rw [(utf8_continuation_eq src st.i (cp / 4096) (by omega)).2.2.1, hb1, hb2,
      if_pos (by omega), if_pos (by omega)]
    congr 1
    omega
  rw [if_neg (by push_cast at hlen ⊢; omega), hc]
  simp only []
  rw [if_neg (by omega), if_pos (by omega), e8, e16]
  simp only [List.length_cons, List.length_nil]
  congr 2
  funext k
  by_cases hk : k = st.out
  · subst hk
    simp
    omega
  · rw [Function.update_noteq hk, if_neg (by omega)]

/-- The scalar step for a scalar value above U+FFFF. -/
theorem utf8_body_scalar_four (src : Nat → Byte) (src_len dst_max : Int)
    (st : Utf16State) (cp : Nat) (hs : is_scalar_value cp) (c1 : ¬ cp < 0x80) (c2 : ¬ cp < 0x800) (c3 : ¬ cp < 0x10000)
    (hbytes : ∀ k, k < (utf8_encode_scalar cp).length →
      (src (st.i + k)).val = (utf8_encode_scalar cp).getD k 0)
    (hlen : ((st.i + (utf8_encode_scalar cp).length : Nat) : Int) ≤ src_len)
    (hout : ((st.out + (utf16_encode_scalar cp).length : Nat) : Int) ≤ dst_max) :
    utf8_to_utf16_body src src_len dst_max st =
      (⟨st.i + (utf8_encode_scalar cp).length, st.out + (utf16_encode_scalar cp).length,
        fun k => if st.out ≤ k ∧ k < st.out + (utf16_encode_scalar cp).length
          then (utf16_encode_scalar cp).getD (k - st.out) 0 else st.dst k⟩, true) := by
  have hsc := hs
  obtain ⟨hmax, hsur⟩ := hs
  have hlead := utf8_lead_encode cp hsc
  have hb0 := hbytes 0
  rw [Nat.add_zero] at hb0
  unfold utf8_to_utf16_body
  have e8 : utf8_encode_scalar cp =
      [0xF0 + cp / 262144, 0x80 + cp / 4096 % 64, 0x80 + cp / 64 % 64, 0x80 + cp % 64] := by
    simp [utf8_encode_scalar, c1, c2, c3]
  have e16 : utf16_encode_scalar cp =
      [0xD800 + (cp - 0x10000) / 1024, 0xDC00 + (cp - 0x10000) % 1024] := by
    simp only [utf16_encode_scalar]; rw [if_neg (by omega)]
  rw [e8] at hbytes hlen hb0 hlead
  rw [e16] at hout
  simp only [List.length_cons, List.length_nil, List.getD_cons_zero] at hbytes hlen hout hb0 hlead
  rw [if_neg c1, if_neg c2, if_neg c3] at hlead
  have hb := hb0 (by norm_num)
  have hb1 : (src (st.i + 1)).val = 0x80 + cp / 4096 % 64 := hbytes 1 (by norm_num)
  have hb2 : (src (st.i + 2)).val = 0x80 + cp / 64 % 64 := hbytes 2 (by norm_num)
  have hb3 : (src (st.i + 3)).val = 0x80 + cp % 64 := hbytes 3 (by norm_num)
  have hne : ¬ (0xF0 + cp / 262144 = 0) := by omega
  simp only [hb, hne, if_false, hlead]
  have hc : utf8_continuation src st.i 4 (cp / 262144) = some cp := by
    rw [(utf8_continuation_eq src st.i (cp / 262144) (by omega)).2.2.2, hb1, hb2, hb3,
      if_pos (by omega), if_pos (by omega), if_pos (by omega)]
    congr 1
    omega
  rw [if_neg (by push_cast at hlen ⊢; omega), hc]
  simp only []
  obtain ⟨s1, s2⟩ := utf16_surrogates (cp - 0x10000) (by omega)
  rw [if_neg (by omega), if_neg (by omega), if_pos (by push_cast at hout ⊢; omega), e8, e16,
    s1, s2]
  simp only [List.length_cons, List.length_nil]
  congr 2
  funext k
  by_cases hk1 : k = st.out + 1
  · subst hk1
    have e : st.out + 1 - st.out = 1 := by omega
    rw [Function.update_same, if_pos ⟨by omega, by omega⟩, e, List.getD_cons_succ,
      List.getD_cons_zero]
  · rw [Function.update_noteq hk1]
    by_cases hk : k = st.out
    · subst hk
      rw [Function.update_same, if_pos ⟨by omega, by omega⟩, Nat.sub_self, List.getD_cons_zero]
    · rw [Function.update_noteq hk, if_neg (by omega)]

/-- One iteration of the loop at the encoding of a scalar value other than U+0000, with
the whole sequence inside `src` and room in `dst` for its code units: the index advances
by the length of the UTF-8 sequence, the UTF-16 code units of the scalar value are
written at `out` and the loop goes on. -/
theorem utf8_body_scalar (src : Nat → Byte) (src_len dst_max : Int)
    (st : Utf16State) (cp : Nat) (hs : is_scalar_value cp) (h0 : cp ≠ 0)
    (hbytes : ∀ k, k < (utf8_encode_scalar cp).length →
      (src (st.i + k)).val = (utf8_encode_scalar cp).getD k 0)
    (hlen : ((st.i + (utf8_encode_scalar cp).length : Nat) : Int) ≤ src_len)
    (hout : ((st.out + (utf16_encode_scalar cp).length : Nat) : Int) ≤ dst_max) :
    utf8_to_utf16_body src src_len dst_max st =
      (⟨st.i + (utf8_encode_scalar cp).length, st.out + (utf16_encode_scalar cp).length,
        fun k => if st.out ≤ k ∧ k < st.out + (utf16_encode_scalar cp).length
          then (utf16_encode_scalar cp).getD (k - st.out) 0 else st.dst k⟩, true) := by
  by_cases c1 : cp < 0x80
  · exact utf8_body_scalar_one src src_len dst_max st cp hs h0 c1 hbytes hlen
  by_cases c2 : cp < 0x800
  · exact utf8_body_scalar_two src src_len dst_max st cp hs c1 c2 hbytes hlen
  by_cases c3 : cp < 0x10000
  · exact utf8_body_scalar_three src src_len dst_max st cp hs c1 c2 c3 hbytes hlen
  · exact utf8_body_scalar_four src src_len dst_max st cp hs c1 c2 c3 hbytes hlen hout

/-- The loop of `utf8_to_utf16` with fuel left, in terms of its body. -/
theorem utf8_loop_succ (src : Nat → Byte) (src_len dst_max : Int) (fuel : Nat)
    (st : Utf16State) :
    utf8_to_utf16_loop src src_len dst_max (fuel + 1) st =
      if (st.i : Int) < src_len ∧ (st.out : Int) < dst_max then
        if (utf8_to_utf16_body src src_len dst_max st).2 then
          utf8_to_utf16_loop src src_len dst_max fuel (utf8_to_utf16_body src src_len dst_max st).1
        else some (utf8_to_utf16_body src src_len dst_max st).1
      else some st := by
  rw [utf8_to_utf16_loop]

/-- One iteration of the loop at the encoding of a scalar value, as `utf8_body_scalar`. -/
theorem utf8_loop_scalar (src : Nat → Byte) (src_len dst_max : Int) (fuel : Nat)
    (st : Utf16State) (cp : Nat) (hs : is_scalar_value cp) (h0 : cp ≠ 0)
    (hbytes : ∀ k, k < (utf8_encode_scalar cp).length →
      (src (st.i + k)).val = (utf8_encode_scalar cp).getD k 0)
    (hlen : ((st.i + (utf8_encode_scalar cp).length : Nat) : Int) ≤ src_len)
    (hout : ((st.out + (utf16_encode_scalar cp).length : Nat) : Int) ≤ dst_max) :
    utf8_to_utf16_loop src src_len dst_max (fuel + 1) st =
      utf8_to_utf16_loop src src_len dst_max fuel
        ⟨st.i + (utf8_encode_scalar cp).length, st.out + (utf16_encode_scalar cp).length,
          fun k => if st.out ≤ k ∧ k < st.out + (utf16_encode_scalar cp).length
            then (utf16_encode_scalar cp).getD (k - st.out) 0 else st.dst k⟩ := by
  obtain ⟨p8, p16⟩ := encode_scalar_length_pos cp
  have hcond : (st.i : Int) < src_len ∧ (st.out : Int) < dst_max := by
    constructor <;> push_cast at hlen hout <;> omega
  rw [utf8_loop_succ, if_pos hcond,
    utf8_body_scalar src src_len dst_max st cp hs h0 hbytes hlen hout]
  simp only [if_true]

/-- The loop of `utf8_to_utf16` on the UTF-8 encoding of a sequence of scalar values other
than U+0000 that ends at `src_len`, with room in `dst` for its UTF-16 encoding and more
fuel than scalar values: the loop ends at `src_len`, having written the UTF-16 encoding at
`out` and nothing elsewhere. -/
theorem utf8_loop_encode (src : Nat → Byte) (src_len dst_max : Int) :
    ∀ (cps : List Nat) (fuel : Nat) (st : Utf16State),
      (∀ cp, cp ∈ cps → is_scalar_value cp ∧ cp ≠ 0) →
      (∀ k, k < (utf8_encode cps).length →
        (src (st.i + k)).val = (utf8_encode cps).getD k 0) →
      ((st.i + (utf8_encode cps).length : Nat) : Int) = src_len →
      ((st.out + (utf16_encode cps).length : Nat) : Int) ≤ dst_max →
      cps.length < fuel →
      ∃ d, utf8_to_utf16_loop src src_len dst_max fuel st =
          some ⟨st.i + (utf8_encode cps).length, st.out + (utf16_encode cps).length, d⟩ ∧
        (∀ k, k < (utf16_encode cps).length →
          d (st.out + k) = (utf16_encode cps).getD k 0) ∧
        (∀ k, k < st.out ∨ st.out + (utf16_encode cps).length ≤ k → d k = st.dst k) := by
  intro cps
  induction cps with
  | nil =>
    intro fuel st _ _ hlen _ hfuel
    obtain ⟨f, rfl⟩ : ∃ f, fuel = f + 1 := ⟨fuel - 1, by omega⟩
    simp only [utf8_encode, utf16_encode, List.length_nil, Nat.add_zero] at hlen ⊢
    refine ⟨st.dst, ?_, fun k hk => by omega, fun _ _ => rfl⟩
    rw [utf8_loop_succ, if_neg (by omega)]
  | cons cp rest ih =>
    intro fuel st hsc hbytes hlen hout hfuel
    obtain ⟨f, rfl⟩ : ∃ f, fuel = f + 1 := ⟨fuel - 1, by omega⟩
    obtain ⟨p8, p16⟩ := encode_scalar_length_pos cp
    simp only [utf8_encode, utf16_encode, List.length_append, List.length_cons] at hbytes hlen hout hfuel ⊢
    have hcp := hsc cp (List.mem_cons_self _ _)
    have hstep := utf8_loop_scalar src src_len dst_max f st cp hcp.1 hcp.2
      (fun k hk => by
        rw [hbytes k (by omega), List.getD_append _ _ _ _ hk])
      (by push_cast at hlen ⊢; omega) (by push_cast at hout ⊢; omega)
    obtain ⟨d, hd, hw, ho⟩ := ih f
      ⟨st.i + (utf8_encode_scalar cp).length, st.out + (utf16_encode_scalar cp).length,
        fun k => if st.out ≤ k ∧ k < st.out + (utf16_encode_scalar cp).length
          then (utf16_encode_scalar cp).getD (k - st.out) 0 else st.dst k⟩
      (fun c hc => hsc c (List.mem_cons_of_mem _ hc))
      (fun k hk => by
        have h := hbytes ((utf8_encode_scalar cp).length + k) (by omega)
        rw [List.getD_append_right _ _ _ _ (by omega)] at h
        have e : (utf8_encode_scalar cp).length + k - (utf8_encode_scalar cp).length = k := by
          omega
        rw [e, ← Nat.add_assoc] at h
        exact h)
      (by push_cast at hlen ⊢; omega) (by push_cast at hout ⊢; omega) (by omega)
    simp only [] at hd hw ho
    refine ⟨d, ?_, ?_, ?_⟩
    · rw [hstep, hd, Nat.add_assoc, Nat.add_assoc]
    · intro k hk
      by_cases h1 : k < (utf16_encode_scalar cp).length
      · rw [ho (st.out + k) (Or.inl (by omega)), if_pos ⟨by omega, by omega⟩,
          List.getD_append _ _ _ _ h1]
        congr 1
        omega
      · have h := hw (k - (utf16_encode_scalar cp).length) (by omega)
        rw [List.getD_append_right _ _ _ _ (by omega), ← h]
        congr 1
        omega
    · intro k hk
      rw [ho k (by omega), if_neg (by omega)]

/-- The start bytes accepted by `utf8_lead`, with the length and the initial value of `cp`
they give. -/
theorem utf8_lead_some (b cp0 len : Nat) (hb : b < 256) (h : utf8_lead b = some (cp0, len)) :
    (len = 1 ∧ cp0 = b ∧ b < 0x80) ∨ (len = 2 ∧ 0xC0 ≤ b ∧ b < 0xE0 ∧ cp0 = b - 0xC0) ∨
      (len = 3 ∧ 0xE0 ≤ b ∧ b < 0xF0 ∧ cp0 = b - 0xE0) ∨
      (len = 4 ∧ 0xF0 ≤ b ∧ b < 0xF8 ∧ cp0 = b - 0xF0) := by
  rw [utf8_lead_eq b hb] at h
  split_ifs at h <;> simp only [Option.some.injEq, Prod.mk.injEq] at h <;> omega

/-- A sequence that passes all the tests of the loop body is the UTF-8 encoding of a
scalar value, the value of `cp` after the loop over the continuation bytes. -/
theorem utf8_accept_well_formed (src : Nat → Byte) (i : Nat) (src_len : Int)
    (cp0 len cp : Nat) (hl : utf8_lead (src i).val = some (cp0, len))
    (hinc : ¬ ((i + len : Nat) : Int) > src_len)
    (hc : utf8_continuation src i len cp0 = some cp)
    (hrej : ¬ ((len = 2 ∧ cp < 0x80) ∨ (len = 3 ∧ cp < 0x800) ∨ (len = 4 ∧ cp < 0x10000) ∨
      (cp ≥ 0xD800 ∧ cp ≤ 0xDFFF) ∨ cp > 0x10FFFF)) :
    is_scalar_value cp ∧ (utf8_encode_scalar cp).length = len ∧
      ∀ k, k < (utf8_encode_scalar cp).length →
        (src (i + k)).val = (utf8_encode_scalar cp).getD k 0 := by
  have hsc : is_scalar_value cp := by
    unfold is_scalar_value
    omega
  have m1 : (src (i + 1)).val % 64 < 64 := Nat.mod_lt _ (by norm_num)
  have m2 : (src (i + 2)).val % 64 < 64 := Nat.mod_lt _ (by norm_num)
  have m3 : (src (i + 3)).val % 64 < 64 := Nat.mod_lt _ (by norm_num)
  refine ⟨hsc, ?_⟩
  rcases utf8_lead_some _ _ _ (src i).isLt hl with ⟨rfl, h1, h2⟩ | ⟨rfl, h1, h2, h3⟩ |
    ⟨rfl, h1, h2, h3⟩ | ⟨rfl, h1, h2, h3⟩
  · have hc1 : utf8_continuation src i 1 cp0 = some cp0 := rfl
    rw [hc1, Option.some.injEq] at hc
    subst hc
    subst h1
    have e8 : utf8_encode_scalar (src i).val = [(src i).val] := by
      simp [utf8_encode_scalar, h2]
    rw [e8]
    refine ⟨rfl, fun k hk => ?_⟩
    have hk0 : k = 0 := by simpa using hk
    subst hk0
    rw [Nat.add_zero, List.getD_cons_zero]
  · rw [(utf8_continuation_eq src i cp0 (by omega)).2.1] at hc
    split_ifs at hc with hb1
    rw [Option.some.injEq] at hc
    have e8 : utf8_encode_scalar cp = [0xC0 + cp / 64, 0x80 + cp % 64] := by
      unfold utf8_encode_scalar
      rw [if_neg (by omega), if_pos (by omega)]
    rw [e8]
    refine ⟨rfl, fun k hk => ?_⟩
    have hk2 : k < 2 := hk
    interval_cases k
    · rw [Nat.add_zero, List.getD_cons_zero]; omega
    · rw [List.getD_cons_succ, List.getD_cons_zero]; omega
  · rw [(utf8_continuation_eq src i cp0 (by omega)).2.2.1] at hc
    split_ifs at hc with hb1 hb2
    rw [Option.some.injEq] at hc
    have e8 : utf8_encode_scalar cp =
        [0xE0 + cp / 4096, 0x80 + cp / 64 % 64, 0x80 + cp % 64] := by
      unfold utf8_encode_scalar
      rw [if_neg (by omega), if_neg (by omega), if_pos (by omega)]
    rw [e8]
    refine ⟨rfl, fun k hk => ?_⟩
    have hk3 : k < 3 := hk
    interval_cases k
    · rw [Nat.add_zero, List.getD_cons_zero]; omega
    · rw [List.getD_cons_succ, List.getD_cons_zero]; omega
    · rw [List.getD_cons_succ, List.getD_cons_succ, List.getD_cons_zero]; omega
  · rw [(utf8_continuation_eq src i cp0 (by omega)).2.2.2] at hc
    split_ifs at hc with hb1 hb2 hb3
    rw [Option.some.injEq] at hc
    have e8 : utf8_encode_scalar cp =
        [0xF0 + cp / 262144, 0x80 + cp / 4096 % 64, 0x80 + cp / 64 % 64, 0x80 + cp % 64] := by
      unfold utf8_encode_scalar
      rw [if_neg (by omega), if_neg (by omega), if_neg (by omega)]
    rw [e8]
    refine ⟨rfl, fun k hk => ?_⟩
    have hk4 : k < 4 := hk
    interval_cases k
    · rw [Nat.add_zero, List.getD_cons_zero]; omega
    · rw [List.getD_cons_succ, List.getD_cons_zero]; omega
    · rw [List.getD_cons_succ, List.getD_cons_succ, List.getD_cons_zero]; omega
    · rw [List.getD_cons_succ, List.getD_cons_succ, List.getD_cons_succ, List.getD_cons_zero]
      omega

/-- One iteration of the loop body: `out` does not decrease and stays within `dst_max`
when it was below it, and when the loop goes on the index `i` has advanced. -/
theorem utf8_body_bounds (src : Nat → Byte) (src_len dst_max : Int) (st : Utf16State) :
    st.out ≤ (utf8_to_utf16_body src src_len dst_max st).1.out ∧
      ((st.out : Int) < dst_max →
        ((utf8_to_utf16_body src src_len dst_max st).1.out : Int) ≤ dst_max) ∧
      ((utf8_to_utf16_body src src_len dst_max st).2 = true →
        st.i < (utf8_to_utf16_body src src_len dst_max st).1.i) := by
  unfold utf8_to_utf16_body
  simp only []
  by_cases hb : (src st.i).val = 0
  · rw [if_pos hb]
    exact ⟨le_refl _, fun h => le_of_lt h, fun h => by cases h⟩
  rw [if_neg hb]
  cases hl : utf8_lead (src st.i).val with
  | none =>
    simp only []
    exact ⟨by omega, fun h => by push_cast; omega, fun _ => by omega⟩
  | some p =>
    obtain ⟨cp0, len⟩ := p
    have hlen : 1 ≤ len := by
      rcases utf8_lead_some _ _ _ (src st.i).isLt hl with h | h | h | h <;> omega
    simp only []
    by_cases hinc : ((st.i + len : Nat) : Int) > src_len
    · rw [if_pos hinc]
      exact ⟨by simp, fun h => by push_cast; omega, fun h => by cases h⟩
    rw [if_neg hinc]
    cases hc : utf8_continuation src st.i len cp0 with
    | none =>
      simp only []
      exact ⟨by omega, fun h => by push_cast; omega, fun _ => by omega⟩
    | some cp =>
      simp only []
      split_ifs with h1 h2 h3
      · exact ⟨by simp, fun h => by push_cast; omega, fun _ => by simp; omega⟩
      · exact ⟨by simp, fun h => by push_cast; omega, fun _ => by simp; omega⟩
      · exact ⟨by simp, fun h => by push_cast at h3 ⊢; omega, fun _ => by simp; omega⟩
      · exact ⟨le_refl _, fun h => le_of_lt h, fun h => by cases h⟩

/-- One iteration of the loop body at a non-zero byte where no well-formed UTF-8 sequence
starts: the code unit `0xFFFD` is written at `out`, which grows by one. -/
theorem utf8_body_invalid (src : Nat → Byte) (src_len dst_max : Int) (st : Utf16State)
    (hb : (src st.i).val ≠ 0) (hw : ¬ utf8_well_formed_at src st.i src_len) :
    (utf8_to_utf16_body src src_len dst_max st).1.out = st.out + 1 ∧
      (utf8_to_utf16_body src src_len dst_max st).1.dst =
        Function.update st.dst st.out 0xFFFD := by
  unfold utf8_to_utf16_body
  simp only []
  rw [if_neg hb]
  cases hl : utf8_lead (src st.i).val with
  | none => exact ⟨rfl, rfl⟩
  | some p =>
    obtain ⟨cp0, len⟩ := p
    simp only []
    by_cases hinc : ((st.i + len : Nat) : Int) > src_len
    · rw [if_pos hinc]
      exact ⟨rfl, rfl⟩
    rw [if_neg hinc]
    cases hc : utf8_continuation src st.i len cp0 with
    | none => exact ⟨rfl, rfl⟩
    | some cp =>
      simp only []
      by_cases hrej : (len = 2 ∧ cp < 0x80) ∨ (len = 3 ∧ cp < 0x800) ∨
          (len = 4 ∧ cp < 0x10000) ∨ (cp ≥ 0xD800 ∧ cp ≤ 0xDFFF) ∨ cp > 0x10FFFF
      · rw [if_pos hrej]
        exact ⟨rfl, rfl⟩
      · exfalso
        apply hw
        obtain ⟨hsc, hlen, hbytes⟩ :=
          utf8_accept_well_formed src st.i src_len cp0 len cp hl hinc hc hrej
        exact ⟨cp, hsc, by rw [hlen]; omega, hbytes⟩

/-- The count `out` at the end of the loop is at least the count at its start and at most
`dst_max`, or the count at its start when that is above `dst_max`. -/
theorem utf8_loop_bounds (src : Nat → Byte) (src_len dst_max : Int) :
    ∀ (fuel : Nat) (st st2 : Utf16State),
      utf8_to_utf16_loop src src_len dst_max fuel st = some st2 →
        st.out ≤ st2.out ∧ (st2.out : Int) ≤ max dst_max (st.out : Int) := by
  intro fuel
  induction fuel with
  | zero => intro st st2 h; simp [utf8_to_utf16_loop] at h
  | succ n ih =>
    intro st st2 h
    rw [utf8_loop_succ] at h
    obtain ⟨b1, b2, _⟩ := utf8_body_bounds src src_len dst_max st
    split_ifs at h with hcond hgo
    · obtain ⟨i1, i2⟩ := ih _ _ h
      have := b2 hcond.2
      refine ⟨le_trans b1 i1, ?_⟩
      rcases le_max_iff.mp i2 with i3 | i3
      · exact le_max_of_le_left i3
      · exact le_max_of_le_left (le_trans i3 this)
    · rw [Option.some.injEq] at h
      subst h
      exact ⟨b1, le_max_of_le_left (b2 hcond.2)⟩
    · rw [Option.some.injEq] at h
      subst h
      exact ⟨le_refl _, le_max_right _ _⟩

/-- The loop ends within `src_len - i + 1` iterations. -/
theorem utf8_loop_returns (src : Nat → Byte) (src_len dst_max : Int) :
    ∀ (fuel : Nat) (st : Utf16State), (src_len - (st.i : Int)).toNat < fuel →
      ∃ st2, utf8_to_utf16_loop src src_len dst_max fuel st = some st2 := by
  intro fuel
  induction fuel with
  | zero => intro st h; omega
  | succ n ih =>
    intro st h
    rw [utf8_loop_succ]
    obtain ⟨_, _, b3⟩ := utf8_body_bounds src src_len dst_max st
    split_ifs with hcond hgo
    · have := b3 hgo
      exact ih _ (by omega)
    · exact ⟨_, rfl⟩
    · exact ⟨_, rfl⟩

/-! ## Claim on `utf8_to_utf16` -/

/-- Counterexample to C27 as stated: with `dst_max = -1` the function returns the count 0,
which is not between 0 and `dst_max`. -/
theorem utf8_to_utf16_negative_capacity :
    ∃ n, (utf8_to_utf16 9 (some example_utf8) 8 (some fun _ => 0) (-1)).map Prod.fst = some n ∧
      ¬ (0 ≤ n ∧ n ≤ (-1 : Int)) :=
  ⟨0, rfl, by decide⟩

/-- C27 (amended): `utf8_to_utf16` converts standard UTF-8 to UTF-16. For every sequence of
Unicode scalar values other than U+0000, given its UTF-8 encoding as `src` with `src_len`
its length in bytes, a `dst_max` of at least the number of UTF-16 code units of the
sequence and more iterations than scalar values, the function returns that number and has
written the UTF-16 encoding of the sequence (one code unit for a code point of the BMP, a
high and a low surrogate otherwise) at the start of `dst`, the rest of `dst` being left as
it was. For every input the function returns within `src_len + 1` iterations of its loop,
and the count it returns is between 0 and `dst_max` when `dst_max >= 0` and is 0 when
`dst_max <= 0`. In an iteration of the loop at a non-zero byte where no well-formed UTF-8
sequence starts, the code unit `0xFFFD` is written at `out` and `out` grows by one. -/
theorem utf8_to_utf16_converts :
    (∀ (cps : List Nat) (src : Nat → Byte) (dst : Nat → Nat) (dst_max : Int) (fuel : Nat),
        (∀ cp, cp ∈ cps → is_scalar_value cp ∧ cp ≠ 0) →
        (∀ k, k < (utf8_encode cps).length → (src k).val = (utf8_encode cps).getD k 0) →
        ((utf16_encode cps).length : Int) ≤ dst_max →
        cps.length < fuel →
        ∃ d, utf8_to_utf16 fuel (some src) ((utf8_encode cps).length : Int) (some dst) dst_max =
            some (((utf16_encode cps).length : Int), some d) ∧
          (∀ k, k < (utf16_encode cps).length → d k = (utf16_encode cps).getD k 0) ∧
          (∀ k, (utf16_encode cps).length ≤ k → d k = dst k)) ∧
      (∀ (fuel : Nat) (src : Option (Nat → Byte)) (src_len : Int) (dst : Option (Nat → Nat))
          (dst_max : Int),
        (src_len.toNat < fuel → ∃ r, utf8_to_utf16 fuel src src_len dst dst_max = some r) ∧
        ∀ n d, utf8_to_utf16 fuel src src_len dst dst_max = some (n, d) →
          0 ≤ n ∧ (0 ≤ dst_max → n ≤ dst_max) ∧ (dst_max ≤ 0 → n = 0)) ∧
      (∀ (src : Nat → Byte) (src_len dst_max : Int) (fuel : Nat) (st : Utf16State),
        (st.i : Int) < src_len → (st.out : Int) < dst_max → (src st.i).val ≠ 0 →
        ¬ utf8_well_formed_at src st.i src_len →
        (utf8_to_utf16_body src src_len dst_max st).1.out = st.out + 1 ∧
          (utf8_to_utf16_body src src_len dst_max st).1.dst st.out = 0xFFFD ∧
          utf8_to_utf16_loop src src_len dst_max (fuel + 1) st =
            if (utf8_to_utf16_body src src_len dst_max st).2 then
              utf8_to_utf16_loop src src_len dst_max fuel
                (utf8_to_utf16_body src src_len dst_max st).1
            else some (utf8_to_utf16_body src src_len dst_max st).1) := by
  refine ⟨?_, ?_, ?_⟩
  · intro cps src dst dst_max fuel hsc hbytes hmax hfuel
    cases cps with
    | nil =>
      refine ⟨dst, ?_, fun k hk => by simp [utf16_encode] at hk, fun _ _ => rfl⟩
      simp [utf8_to_utf16, utf8_encode, utf16_encode]
    | cons cp rest =>
      obtain ⟨p8, p16⟩ := encode_scalar_length_pos cp
      have l8 : 0 < (utf8_encode (cp :: rest)).length := by
        simp only [utf8_encode, List.length_append]; omega
      have l16 : 0 < (utf16_encode (cp :: rest)).length := by
        simp only [utf16_encode, List.length_append]; omega
      obtain ⟨d, hd, hw, ho⟩ := utf8_loop_encode src ((utf8_encode (cp :: rest)).length : Int)
        dst_max (cp :: rest) fuel ⟨0, 0, dst⟩ hsc
        (fun k hk => by rw [Nat.zero_add]; exact hbytes k hk)
        (by rw [Nat.zero_add]) (by rw [Nat.zero_add]; exact hmax) hfuel
      simp only [Nat.zero_add] at hd hw ho
      refine ⟨d, ?_, hw, fun k hk => ho k (Or.inr hk)⟩
      unfold utf8_to_utf16
      simp only []
      rw [if_neg (by omega), hd]
      rfl
  · intro fuel src src_len dst dst_max
    constructor
    · intro hfuel
      unfold utf8_to_utf16
      cases src with
      | none => exact ⟨_, rfl⟩
      | some s =>
        cases dst with
        | none => exact ⟨_, rfl⟩
        | some d =>
          simp only []
          split_ifs with hg
          · exact ⟨_, rfl⟩
          · obtain ⟨st2, h2⟩ := utf8_loop_returns s src_len dst_max fuel ⟨0, 0, d⟩
              (by simp only [Nat.cast_zero, sub_zero]; exact hfuel)
            rw [h2]
            exact ⟨_, rfl⟩
    · intro n d h
      unfold utf8_to_utf16 at h
      cases src with
      | none =>
        simp only [Option.some.injEq, Prod.mk.injEq] at h
        rw [← h.1]
        exact ⟨le_refl _, fun h0 => h0, fun _ => rfl⟩
      | some s =>
        cases dst with
        | none =>
          simp only [Option.some.injEq, Prod.mk.injEq] at h
          rw [← h.1]
          exact ⟨le_refl _, fun h0 => h0, fun _ => rfl⟩
        | some d0 =>
          simp only [] at h
          split_ifs at h with hg
          · simp only [Option.some.injEq, Prod.mk.injEq] at h
            rw [← h.1]
            exact ⟨le_refl _, fun h0 => h0, fun _ => rfl⟩
          · cases hl : utf8_to_utf16_loop s src_len dst_max fuel ⟨0, 0, d0⟩ with
            | none => rw [hl] at h; cases h
            | some st2 =>
              rw [hl] at h
              simp only [Option.map_some', Option.some.injEq, Prod.mk.injEq] at h
              obtain ⟨_, hb⟩ := utf8_loop_bounds s src_len dst_max fuel ⟨0, 0, d0⟩ st2 hl
              rw [← h.1]
              have hb2 : (st2.out : Int) ≤ max dst_max 0 := by simpa using hb
              have hmax : max dst_max 0 = dst_max := max_eq_left (by omega)
              rw [hmax] at hb2
              exact ⟨by positivity, fun _ => hb2, fun h0 => by omega⟩
  · intro src src_len dst_max fuel st hi ho hb hw
    obtain ⟨h1, h2⟩ := utf8_body_invalid src src_len dst_max st hb hw
    refine ⟨h1, by rw [h2, Function.update_same], ?_⟩
    rw [utf8_loop_succ, if_pos ⟨hi, ho⟩]

/-- Witness of C27 (amended): the UTF-8 bytes `41 E2 82 AC F0 9F 98 80` of the scalar values U+0041,
U+20AC and U+1F600, with `dst_max = 4`: the function returns 4 and writes the code units
`0041 20AC D83D DE00`. -/
theorem utf8_to_utf16_converts_witness :
    ∃ d, utf8_to_utf16 4 (some example_utf8)
          ((utf8_encode [0x41, 0x20AC, 0x1F600]).length : Int) (some fun _ => 0) 4 =
        some (((utf16_encode [0x41, 0x20AC, 0x1F600]).length : Int), some d) ∧
      (∀ k, k < (utf16_encode [0x41, 0x20AC, 0x1F600]).length →
        d k = (utf16_encode [0x41, 0x20AC, 0x1F600]).getD k 0) ∧
      (∀ k, (utf16_encode [0x41, 0x20AC, 0x1F600]).length ≤ k → d k = (fun _ => 0) k) :=
  utf8_to_utf16_converts.1 [0x41, 0x20AC, 0x1F600] example_utf8 (fun _ => 0) 4 4
    (by
      intro cp h
      simp only [List.mem_cons, List.mem_singleton, List.not_mem_nil, or_false] at h
      rcases h with rfl | rfl | rfl <;> exact ⟨⟨by decide, by decide⟩, by decide⟩)
    (by decide) (by decide) (by decide)
